import Mathlib

/-!
# Verification of the trading-report core (`csvProcessor` / report display)

This file gives a shallow embedding of the order-to-trade reconstruction
engine, the metrics aggregator, the report renderer and the report
re-parser of the repository, and proves/refutes the frozen claims about
them.

Modelling conventions:
* JavaScript `number` values are modelled as `ℚ` (prices, profits,
  percentages) or `ℤ`/`ℕ` (signed quantities, counts, timestamps);
  binary-floating-point artefacts are outside the model.
* `Date` objects are modelled by their epoch value in milliseconds (`ℤ`),
  which is exactly what the source manipulates (`getTime()`).
* JavaScript strings are kept as Lean `String`s in the data model; inside
  the renderer/parser they are manipulated as `List Char` (`JStr`), the
  underlying representation, so that list lemmas apply.
* The per-symbol mutable object `symbolPositions` is modelled as an
  insertion-ordered association list, matching the key-iteration order of
  a JavaScript object with non-numeric keys.
* `while` loops are modelled as fuel-indexed structural recursions; the
  fuel `entries.length + 1` is an upper bound on the number of iterations
  (each iteration either pops the head lot or zeroes the remaining close
  quantity), and the zero-fuel case is proved unreachable where needed.
-/

namespace TradingReport

set_option maxRecDepth 8192

/-- `Order` record of `csvProcessor.ts` (one fill event). -/
structure Order where
  timestamp : Int
  symbol : String
  baseSymbol : String
  price : ℚ
  quantity : Int
  otype : String
  status : String
  value : ℚ
  tag : String
  multiplier : ℚ
deriving DecidableEq

/-- One queue entry of `symbolPositions[symbol].entries`: the source keeps
tuples `[entryQty, entryPrice, entryTime, entryOrder]`. -/
structure Entry where
  qty : Int
  price : ℚ
  time : Int
  order : Order
deriving DecidableEq

/-- `Trade` record of `csvProcessor.ts` (one realized close event). -/
structure Trade where
  tradeId : Nat
  symbol : String
  baseSymbol : String
  otype : String
  position : String
  quantity : Int
  entryTime : Int
  exitTime : Int
  entryPrice : ℚ
  exitPrice : ℚ
  profit : ℚ
  percentGain : ℚ
  size : ℚ
  duration : ℚ
  entryTag : String
  exitTag : String
deriving DecidableEq

/-- `OpenPosition` record of `csvProcessor.ts`. -/
structure OpenPosition where
  symbol : String
  otype : String
  position : String
  quantity : Int
  avgPrice : ℚ
  costBasis : ℚ
  size : ℚ
  firstEntry : Int
deriving DecidableEq

/-- The value of `metrics.profitFactor`: an ordinary number or the
JavaScript `Number.POSITIVE_INFINITY`. -/
inductive PFVal where
  | finite (q : ℚ)
  | posInf
deriving DecidableEq

/-- `Metrics` record of `csvProcessor.ts`. -/
structure Metrics where
  totalTrades : Nat
  winningTrades : Nat
  losingTrades : Nat
  winPercentage : ℚ
  avgGain : ℚ
  avgLoss : ℚ
  totalProfit : ℚ
  profitFactor : PFVal
  avgSize : ℚ
  longTrades : Nat
  shortTrades : Nat
  longProfit : ℚ
  shortProfit : ℚ
deriving DecidableEq

/-- `const CAPITAL_BASE = 100000`. -/
def CAPITAL_BASE : ℚ := 100000

/-- A capital letter `A`–`Z` (the character class of the regexp
`/^([A-Z]+)/` in `getBaseSymbol`). -/
def isCap (c : Char) : Bool := decide ('A' ≤ c ∧ c ≤ 'Z')

/-- Any ASCII letter (used by the spec-worded variant below). -/
def isLetterAZ (c : Char) : Bool := decide (('A' ≤ c ∧ c ≤ 'Z') ∨ ('a' ≤ c ∧ c ≤ 'z'))

/-- `getBaseSymbol`: `symbol.match(/^([A-Z]+)/)` returns the longest prefix
of capital letters; if the regexp does not match (no leading capital
letter), the symbol itself is returned; the empty string maps to `""`. -/
def getBaseSymbol (symbol : String) : String :=
  if symbol = "" then ""
  else
    let m := symbol.toList.takeWhile isCap
    if m.isEmpty then symbol else ⟨m⟩

/-- `CONTRACT_MULTIPLIERS` lookup with default 50 (`getMultiplier`). -/
def CONTRACT_MULTIPLIERS : List (String × ℚ) :=
  [("ES", 50), ("NQ", 20), ("RTY", 50), ("GC", 100), ("CL", 1000),
   ("ZB", 1000), ("ZN", 1000), ("YM", 5), ("SI", 5000), ("NG", 10000)]

/-- `getMultiplier(symbol)`. -/
def getMultiplier (symbol : String) : ℚ :=
  match (CONTRACT_MULTIPLIERS.find? (fun p => p.1 == getBaseSymbol symbol)) with
  | some p => p.2
  | none => 50

/-- Per-symbol state `symbolPositions[symbol]`. -/
structure SymState where
  position : Int
  entries : List Entry
deriving DecidableEq

/-- The whole `symbolPositions` object: insertion-ordered association
list from symbol to per-symbol state. -/
abbrev LedgerState := List (String × SymState)

/-- Reading `symbolPositions[symbol]`. -/
def lookupSym (st : LedgerState) (s : String) : Option SymState :=
  (st.find? (fun p => p.1 == s)).map (·.2)

/-- Writing `symbolPositions[symbol]` back (the key is already present). -/
def setSym (st : LedgerState) (s : String) (pd : SymState) : LedgerState :=
  st.map (fun p => if p.1 = s then (s, pd) else p)

/-- The trade built inside the buy branch (closing a short lot). -/
def mkShortTrade (ord : Order) (tid : Nat) (e : Entry) (closeQty : Int) : Trade :=
  { tradeId := tid
    symbol := ord.symbol
    baseSymbol := ord.baseSymbol
    otype := "future"
    position := "short"
    quantity := closeQty
    entryTime := e.time
    exitTime := ord.timestamp
    entryPrice := e.price
    exitPrice := ord.price
    profit := (e.price - ord.price) * ord.multiplier * (closeQty : ℚ)
    percentGain := if 0 < e.price then (e.price - ord.price) / e.price * 100 else 0
    size := e.price * ord.multiplier / CAPITAL_BASE * 100
    duration := ((ord.timestamp - e.time : Int) : ℚ) / (1000 * 60)
    entryTag := e.order.tag
    exitTag := ord.tag }

/-- The trade built inside the sell branch (closing a long lot). -/
def mkLongTrade (ord : Order) (tid : Nat) (e : Entry) (closeQty : Int) : Trade :=
  { tradeId := tid
    symbol := ord.symbol
    baseSymbol := ord.baseSymbol
    otype := "future"
    position := "long"
    quantity := closeQty
    entryTime := e.time
    exitTime := ord.timestamp
    entryPrice := e.price
    exitPrice := ord.price
    profit := (ord.price - e.price) * ord.multiplier * (closeQty : ℚ)
    percentGain := if 0 < e.price then (ord.price - e.price) / e.price * 100 else 0
    size := e.price * ord.multiplier / CAPITAL_BASE * 100
    duration := ((ord.timestamp - e.time : Int) : ℚ) / (1000 * 60)
    entryTag := e.order.tag
    exitTag := ord.tag }

/-- The `while (qtyToClose > 0 && posData.entries.length > 0)` loop of the
buy branch (closing short lots), as a fuel-indexed recursion.  Each
iteration either removes the head lot or (partial close) zeroes the
remaining quantity so that the next iteration exits through the guard;
hence `entries.length + 1` fuel always suffices.  Returns the emitted
trades (in emission order), the remaining queue and the next trade id. -/
def closeShortLoop (ord : Order) : Nat → Nat → Int → List Entry →
    List Trade × List Entry × Nat
  | 0, tid, _, es => ([], es, tid)
  | _ + 1, tid, _, [] => ([], [], tid)
  | fuel + 1, tid, qtyToClose, e :: rest =>
    if qtyToClose ≤ 0 then ([], e :: rest, tid)
    else
      let closeQty := min qtyToClose |e.qty|
      let t := mkShortTrade ord tid e closeQty
      let next := if closeQty < |e.qty| then { e with qty := e.qty + closeQty } :: rest else rest
      let r := closeShortLoop ord fuel (tid + 1) (qtyToClose - closeQty) next
      (t :: r.1, r.2.1, r.2.2)

/-- The analogous loop of the sell branch (closing long lots).  Note the
source uses `Math.min(qtyToClose, entryQty)` here, without `Math.abs`. -/
def closeLongLoop (ord : Order) : Nat → Nat → Int → List Entry →
    List Trade × List Entry × Nat
  | 0, tid, _, es => ([], es, tid)
  | _ + 1, tid, _, [] => ([], [], tid)
  | fuel + 1, tid, qtyToClose, e :: rest =>
    if qtyToClose ≤ 0 then ([], e :: rest, tid)
    else
      let closeQty := min qtyToClose e.qty
      let t := mkLongTrade ord tid e closeQty
      let next := if closeQty < e.qty then { e with qty := e.qty - closeQty } :: rest else rest
      let r := closeLongLoop ord fuel (tid + 1) (qtyToClose - closeQty) next
      (t :: r.1, r.2.1, r.2.2)

/-- The short-closing loop started with sufficient fuel. -/
def closeShortEntries (ord : Order) (tid : Nat) (q : Int) (es : List Entry) :
    List Trade × List Entry × Nat :=
  closeShortLoop ord (es.length + 1) tid q es

/-- The long-closing loop started with sufficient fuel. -/
def closeLongEntries (ord : Order) (tid : Nat) (q : Int) (es : List Entry) :
    List Trade × List Entry × Nat :=
  closeLongLoop ord (es.length + 1) tid q es

/-- Processing one order inside the `for (const order of orders)` loop of
`buildTradesFromOrders`.  Returns the new ledger state, the trades emitted
for this order (in emission order) and the next trade id. -/
def applyOrder (st : LedgerState) (tid : Nat) (ord : Order) :
    LedgerState × List Trade × Nat :=
  let st0 := if (lookupSym st ord.symbol).isSome then st
             else st ++ [(ord.symbol, ⟨0, []⟩)]
  let pd := (lookupSym st0 ord.symbol).getD ⟨0, []⟩
  if 0 < ord.quantity then
    -- Buy order
    if pd.position < 0 then
      -- currently short: close short lots
      let remainingToClose := min ord.quantity |pd.position|
      let r := closeShortEntries ord tid remainingToClose pd.entries
      let pos1 := pd.position + remainingToClose
      let remainingQty := ord.quantity - remainingToClose
      let entries2 := if 0 < remainingQty
        then r.2.1 ++ [⟨remainingQty, ord.price, ord.timestamp, ord⟩]
        else r.2.1
      let pos2 := if 0 < remainingQty then pos1 + remainingQty else pos1
      (setSym st0 ord.symbol ⟨pos2, entries2⟩, r.1, r.2.2)
    else
      -- currently long or flat: add to long position
      (setSym st0 ord.symbol
        ⟨pd.position + ord.quantity,
         pd.entries ++ [⟨ord.quantity, ord.price, ord.timestamp, ord⟩]⟩, [], tid)
  else
    -- Sell order (the source treats any quantity ≤ 0 here)
    let sellQty := |ord.quantity|
    if 0 < pd.position then
      -- currently long: close long lots
      let remainingToClose := min sellQty pd.position
      let r := closeLongEntries ord tid remainingToClose pd.entries
      let pos1 := pd.position - remainingToClose
      let remainingQty := sellQty - remainingToClose
      let entries2 := if 0 < remainingQty
        then r.2.1 ++ [⟨-remainingQty, ord.price, ord.timestamp, ord⟩]
        else r.2.1
      let pos2 := if 0 < remainingQty then pos1 - remainingQty else pos1
      (setSym st0 ord.symbol ⟨pos2, entries2⟩, r.1, r.2.2)
    else
      -- currently short or flat: add to short position
      (setSym st0 ord.symbol
        ⟨pd.position - sellQty,
         pd.entries ++ [⟨-sellQty, ord.price, ord.timestamp, ord⟩]⟩, [], tid)

/-- One step of the fold over the order sequence, accumulating the ledger
state, the emitted trades and the running trade id (starting at 1). -/
def buildStep (acc : LedgerState × List Trade × Nat) (ord : Order) :
    LedgerState × List Trade × Nat :=
  let r := applyOrder acc.1 acc.2.2 ord
  (r.1, acc.2.1 ++ r.2.1, r.2.2)

/-- Sum of `Math.abs(qty)` over a queue (`totalQty`). -/
def totalAbsQty (es : List Entry) : Int :=
  (es.map (fun e => |e.qty|)).sum

/-- Sum of `Math.abs(qty) * price` over a queue (`totalValue`). -/
def totalAbsValue (es : List Entry) : ℚ :=
  (es.map (fun e => (|e.qty| : ℚ) * e.price)).sum

/-- The open-position computation at the end of `buildTradesFromOrders`,
iterating `Object.entries(symbolPositions)` in insertion order. -/
def openPositionsOf (st : LedgerState) : List OpenPosition :=
  st.filterMap (fun p =>
    match p.2.entries with
    | [] => none
    | e :: _ =>
      let totalQty := totalAbsQty p.2.entries
      if 0 < totalQty then
        let totalValue := totalAbsValue p.2.entries
        some { symbol := p.1
               otype := "future"
               position := if 0 < p.2.position then "long" else "short"
               quantity := |p.2.position|
               avgPrice := totalValue / (totalQty : ℚ)
               costBasis := totalValue
               size := totalValue / CAPITAL_BASE * 100
               firstEntry := e.time }
      else none)

/-- `buildTradesFromOrders`: fold the orders through the ledger, then read
off the open positions.  (The early return for an empty order list yields
the same value as the general path.) -/
def buildTradesFromOrders (orders : List Order) : List Trade × List OpenPosition :=
  let r := orders.foldl buildStep ([], [], 1)
  (r.2.1, openPositionsOf r.1)

/-- Signed sum of the lot quantities of a queue. -/
def entrySum (es : List Entry) : Int := (es.map (·.qty)).sum

/-- The tracked net position of a symbol (0 when the symbol was never
seen). -/
def symPosition (st : LedgerState) (s : String) : Int :=
  match lookupSym st s with
  | some pd => pd.position
  | none => 0

/-- The signed sum of the remaining lot quantities of a symbol's queue
(0 when the symbol was never seen). -/
def symEntrySum (st : LedgerState) (s : String) : Int :=
  match lookupSym st s with
  | some pd => entrySum pd.entries
  | none => 0

/-- Running signed sum of the quantities of the orders of one symbol. -/
def orderQtySum (orders : List Order) (s : String) : Int :=
  ((orders.filter (fun o => o.symbol == s)).map (·.quantity)).sum

/-- All lots of a queue are long. -/
def EntriesPos (es : List Entry) : Prop := ∀ e ∈ es, 0 < e.qty

/-- All lots of a queue are short. -/
def EntriesNeg (es : List Entry) : Prop := ∀ e ∈ es, e.qty < 0

/-- The per-symbol ledger invariant: the queue's signed quantity sum is
the tracked net position, and the queue holds lots of one direction
only. -/
def SymInv (pd : SymState) : Prop :=
  entrySum pd.entries = pd.position ∧ (EntriesPos pd.entries ∨ EntriesNeg pd.entries)

/-- The whole-ledger invariant: distinct symbol keys, and every
per-symbol state well formed. -/
def LedgerInv (st : LedgerState) : Prop :=
  (st.map (·.1)).Nodup ∧ ∀ p ∈ st, SymInv p.2

/-- The ledger state after folding a whole order sequence. -/
def finalLedger (orders : List Order) : LedgerState :=
  (orders.foldl buildStep ([], [], 1)).1

/-- Sum of the profits of a trade list. -/
def profitSum (ts : List Trade) : ℚ := (ts.map (·.profit)).sum

/-- Sum of the percent gains of a trade list. -/
def pctSum (ts : List Trade) : ℚ := (ts.map (·.percentGain)).sum

/-- `calculateMetrics`. -/
def calculateMetrics (trades : List Trade) : Metrics :=
  match trades with
  | [] =>
    { totalTrades := 0, winningTrades := 0, losingTrades := 0
      winPercentage := 0, avgGain := 0, avgLoss := 0, totalProfit := 0
      profitFactor := .finite 0, avgSize := 0, longTrades := 0
      shortTrades := 0, longProfit := 0, shortProfit := 0 }
  | _ :: _ =>
    let winningTrades := trades.filter (fun t => 0 < t.profit)
    let losingTrades := trades.filter (fun t => t.profit < 0)
    let longTrades := trades.filter (fun t => t.position == "long")
    let shortTrades := trades.filter (fun t => t.position == "short")
    let totalProfit := profitSum trades
    let totalGains := profitSum winningTrades
    let totalLosses := |profitSum losingTrades|
    let longProfit := profitSum longTrades
    let shortProfit := profitSum shortTrades
    let avgGain := if 0 < winningTrades.length
      then pctSum winningTrades / (winningTrades.length : ℚ) else 0
    let avgLoss := if 0 < losingTrades.length
      then |pctSum losingTrades / (losingTrades.length : ℚ)| else 0
    let avgSize := (trades.map (·.size)).sum / (trades.length : ℚ)
    let profitFactor := if 0 < totalLosses
      then PFVal.finite (totalGains / totalLosses) else PFVal.posInf
    { totalTrades := trades.length
      winningTrades := winningTrades.length
      losingTrades := losingTrades.length
      winPercentage := (winningTrades.length : ℚ) / (trades.length : ℚ) * 100
      avgGain := avgGain
      avgLoss := avgLoss
      totalProfit := totalProfit
      profitFactor := profitFactor
      avgSize := avgSize
      longTrades := longTrades.length
      shortTrades := shortTrades.length
      longProfit := longProfit
      shortProfit := shortProfit }

/-! ## Concrete sample data used by examples, counterexamples and witnesses -/

/-- A trade record with a prescribed profit (other fields arbitrary but
fixed); used to probe `calculateMetrics`. -/
def probeTrade (p : ℚ) : Trade :=
  { tradeId := 1, symbol := "ES", baseSymbol := "ES", otype := "future"
    position := "long", quantity := 1, entryTime := 0, exitTime := 0
    entryPrice := 100, exitPrice := 100, profit := p, percentGain := 0
    size := 5, duration := 0, entryTag := "", exitTag := "" }

/-- A buy order, used by concrete scenarios. -/
def mkOrder (ts : Int) (q : Int) (p : ℚ) : Order :=
  { timestamp := ts, symbol := "ES", baseSymbol := "ES", price := p, quantity := q
    otype := "market", status := "filled", value := 0, tag := "", multiplier := 50 }

/-- The single trade produced by the concrete run
`[mkOrder 0 3 100, mkOrder 60000 (-5) 110]` (buy 3 at 100, then sell 5 at
110): the sell closes the whole long lot of 3. -/
def flipTrade : Trade :=
  mkLongTrade (mkOrder 60000 (-5) 110) 1 ⟨3, 100, 0, mkOrder 0 3 100⟩ 3

/-- A concrete well-formed open position used as a rendering probe. -/
def probeOpen : OpenPosition :=
  { symbol := "ES", otype := "future", position := "short", quantity := 2
    avgPrice := 110, costBasis := 220, size := 11/50, firstEntry := 60000 }

/-- A concrete metrics record with both position types populated, used as a
rendering probe. -/
def probeMetrics : Metrics :=
  { totalTrades := 2, winningTrades := 1, losingTrades := 1, winPercentage := 50
    avgGain := 1, avgLoss := -1, totalProfit := 0, profitFactor := PFVal.finite 4
    avgSize := 5, longTrades := 1, shortTrades := 1, longProfit := 100, shortProfit := -100 }

/-- The spec's description of base-symbol derivation, following its words
literally: "the base symbol is obtained by stripping the trailing
non-letter characters (e.g. expiry codes) from the full symbol". -/
def specStripTrailingNonLetters (symbol : String) : String :=
  ⟨(symbol.toList.reverse.dropWhile (fun c => !isLetterAZ c)).reverse⟩

/-! ## Report generation (`generateReport`, `Index.tsx` 621–815)

JavaScript strings are modelled as `List Char` (named `JStr`).  Numbers
are exact rationals; `toFixed` is modelled as exact decimal rounding
(round half up on the magnitude) of the rational value, written with
integer arithmetic on the numerator and denominator so that it evaluates
by kernel reduction.  `new Date().toLocaleString()` is impure, so the
generated-on text is passed to the generator as an explicit parameter. -/

/-- JavaScript strings, modelled as character lists. -/
abbrev JStr := List Char

/-- Embed a Lean string literal as a `JStr`. -/
def S (s : String) : JStr := s.toList

/-- Whitespace characters (the relevant part of the JavaScript `\s`
class: our report text only ever contains these whitespace characters). -/
def isWsC (c : Char) : Bool :=
  c == ' ' || c == '\t' || c == '\n' || c == '\r' || c == '\x0b' || c == '\x0c'

/-- Decimal digit characters. -/
def isDigitC (c : Char) : Bool := decide ('0' ≤ c ∧ c ≤ '9')

/-- `pat` is a prefix of `l` (`String.prototype.startsWith`). -/
def hasPrefixC : JStr → JStr → Bool
  | [], _ => true
  | _ :: _, [] => false
  | p :: ps, c :: cs => p == c && hasPrefixC ps cs

/-- `l.includes(pat)` of JavaScript. -/
def containsSeq : JStr → JStr → Bool
  | [], pat => pat.isEmpty
  | c :: rest, pat => hasPrefixC pat (c :: rest) || containsSeq rest pat

/-- Decimal digits of `n`, most significant first, by fuel recursion so
that it unfolds by kernel reduction (`n + 1` units of fuel suffice). -/
def natToCharsAux : Nat → Nat → JStr
  | 0, _ => []
  | fuel + 1, n =>
    if n < 10 then [Nat.digitChar n]
    else natToCharsAux fuel (n / 10) ++ [Nat.digitChar (n % 10)]

/-- `n.toString()` for a nonnegative number. -/
def natToChars (n : Nat) : JStr := natToCharsAux (n + 1) n

/-- `i.toString()` for a (possibly negative) integer. -/
def intToChars (i : Int) : JStr :=
  if i < 0 then '-' :: natToChars i.natAbs else natToChars i.toNat

/-- Pad on the left with `'0'` up to length `n`. -/
def padLeftZeros (l : JStr) (n : Nat) : JStr := List.replicate (n - l.length) '0' ++ l

/-- Write the natural number `m` as a decimal string with a point before
its last `d` digits (`m` is the value scaled by `10^d`). -/
def natFixed (m : Nat) (d : Nat) : JStr :=
  if d = 0 then natToChars m
  else
    let s := padLeftZeros (natToChars m) (d + 1)
    s.take (s.length - d) ++ '.' :: s.drop (s.length - d)

/-- `⌊q·10^d + 1/2⌋` computed on the numerator and denominator with
integer floor division only, so it reduces in the kernel. -/
def roundedScaled (q : ℚ) (d : Nat) : Int :=
  (2 * q.num * (10 : Int) ^ d + (q.den : Int)).fdiv (2 * (q.den : Int))

/-- Model of `Number.prototype.toFixed(d)` on the exact rational value:
the magnitude is rounded half-up to `d` decimal places and a leading
`'-'` is kept for negative inputs.  (The binary floating-point artefacts
of JavaScript numbers are outside the model.) -/
def toFixed (q : ℚ) (d : Nat) : JStr :=
  if q < 0 then '-' :: natFixed (roundedScaled (-q) d).toNat d
  else natFixed (roundedScaled q d).toNat d

/-- `metrics.profitFactor.toFixed(d)`: `Number.POSITIVE_INFINITY`
renders as `"Infinity"`. -/
def pfToFixed (p : PFVal) (d : Nat) : JStr :=
  match p with
  | .finite q => toFixed q d
  | .posInf => S "Infinity"

/-- Two-digit zero-padded field of a date/time. -/
def pad2 (n : Nat) : JStr := padLeftZeros (natToChars n) 2

/-- Four-digit zero-padded year (epoch-millisecond dates all have
positive years, so the clamp `Int.toNat` is inert on real data). -/
def pad4 (i : Int) : JStr := padLeftZeros (natToChars i.toNat) 4

/-- Civil date (year, month, day) from days since the Unix epoch
(Howard Hinnant's `civil_from_days` algorithm, which is what
`Date.prototype.toISOString` amounts to for the date part). -/
def civilFromDays (z0 : Int) : Int × Nat × Nat :=
  let z := z0 + 719468
  let era : Int := z.fdiv 146097
  let doe : Nat := (z - era * 146097).toNat
  let yoe : Nat := (doe - doe / 1460 + doe / 36524 - doe / 146096) / 365
  let doy : Nat := doe - (365 * yoe + yoe / 4 - yoe / 100)
  let mp : Nat := (5 * doy + 2) / 153
  let d : Nat := doy - (153 * mp + 2) / 5 + 1
  let m : Nat := if mp < 10 then mp + 3 else mp - 9
  ((yoe : Int) + era * 400 + (if m ≤ 2 then 1 else 0), m, d)

/-- The `YYYY-MM-DD` part of `toISOString()` of an epoch millisecond. -/
def isoDate (ms : Int) : JStr :=
  let c := civilFromDays (ms.fdiv 86400000)
  pad4 c.1 ++ ('-' :: (pad2 c.2.1 ++ ('-' :: pad2 c.2.2)))

/-- The `HH:MM:SS` part of `toISOString()` of an epoch millisecond. -/
def isoTime (ms : Int) : JStr :=
  let r := (ms - ms.fdiv 86400000 * 86400000).toNat
  pad2 (r / 3600000) ++ (':' :: (pad2 (r % 3600000 / 60000) ++ (':' :: pad2 (r % 60000 / 1000))))

/-- `t.toISOString().slice(0, 19).replace('T', ' ')`. -/
def isoDateTime (ms : Int) : JStr := isoDate ms ++ ' ' :: isoTime ms

/-- `String.prototype.padEnd` with spaces. -/
def jsPadEnd (l : JStr) (n : Nat) : JStr := l ++ List.replicate (n - l.length) ' '

/-- `Array.prototype.join(' ')`. -/
def joinSp : List JStr → JStr
  | [] => []
  | [x] => x
  | x :: rest => x ++ ' ' :: joinSp rest

/-- `Array.prototype.join('\n')`. -/
def joinNl : List JStr → JStr
  | [] => []
  | [x] => x
  | x :: rest => x ++ '\n' :: joinNl rest

/-- `c.repeat(n)`. -/
def repChar (c : Char) (n : Nat) : JStr := List.replicate n c

/-- The twelve `[content, padEnd width]` cells of a realized-trade row
(`Index.tsx` 675–688; the last cell is not padded, giving it width 0). -/
def tradeCells (t : Trade) : List (JStr × Nat) :=
  [(natToChars t.tradeId, 4),
   (S t.symbol, 12),
   (S t.otype, 8),
   (S t.position, 6),
   (isoDateTime t.entryTime, 19),
   (isoDateTime t.exitTime, 19),
   (intToChars t.quantity, 6),
   ('$' :: toFixed t.entryPrice 2, 10),
   ('$' :: toFixed t.exitPrice 2, 10),
   ('$' :: toFixed t.profit 2, 12),
   (toFixed t.percentGain 1 ++ ['%'], 10),
   (toFixed t.size 1 ++ ['%'], 0)]

/-- One row of the `REALIZED TRADES` table. -/
def tradeRow (t : Trade) : JStr := joinSp ((tradeCells t).map (fun c => jsPadEnd c.1 c.2))

/-- The seven cells of an open-position row (`Index.tsx` 706–714). -/
def openCells (p : OpenPosition) : List (JStr × Nat) :=
  [(S p.symbol, 12),
   (S p.otype, 8),
   (S p.position, 6),
   (intToChars p.quantity, 6),
   ('$' :: toFixed p.avgPrice 2, 10),
   ('$' :: toFixed p.costBasis 2, 14),
   (toFixed p.size 1 ++ ['%'], 0)]

/-- One row of the `OPEN POSITIONS` table. -/
def openPositionRow (p : OpenPosition) : JStr :=
  joinSp ((openCells p).map (fun c => jsPadEnd c.1 c.2))

/-- The six cells of a `PERFORMANCE BY PRODUCT` row (`Index.tsx`
741–754), for base symbol `sym` whose trades are `ts`. -/
def productCells (sym : String) (ts : List Trade) : List (JStr × Nat) :=
  let wins := (ts.filter (fun t => 0 < t.profit)).length
  [(S sym, 12),
   (S "future", 8),
   (natToChars ts.length, 8),
   (toFixed (if 0 < ts.length then (wins : ℚ) / (ts.length : ℚ) * 100 else 0) 1 ++ ['%'], 8),
   ('$' :: toFixed (profitSum ts) 2, 15),
   (toFixed (if 0 < ts.length then pctSum ts / (ts.length : ℚ) else 0) 2 ++ ['%'], 0)]

/-- One row of the `PERFORMANCE BY PRODUCT` table. -/
def productRow (sym : String) (ts : List Trade) : JStr :=
  joinSp ((productCells sym ts).map (fun c => jsPadEnd c.1 c.2))

/-- First-occurrence-ordered distinct keys: the key order of the plain
object `symbolStats` (`Index.tsx` 724–731). -/
def dedupFirst : List String → List String
  | [] => []
  | k :: rest => k :: dedupFirst (rest.filter (fun x => !(x == k)))
termination_by l => l.length
decreasing_by
  simp only [List.length_cons]
  have := List.length_filter_le (fun x => !(x == k)) rest
  omega

/-- The data rows of the `PERFORMANCE BY PRODUCT` table:
`Object.entries(symbolStats).sort()` sorts the `[key, value]` entries by
their string form; since the separator `','` precedes `'0'`–`'9'` and
`'A'`–`'Z'`, on such keys this is exactly sorting by key, modelled with
`mergeSort` on the distinct base symbols. -/
def productRowsOf (trades : List Trade) : List JStr :=
  ((dedupFirst (trades.map (·.baseSymbol))).mergeSort (fun a b => decide (a ≤ b))).map
    (fun sym => productRow sym (trades.filter (fun t => t.baseSymbol == sym)))

/-- The five cells of the `Long` row of `PERFORMANCE BY POSITION TYPE`
(`Index.tsx` 771–785); only pushed when `metrics.longTrades > 0`, in
which case the divisors below are nonzero. -/
def longTypeCells (trades : List Trade) (m : Metrics) : List (JStr × Nat) :=
  let lt := trades.filter (fun t => t.position == "long")
  let wins := (lt.filter (fun t => 0 < t.profit)).length
  [(S "Long", 10),
   (natToChars m.longTrades, 8),
   (toFixed ((wins : ℚ) / (lt.length : ℚ) * 100) 1 ++ ['%'], 8),
   ('$' :: toFixed m.longProfit 2, 15),
   (toFixed (pctSum lt / (lt.length : ℚ)) 2 ++ ['%'], 0)]

/-- The `Long` row of the `PERFORMANCE BY POSITION TYPE` table. -/
def longTypeRow (trades : List Trade) (m : Metrics) : JStr :=
  joinSp ((longTypeCells trades m).map (fun c => jsPadEnd c.1 c.2))

/-- The five cells of the `Short` row (`Index.tsx` 789–803). -/
def shortTypeCells (trades : List Trade) (m : Metrics) : List (JStr × Nat) :=
  let st := trades.filter (fun t => t.position == "short")
  let wins := (st.filter (fun t => 0 < t.profit)).length
  [(S "Short", 10),
   (natToChars m.shortTrades, 8),
   (toFixed ((wins : ℚ) / (st.length : ℚ) * 100) 1 ++ ['%'], 8),
   ('$' :: toFixed m.shortProfit 2, 15),
   (toFixed (pctSum st / (st.length : ℚ)) 2 ++ ['%'], 0)]

/-- The `Short` row of the `PERFORMANCE BY POSITION TYPE` table. -/
def shortTypeRow (trades : List Trade) (m : Metrics) : JStr :=
  joinSp ((shortTypeCells trades m).map (fun c => jsPadEnd c.1 c.2))

/-- Column header of the realized-trades table (`Index.tsx` 665). -/
def tradesColHeader : JStr :=
  S "ID   Symbol       Type     Pos    Entry Time          Exit Time           Qty    Entry      Exit       Profit       Gain %     Size %"

/-- Column header of the open-positions table (`Index.tsx` 701). -/
def openColHeader : JStr :=
  S "Symbol       Type     Pos    Qty    Price      Cost Basis     Size %"

/-- Column header of the by-product table (`Index.tsx` 736). -/
def productColHeader : JStr :=
  S "Symbol       Type     Trades   Win %    Total P/L       Avg %"

/-- Column header of the by-position-type table (`Index.tsx` 766). -/
def typeColHeader : JStr :=
  S "Position   Trades   Win %    Total P/L       Avg %"

/-- Report header block (`Index.tsx` 625–631). -/
def headerLines (generatedOn : JStr) : List JStr :=
  [repChar '=' 80,
   S "FUTURES TRADING PERFORMANCE REPORT",
   S "Generated on: " ++ generatedOn,
   repChar '=' 80,
   []]

/-- `OVERALL PERFORMANCE` block (`Index.tsx` 634–647). -/
def overallLines (m : Metrics) : List JStr :=
  [S "OVERALL PERFORMANCE",
   repChar '-' 60,
   S "Total Trades:    " ++ natToChars m.totalTrades,
   S "Winning Trades:  " ++ natToChars m.winningTrades,
   S "Losing Trades:   " ++ natToChars m.losingTrades,
   S "Win Rate:        " ++ toFixed m.winPercentage 1 ++ ['%'],
   S "Average Gain:    " ++ toFixed m.avgGain 2 ++ ['%'],
   S "Average Loss:    " ++ toFixed m.avgLoss 2 ++ ['%'],
   S "Total P/L:       $" ++ toFixed m.totalProfit 2,
   S "Profit Factor:   " ++ pfToFixed m.profitFactor 2,
   S "Average Size:    " ++ toFixed m.avgSize 2 ++ S "% of capital",
   []]

/-- `POSITION BREAKDOWN` block (`Index.tsx` 650–658). -/
def breakdownLines (m : Metrics) : List JStr :=
  [S "POSITION BREAKDOWN",
   S "Long Trades:     " ++ natToChars m.longTrades,
   S "Short Trades:    " ++ natToChars m.shortTrades,
   S "Long P/L:        $" ++ toFixed m.longProfit 2,
   S "Short P/L:       $" ++ toFixed m.shortProfit 2,
   repChar '-' 60,
   []]

/-- `REALIZED TRADES` block, present only when `trades.length > 0`
(`Index.tsx` 661–694). -/
def tradesSection (trades : List Trade) : List JStr :=
  if 0 < trades.length then
    [S "REALIZED TRADES (" ++ natToChars trades.length ++ [')'],
     repChar '-' 130,
     tradesColHeader,
     repChar '-' 130] ++ trades.map tradeRow ++ [[]]
  else []

/-- `openPositions.sort((a, b) => a.symbol.localeCompare(b.symbol))`,
with `localeCompare` modelled as the character-wise string order. -/
def sortedOpens (ops : List OpenPosition) : List OpenPosition :=
  ops.mergeSort (fun a b => decide (a.symbol ≤ b.symbol))

/-- `OPEN POSITIONS` block, present only when `openPositions.length > 0`
(`Index.tsx` 697–720). -/
def openSection (ops : List OpenPosition) : List JStr :=
  if 0 < ops.length then
    [S "OPEN POSITIONS (" ++ natToChars ops.length ++ [')'],
     repChar '-' 80,
     openColHeader,
     repChar '-' 80] ++ (sortedOpens ops).map openPositionRow ++ [[]]
  else []

/-- `PERFORMANCE BY PRODUCT` block, present only when
`trades.length > 0` (`Index.tsx` 723–760). -/
def productSection (trades : List Trade) : List JStr :=
  if 0 < trades.length then
    [S "PERFORMANCE BY PRODUCT",
     repChar '-' 70,
     productColHeader,
     repChar '-' 70] ++ productRowsOf trades ++ [[]]
  else []

/-- `PERFORMANCE BY POSITION TYPE` block with its conditional `Long` and
`Short` rows, and the unconditional blank line pushed after it
(`Index.tsx` 763–806). -/
def typeSection (trades : List Trade) (m : Metrics) : List JStr :=
  [S "PERFORMANCE BY POSITION TYPE",
   repChar '-' 70,
   typeColHeader,
   repChar '-' 70] ++
    (if 0 < m.longTrades then [longTypeRow trades m] else []) ++
    (if 0 < m.shortTrades then [shortTypeRow trades m] else []) ++ [[]]

/-- Footer block (`Index.tsx` 809–812); `CAPITAL_BASE.toLocaleString()`
is `"100,000"` in the en-US locale the report assumes. -/
def footerLines (csvFileName : String) : List JStr :=
  [S "Source: " ++ S csvFileName,
   S "Capital base: $100,000"]

/-- All lines pushed by `generateReport`, in order. -/
def generateReportLines (trades : List Trade) (ops : List OpenPosition) (m : Metrics)
    (csvFileName : String) (generatedOn : JStr) : List JStr :=
  headerLines generatedOn ++ overallLines m ++ breakdownLines m ++
    tradesSection trades ++ openSection ops ++ productSection trades ++
    typeSection trades m ++ footerLines csvFileName

/-- `generateReport`: the lines joined with `'\n'`. -/
def generateReport (trades : List Trade) (ops : List OpenPosition) (m : Metrics)
    (csvFileName : String) (generatedOn : JStr) : JStr :=
  joinNl (generateReportLines trades ops m csvFileName generatedOn)

/-! ## Report parsing (`parseReport`, `FileUpload.tsx` 402–515) -/

/-- `lines.findIndex(line => line.includes(pat))`: `-1` when absent. -/
def jsFindIndex (lines : List JStr) (pat : JStr) : Int :=
  match lines.findIdx? (fun l => containsSeq l pat) with
  | some i => (i : Int)
  | none => -1

/-- `lines[i]` as an option (`undefined` for a negative or out-of-range
index). -/
def getLine (lines : List JStr) (i : Int) : Option JStr :=
  if i < 0 then none else lines[i.toNat]?

/-- Splitting worker: scan for the leftmost occurrence of the separator
`p :: ps`, cut there, and continue after it (`acc` holds the reversed
current piece). -/
def jsSplitSeqAux (p : Char) (ps : JStr) : JStr → JStr → List JStr
  | [], acc => [acc.reverse]
  | c :: rest, acc =>
    if hasPrefixC (p :: ps) (c :: rest) then
      acc.reverse :: jsSplitSeqAux p ps (rest.drop ps.length) []
    else
      jsSplitSeqAux p ps rest (c :: acc)
termination_by l _ => l.length
decreasing_by
  all_goals simp only [List.length_cons, List.length_drop]
  all_goals omega

/-- `l.split(sep)` of JavaScript for a nonempty separator (the parser
never splits on the empty string). -/
def jsSplitSeq (l : JStr) (sep : JStr) : List JStr :=
  match sep with
  | [] => [l]
  | p :: ps => jsSplitSeqAux p ps l []

/-- `String.prototype.trim` (over the whitespace characters that occur
in report text). -/
def trimC (l : JStr) : JStr :=
  ((l.dropWhile isWsC).reverse.dropWhile isWsC).reverse

/-- `lines[i]?.split(label)[1]?.trim() || fb`: the common labelled-value
extraction of `parseReport` (an `undefined` line or part, or an empty
trimmed value, falls back to `fb`). -/
def labeledValue (lines : List JStr) (i : Int) (label : JStr) (fb : JStr) : JStr :=
  match getLine lines i with
  | none => fb
  | some l =>
    match (jsSplitSeq l label)[1]? with
    | none => fb
    | some v => if (trimC v).isEmpty then fb else trimC v

/-- Value of a digit string (`parseInt` accumulation). -/
def digitsVal (l : JStr) : Int :=
  l.foldl (fun a c => a * 10 + ((c.toNat : Int) - 48)) 0

/-- `parseInt`: skip leading whitespace, optional sign, then the leading
digit run.  A run with no digits gives `NaN` in JavaScript; the report
round trip never hits that case and it is modelled as 0. -/
def jsParseInt (l : JStr) : Int :=
  match l.dropWhile isWsC with
  | [] => 0
  | c :: rest =>
    if c = '-' then -digitsVal (rest.takeWhile isDigitC)
    else if c = '+' then digitsVal (rest.takeWhile isDigitC)
    else digitsVal ((c :: rest).takeWhile isDigitC)

/-- Tokenizing worker for `line.trim().split(/\s+/)`: `acc` holds the
reversed current token. -/
def wordsAux : JStr → JStr → List JStr
  | [], acc => if acc.isEmpty then [] else [acc.reverse]
  | c :: rest, acc =>
    if isWsC c then
      if acc.isEmpty then wordsAux rest [] else acc.reverse :: wordsAux rest []
    else wordsAux rest (c :: acc)

/-- `line.trim().split(/\s+/)` as used on table rows: the whitespace-
separated tokens.  (On an all-whitespace line JavaScript yields `['']`
and this yields `[]`; both fail every `parts.length >= k` check, so the
parser behaves identically.) -/
def splitWsTrim (l : JStr) : List JStr := wordsAux l []

/-- A realized-trade row as parsed by `parseReport` (source field names
`id, symbol, type, position, entryTime, exitTime, qty, entry, exit,
profit, gainPercent, sizePercent`; `type` is rendered `otype` here as in
the `Trade` model). -/
structure ParsedTradeRow where
  id : JStr
  symbol : JStr
  otype : JStr
  position : JStr
  entryTime : JStr
  exitTime : JStr
  qty : JStr
  entry : JStr
  exit : JStr
  profit : JStr
  gainPercent : JStr
  sizePercent : JStr
deriving DecidableEq

/-- A `PERFORMANCE BY PRODUCT` row as parsed by `parseReport`. -/
structure ParsedProductRow where
  symbol : JStr
  otype : JStr
  trades : JStr
  winPercent : JStr
  totalPL : JStr
  avgPercent : JStr
deriving DecidableEq

/-- A `PERFORMANCE BY POSITION TYPE` row as parsed by `parseReport`. -/
structure ParsedPositionRow where
  position : JStr
  trades : JStr
  winPercent : JStr
  totalPL : JStr
  avgPercent : JStr
deriving DecidableEq

/-- The `overallPerformance` record of `parseReport`. -/
structure ParsedOverall where
  totalTrades : Int
  winningTrades : Int
  losingTrades : Int
  winRate : JStr
  avgGain : JStr
  avgLoss : JStr
  totalPL : JStr
  profitFactor : JStr
  avgSize : JStr
deriving DecidableEq

/-- The `positionBreakdown` record of `parseReport`. -/
structure ParsedBreakdown where
  longTrades : Int
  shortTrades : Int
  longPL : JStr
  shortPL : JStr
deriving DecidableEq

/-- The full result record of `parseReport`. -/
structure ParsedReport where
  generatedOn : JStr
  overallPerformance : ParsedOverall
  positionBreakdown : ParsedBreakdown
  trades : List ParsedTradeRow
  performanceByProduct : List ParsedProductRow
  performanceByPosition : List ParsedPositionRow
  source : JStr
  capitalBase : JStr
deriving DecidableEq

/-- The realized-trades scan loop (`FileUpload.tsx` 437–458): visit the
lines in order, stop at an empty line or one containing `---`,
`PERFORMANCE` or `OPEN POSITIONS`, collect a row from every line with at
least 12 whitespace tokens.  A missing `parts[12]`/`parts[13]`
(JavaScript `undefined`) is modelled as the empty string. -/
def tradeRowsLoop : List JStr → List ParsedTradeRow
  | [] => []
  | l :: rest =>
    if l.isEmpty || containsSeq l (S "---") || containsSeq l (S "PERFORMANCE") ||
        containsSeq l (S "OPEN POSITIONS") then []
    else
      let parts := splitWsTrim l
      (if 12 ≤ parts.length then
        [{ id := parts.getD 0 []
           symbol := parts.getD 1 []
           otype := parts.getD 2 []
           position := parts.getD 3 []
           entryTime := parts.getD 4 [] ++ ' ' :: parts.getD 5 []
           exitTime := parts.getD 6 [] ++ ' ' :: parts.getD 7 []
           qty := parts.getD 8 []
           entry := parts.getD 9 []
           exit := parts.getD 10 []
           profit := parts.getD 11 []
           gainPercent := parts.getD 12 []
           sizePercent := parts.getD 13 [] }]
      else []) ++ tradeRowsLoop rest

/-- The by-product scan loop (`FileUpload.tsx` 464–479). -/
def productRowsLoop : List JStr → List ParsedProductRow
  | [] => []
  | l :: rest =>
    if l.isEmpty || containsSeq l (S "---") ||
        containsSeq l (S "PERFORMANCE BY POSITION") then []
    else
      let parts := splitWsTrim l
      (if 6 ≤ parts.length then
        [{ symbol := parts.getD 0 []
           otype := parts.getD 1 []
           trades := parts.getD 2 []
           winPercent := parts.getD 3 []
           totalPL := parts.getD 4 []
           avgPercent := parts.getD 5 [] }]
      else []) ++ productRowsLoop rest

/-- The by-position scan loop (`FileUpload.tsx` 485–499). -/
def positionRowsLoop : List JStr → List ParsedPositionRow
  | [] => []
  | l :: rest =>
    if l.isEmpty || containsSeq l (S "---") || containsSeq l (S "Source:") then []
    else
      let parts := splitWsTrim l
      (if 5 ≤ parts.length then
        [{ position := parts.getD 0 []
           trades := parts.getD 1 []
           winPercent := parts.getD 2 []
           totalPL := parts.getD 3 []
           avgPercent := parts.getD 4 [] }]
      else []) ++ positionRowsLoop rest

/-- `parseReport` (`FileUpload.tsx` 402–515). -/
def parseReport (reportText : JStr) : ParsedReport :=
  let lines := jsSplitSeq reportText (S "\n")
  let generatedOn :=
    match lines.find? (fun l => containsSeq l (S "Generated on:")) with
    | none => []
    | some gl => (jsSplitSeq gl (S "Generated on: ")).getD 1 []
  let overallStart := jsFindIndex lines (S "OVERALL PERFORMANCE")
  let overall : ParsedOverall :=
    { totalTrades := jsParseInt (labeledValue lines (overallStart + 2) (S "Total Trades:") (S "0"))
      winningTrades :=
        jsParseInt (labeledValue lines (overallStart + 3) (S "Winning Trades:") (S "0"))
      losingTrades :=
        jsParseInt (labeledValue lines (overallStart + 4) (S "Losing Trades:") (S "0"))
      winRate := labeledValue lines (overallStart + 5) (S "Win Rate:") []
      avgGain := labeledValue lines (overallStart + 6) (S "Average Gain:") []
      avgLoss := labeledValue lines (overallStart + 7) (S "Average Loss:") []
      totalPL := labeledValue lines (overallStart + 8) (S "Total P/L:") []
      profitFactor := labeledValue lines (overallStart + 9) (S "Profit Factor:") []
      avgSize := labeledValue lines (overallStart + 10) (S "Average Size:") [] }
  let positionStart := jsFindIndex lines (S "POSITION BREAKDOWN")
  let breakdown : ParsedBreakdown :=
    { longTrades := jsParseInt (labeledValue lines (positionStart + 1) (S "Long Trades:") (S "0"))
      shortTrades :=
        jsParseInt (labeledValue lines (positionStart + 2) (S "Short Trades:") (S "0"))
      longPL := labeledValue lines (positionStart + 3) (S "Long P/L:") []
      shortPL := labeledValue lines (positionStart + 4) (S "Short P/L:") [] }
  let tradesStart := jsFindIndex lines (S "REALIZED TRADES")
  let parsedTrades := tradeRowsLoop (lines.drop (tradesStart + 4).toNat)
  let productStart := jsFindIndex lines (S "PERFORMANCE BY PRODUCT")
  let byProduct := productRowsLoop (lines.drop (productStart + 4).toNat)
  let positionTypeStart := jsFindIndex lines (S "PERFORMANCE BY POSITION TYPE")
  let byPosition := positionRowsLoop (lines.drop (positionTypeStart + 4).toNat)
  let src :=
    match lines.find? (fun l => containsSeq l (S "Source:")) with
    | none => []
    | some sl => (jsSplitSeq sl (S "Source: ")).getD 1 []
  let capBase :=
    match lines.find? (fun l => containsSeq l (S "Capital base:")) with
    | none => []
    | some cl => (jsSplitSeq cl (S "Capital base: ")).getD 1 []
  { generatedOn := generatedOn
    overallPerformance := overall
    positionBreakdown := breakdown
    trades := parsedTrades
    performanceByProduct := byProduct
    performanceByPosition := byPosition
    source := src
    capitalBase := capBase }

/-! ## Well-formedness side conditions for the rendering claims

The free-text inputs of the generator (instrument symbols, the source
file name, the generated-on text) could in principle contain the
parser's own section keywords and thereby derail the scan; the claims
are proved under the following decidable well-formedness conditions,
which hold for all realistic values. -/

/-- Characters allowed in an instrument symbol: `A`–`Z` and digits. -/
def symChar (c : Char) : Bool := isCap c || isDigitC c

/-- Characters that can occur in a rendered numeric/date/time token. -/
def numChar (c : Char) : Bool :=
  isDigitC c || c == '-' || c == '.' || c == '$' || c == '%' || c == ':' ||
    c == '(' || c == ')' || c == ','

/-- Well-formed instrument symbol: nonempty, made of capitals and
digits, and not containing the scan keywords `PERFORMANCE` or
`POSITIONS`. -/
def GoodSym (s : String) : Bool :=
  !s.toList.isEmpty && s.toList.all symChar &&
    !containsSeq s.toList (S "PERFORMANCE") && !containsSeq s.toList (S "POSITIONS") &&
    !containsSeq s.toList (S "TRADES")

/-- Well-formed realized trade for rendering: good symbols, the builder's
constant `type`, and a `long`/`short` position side. -/
def GoodTrade (t : Trade) : Bool :=
  GoodSym t.symbol && GoodSym t.baseSymbol && (t.otype == "future") &&
    (t.position == "long" || t.position == "short")

/-- Well-formed open position for rendering. -/
def GoodOpen (p : OpenPosition) : Bool :=
  GoodSym p.symbol && (p.otype == "future") &&
    (p.position == "long" || p.position == "short")

/-- The section keywords searched for by `parseReport`. -/
def sectionKeywords : List JStr :=
  [S "Generated on:", S "OVERALL PERFORMANCE", S "POSITION BREAKDOWN",
   S "REALIZED TRADES", S "OPEN POSITIONS", S "PERFORMANCE",
   S "Source:", S "Capital base:", S "---"]

/-- Well-formed generated-on text: a single line free of the parser's
section keywords. -/
def GoodGen (g : JStr) : Bool :=
  sectionKeywords.all (fun p => !containsSeq g p) && g.all (fun c => !(c == '\n'))

/-- Well-formed source file name: a single line that does not contain
`Capital base:` (the only keyword searched for past the `Source:`
footer line). -/
def GoodName (f : String) : Bool :=
  !containsSeq f.toList (S "Capital base:") && !containsSeq f.toList (S "REALIZED TRADES") &&
    !containsSeq f.toList (S "OPEN POSITIONS") && !containsSeq f.toList (S "Source:") &&
    f.toList.all (fun c => !(c == '\n'))

/-! ## Token-level analysis helpers

A table row is a join of padded cells; `spacedTokens` is its normal form
`tok₁ ++ ' '^{k₁+1} ++ tok₂ ++ …` on which the whitespace-splitting and
keyword-exclusion lemmas are proved. -/

/-- `spacedTokens [(t₁,k₁), …, (tₙ,kₙ)] = t₁ ++ ' '^{k₁+1} ++ … ++ tₙ`
(the final gap is dropped). -/
def spacedTokens : List (JStr × Nat) → JStr
  | [] => []
  | [(t, _)] => t
  | (t, k) :: rest => t ++ (List.replicate (k + 1) ' ' ++ spacedTokens rest)

/-- Gap form of a padded cell list: each width becomes the number of
padding spaces. -/
def gapsOf (cells : List (JStr × Nat)) : List (JStr × Nat) :=
  cells.map (fun c => (c.1, c.2 - c.1.length))

/-- The 14 whitespace tokens of a realized-trade row (each timestamp
contributes its date and its time as separate tokens). -/
def tradeTokens (t : Trade) : List (JStr × Nat) :=
  [(natToChars t.tradeId, 4 - (natToChars t.tradeId).length),
   (S t.symbol, 12 - (S t.symbol).length),
   (S t.otype, 8 - (S t.otype).length),
   (S t.position, 6 - (S t.position).length),
   (isoDate t.entryTime, 0),
   (isoTime t.entryTime, 19 - (isoDateTime t.entryTime).length),
   (isoDate t.exitTime, 0),
   (isoTime t.exitTime, 19 - (isoDateTime t.exitTime).length),
   (intToChars t.quantity, 6 - (intToChars t.quantity).length),
   ('$' :: toFixed t.entryPrice 2, 10 - ('$' :: toFixed t.entryPrice 2).length),
   ('$' :: toFixed t.exitPrice 2, 10 - ('$' :: toFixed t.exitPrice 2).length),
   ('$' :: toFixed t.profit 2, 12 - ('$' :: toFixed t.profit 2).length),
   (toFixed t.percentGain 1 ++ ['%'], 10 - (toFixed t.percentGain 1 ++ ['%']).length),
   (toFixed t.size 1 ++ ['%'], 0)]

/-- The 7 whitespace tokens of an open-position row. -/
def openTokens (p : OpenPosition) : List (JStr × Nat) :=
  gapsOf (openCells p)

/-- The 6 whitespace tokens of a by-product row. -/
def productTokens (sym : String) (ts : List Trade) : List (JStr × Nat) :=
  gapsOf (productCells sym ts)

/-- The 5 whitespace tokens of the `Long` type row. -/
def longTypeTokens (trades : List Trade) (m : Metrics) : List (JStr × Nat) :=
  gapsOf (longTypeCells trades m)

/-- The 5 whitespace tokens of the `Short` type row. -/
def shortTypeTokens (trades : List Trade) (m : Metrics) : List (JStr × Nat) :=
  gapsOf (shortTypeCells trades m)

/-- The parsed row that `parseReport` recovers from `tradeRow t`. -/
def parsedTradeOf (t : Trade) : ParsedTradeRow :=
  { id := natToChars t.tradeId
    symbol := S t.symbol
    otype := S t.otype
    position := S t.position
    entryTime := isoDate t.entryTime ++ ' ' :: isoTime t.entryTime
    exitTime := isoDate t.exitTime ++ ' ' :: isoTime t.exitTime
    qty := intToChars t.quantity
    entry := '$' :: toFixed t.entryPrice 2
    exit := '$' :: toFixed t.exitPrice 2
    profit := '$' :: toFixed t.profit 2
    gainPercent := toFixed t.percentGain 1 ++ ['%']
    sizePercent := toFixed t.size 1 ++ ['%'] }

/-- The parsed row that `parseReport` recovers from `productRow sym ts`. -/
def parsedProductOf (sym : String) (ts : List Trade) : ParsedProductRow :=
  let wins := (ts.filter (fun t => 0 < t.profit)).length
  { symbol := S sym
    otype := S "future"
    trades := natToChars ts.length
    winPercent :=
      toFixed (if 0 < ts.length then (wins : ℚ) / (ts.length : ℚ) * 100 else 0) 1 ++ ['%']
    totalPL := '$' :: toFixed (profitSum ts) 2
    avgPercent :=
      toFixed (if 0 < ts.length then pctSum ts / (ts.length : ℚ) else 0) 2 ++ ['%'] }

/-- The parsed row that `parseReport` recovers from the `Long` type row. -/
def parsedLongOf (trades : List Trade) (m : Metrics) : ParsedPositionRow :=
  let lt := trades.filter (fun t => t.position == "long")
  let wins := (lt.filter (fun t => 0 < t.profit)).length
  { position := S "Long"
    trades := natToChars m.longTrades
    winPercent := toFixed ((wins : ℚ) / (lt.length : ℚ) * 100) 1 ++ ['%']
    totalPL := '$' :: toFixed m.longProfit 2
    avgPercent := toFixed (pctSum lt / (lt.length : ℚ)) 2 ++ ['%'] }

/-- The parsed row that `parseReport` recovers from the `Short` type row. -/
def parsedShortOf (trades : List Trade) (m : Metrics) : ParsedPositionRow :=
  let st := trades.filter (fun t => t.position == "short")
  let wins := (st.filter (fun t => 0 < t.profit)).length
  { position := S "Short"
    trades := natToChars m.shortTrades
    winPercent := toFixed ((wins : ℚ) / (st.length : ℚ) * 100) 1 ++ ['%']
    totalPL := '$' :: toFixed m.shortProfit 2
    avgPercent := toFixed (pctSum st / (st.length : ℚ)) 2 ++ ['%'] }

/-- Classification of the tokens that can occur in a table row: a
numeric/date/time token (with at most two `'-'` characters), the
instrument symbol, or one of the five fixed words. -/
def RowTok (sym : String) (tok : JStr) : Prop :=
  (tok ≠ [] ∧ (∀ c ∈ tok, numChar c = true) ∧ List.count '-' tok ≤ 2) ∨
    (tok = S sym ∧ GoodSym sym = true) ∨ tok = S "future" ∨ tok = S "long" ∨
    tok = S "short" ∨ tok = S "Long" ∨ tok = S "Short"

/-- `p` cannot straddle the boundary of `a ++ x`: no nonempty suffix of
`a` is a proper prefix of `p`. -/
def straddleFree (a p : JStr) : Bool :=
  a.tails.all (fun s => s.isEmpty || !hasPrefixC s p || decide (p.length ≤ s.length))

/-- Mirror image of `straddleFree`: `p` cannot straddle the boundary of
`x ++ b`, because no nonempty prefix of `b` is a proper suffix of `p`. -/
def straddleFreeR (b p : JStr) : Bool := straddleFree b.reverse p.reverse

/-! ## Helper lemmas -/

theorem head?_dropWhile_not (p : α → Bool) (l : List α) :
    ∀ c ∈ (l.dropWhile p).head?, p c = false := by
  induction l with
  | nil => simp
  | cons a l ih =>
    intro c hc
    rw [List.dropWhile_cons] at hc
    by_cases h : p a = true
    · rw [if_pos h] at hc
      exact ih c hc
    · rw [if_neg h] at hc
      simp only [List.head?_cons, Option.mem_def, Option.some.injEq] at hc
      subst hc
      simpa using h

theorem metrics_winning (ts : List Trade) :
    (calculateMetrics ts).winningTrades = (ts.filter (fun t => 0 < t.profit)).length := by
  cases ts <;> simp [calculateMetrics]

theorem metrics_losing (ts : List Trade) :
    (calculateMetrics ts).losingTrades = (ts.filter (fun t => t.profit < 0)).length := by
  cases ts <;> simp [calculateMetrics]

theorem metrics_total (ts : List Trade) :
    (calculateMetrics ts).totalTrades = ts.length := by
  cases ts <;> simp [calculateMetrics]

theorem metrics_profitFactor (t : Trade) (ts : List Trade) :
    (calculateMetrics (t :: ts)).profitFactor =
      (if 0 < |profitSum ((t :: ts).filter (fun t => t.profit < 0))|
       then PFVal.finite (profitSum ((t :: ts).filter (fun t => 0 < t.profit)) /
              |profitSum ((t :: ts).filter (fun t => t.profit < 0))|)
       else PFVal.posInf) := by
  simp [calculateMetrics]

/-- The three strict-sign filters partition a trade list. -/
theorem filter_sign_partition (l : List Trade) :
    (l.filter (fun t => 0 < t.profit)).length
      + (l.filter (fun t => t.profit < 0)).length
      + (l.filter (fun t => t.profit = 0)).length = l.length := by
  induction l with
  | nil => simp
  | cons a l ih =>
    rcases lt_trichotomy a.profit 0 with h | h | h
    · have h1 : ¬(0 < a.profit) := by linarith
      have h2 : a.profit ≠ 0 := by linarith
      simp [List.filter_cons, h, h1, h2]
      omega
    · have h1 : ¬(0 < a.profit) := by simp [h]
      have h2 : ¬(a.profit < 0) := by simp [h]
      simp [List.filter_cons, h, h1, h2]
      omega
    · have h1 : ¬(a.profit < 0) := by linarith
      have h2 : a.profit ≠ 0 := by linarith
      simp [List.filter_cons, h, h1, h2]
      omega

/-! ## Closing-loop lemmas -/

theorem entrySum_nil : entrySum [] = 0 := rfl

theorem entrySum_cons (e : Entry) (es : List Entry) :
    entrySum (e :: es) = e.qty + entrySum es := by
  simp [entrySum]

theorem entrySum_append (es fs : List Entry) :
    entrySum (es ++ fs) = entrySum es + entrySum fs := by
  simp [entrySum]

theorem EntriesPos.sum_nonneg {es : List Entry} (h : EntriesPos es) :
    0 ≤ entrySum es := by
  induction es with
  | nil => simp [entrySum]
  | cons e es ih =>
    rw [entrySum_cons]
    have h1 := h e (by simp)
    have h2 := ih (fun x hx => h x (by simp [hx]))
    omega

theorem EntriesNeg.sum_nonpos {es : List Entry} (h : EntriesNeg es) :
    entrySum es ≤ 0 := by
  induction es with
  | nil => simp [entrySum]
  | cons e es ih =>
    rw [entrySum_cons]
    have h1 := h e (by simp)
    have h2 := ih (fun x hx => h x (by simp [hx]))
    omega

theorem EntriesPos.eq_nil_of_sum_zero {es : List Entry} (h : EntriesPos es)
    (hz : entrySum es = 0) : es = [] := by
  cases es with
  | nil => rfl
  | cons e es =>
    have h1 := h e (by simp)
    have h2 := EntriesPos.sum_nonneg (fun x hx => h x (List.mem_cons_of_mem e hx))
    rw [entrySum_cons] at hz
    omega

theorem EntriesNeg.eq_nil_of_sum_zero_neg {es : List Entry} (h : EntriesNeg es)
    (hz : entrySum es = 0) : es = [] := by
  cases es with
  | nil => rfl
  | cons e es =>
    have h1 := h e (by simp)
    have h2 := EntriesNeg.sum_nonpos (fun x hx => h x (List.mem_cons_of_mem e hx))
    rw [entrySum_cons] at hz
    omega

theorem closeShortLoop_zero (ord : Order) (fuel tid : Nat) (es : List Entry) :
    closeShortLoop ord fuel tid 0 es = ([], es, tid) := by
  cases fuel with
  | zero => rfl
  | succ f =>
    cases es with
    | nil => rfl
    | cons e rest => simp [closeShortLoop]

theorem closeLongLoop_zero (ord : Order) (fuel tid : Nat) (es : List Entry) :
    closeLongLoop ord fuel tid 0 es = ([], es, tid) := by
  cases fuel with
  | zero => rfl
  | succ f =>
    cases es with
    | nil => rfl
    | cons e rest => simp [closeLongLoop]

theorem closeShortLoop_cons (ord : Order) (fuel tid : Nat) (q : Int)
    (e : Entry) (rest : List Entry) (hq : ¬q ≤ 0) :
    closeShortLoop ord (fuel + 1) tid q (e :: rest) =
      (mkShortTrade ord tid e (min q |e.qty|) ::
          (closeShortLoop ord fuel (tid + 1) (q - min q |e.qty|)
            (if min q |e.qty| < |e.qty|
             then { e with qty := e.qty + min q |e.qty| } :: rest else rest)).1,
        (closeShortLoop ord fuel (tid + 1) (q - min q |e.qty|)
            (if min q |e.qty| < |e.qty|
             then { e with qty := e.qty + min q |e.qty| } :: rest else rest)).2.1,
        (closeShortLoop ord fuel (tid + 1) (q - min q |e.qty|)
            (if min q |e.qty| < |e.qty|
             then { e with qty := e.qty + min q |e.qty| } :: rest else rest)).2.2) := by
  simp [closeShortLoop, hq]

theorem closeLongLoop_cons (ord : Order) (fuel tid : Nat) (q : Int)
    (e : Entry) (rest : List Entry) (hq : ¬q ≤ 0) :
    closeLongLoop ord (fuel + 1) tid q (e :: rest) =
      (mkLongTrade ord tid e (min q e.qty) ::
          (closeLongLoop ord fuel (tid + 1) (q - min q e.qty)
            (if min q e.qty < e.qty
             then { e with qty := e.qty - min q e.qty } :: rest else rest)).1,
        (closeLongLoop ord fuel (tid + 1) (q - min q e.qty)
            (if min q e.qty < e.qty
             then { e with qty := e.qty - min q e.qty } :: rest else rest)).2.1,
        (closeLongLoop ord fuel (tid + 1) (q - min q e.qty)
            (if min q e.qty < e.qty
             then { e with qty := e.qty - min q e.qty } :: rest else rest)).2.2) := by
  simp [closeLongLoop, hq]

/-- Specification of the short-closing loop: with enough fuel, all-short
lots and a closing quantity bounded by the total short inventory, the loop
raises the queue's signed sum by exactly the closing quantity, keeps the
remaining lots short, advances the trade id by the number of emitted
trades, and every emitted trade is a `mkShortTrade` of a short lot. -/
theorem closeShortLoop_spec (ord : Order) (fuel : Nat) :
    ∀ (tid : Nat) (q : Int) (es : List Entry),
      es.length < fuel → (∀ e ∈ es, e.qty < 0) → 0 ≤ q → q ≤ -entrySum es →
      entrySum (closeShortLoop ord fuel tid q es).2.1 = entrySum es + q ∧
      (∀ e ∈ (closeShortLoop ord fuel tid q es).2.1, e.qty < 0) ∧
      (closeShortLoop ord fuel tid q es).2.2 =
        tid + (closeShortLoop ord fuel tid q es).1.length ∧
      (∀ t ∈ (closeShortLoop ord fuel tid q es).1,
        ∃ e cq, e.qty < 0 ∧ 0 < cq ∧ t = mkShortTrade ord t.tradeId e cq) := by
  induction fuel with
  | zero => intro tid q es hf; omega
  | succ fuel ih =>
    intro tid q es hf hneg hq0 hqle
    cases es with
    | nil =>
      have hq : q = 0 := by
        rw [entrySum_nil] at hqle; omega
      subst hq
      simp [closeShortLoop, entrySum_nil]
    | cons e rest =>
      by_cases hq : q ≤ 0
      · have hqz : q = 0 := by omega
        subst hqz
        rw [closeShortLoop_zero]
        refine ⟨?_, hneg, by simp, by simp⟩
        show entrySum (e :: rest) = entrySum (e :: rest) + 0
        omega
      · rw [closeShortLoop_cons ord fuel tid q e rest hq]
        have hene : e.qty < 0 := hneg e (by simp)
        have habs : |e.qty| = -e.qty := abs_of_neg hene
        by_cases hpart : min q |e.qty| < |e.qty|
        · have hcq : min q |e.qty| = q := by
            rcases le_total q |e.qty| with h | h
            · exact min_eq_left h
            · rw [min_eq_right h] at hpart; omega
          rw [if_pos hpart, hcq]
          have hrec := closeShortLoop_zero ord fuel (tid + 1)
            ({ e with qty := e.qty + q } :: rest)
          rw [sub_self, hrec]
          refine ⟨?_, ?_, by simp, ?_⟩
          · rw [entrySum_cons, entrySum_cons]
            ring
          · intro x hx
            rcases List.mem_cons.mp hx with h | h
            · subst h; simp; omega
            · exact hneg x (by simp [h])
          · intro t ht
            rcases List.mem_cons.mp ht with h | h
            · subst h
              exact ⟨e, q, hene, by omega, rfl⟩
            · simp at h
        · have hcq : min q |e.qty| = |e.qty| := by
            rcases le_total q |e.qty| with h | h
            · rw [min_eq_left h] at hpart; omega
            · exact min_eq_right h
          rw [if_neg hpart, hcq]
          have hf' : rest.length < fuel := by
            simp at hf; omega
          have hneg' : ∀ x ∈ rest, x.qty < 0 := fun x hx => hneg x (by simp [hx])
          have hq0' : 0 ≤ q - |e.qty| := by
            have : |e.qty| ≤ q := by
              rcases le_total q |e.qty| with h | h
              · rw [min_eq_left h] at hcq; omega
              · exact h
            omega
          have hqle' : q - |e.qty| ≤ -entrySum rest := by
            rw [entrySum_cons] at hqle
            omega
          obtain ⟨ih1, ih2, ih3, ih4⟩ := ih (tid + 1) (q - |e.qty|) rest hf' hneg' hq0' hqle'
          refine ⟨?_, ih2, ?_, ?_⟩
          · rw [ih1, entrySum_cons]
            omega
          · simp only [List.length_cons]
            omega
          · intro t ht
            rcases List.mem_cons.mp ht with h | h
            · subst h
              exact ⟨e, |e.qty|, hene, by omega, rfl⟩
            · exact ih4 t h

/-- Specification of the long-closing loop, dual to
`closeShortLoop_spec`. -/
theorem closeLongLoop_spec (ord : Order) (fuel : Nat) :
    ∀ (tid : Nat) (q : Int) (es : List Entry),
      es.length < fuel → (∀ e ∈ es, 0 < e.qty) → 0 ≤ q → q ≤ entrySum es →
      entrySum (closeLongLoop ord fuel tid q es).2.1 = entrySum es - q ∧
      (∀ e ∈ (closeLongLoop ord fuel tid q es).2.1, 0 < e.qty) ∧
      (closeLongLoop ord fuel tid q es).2.2 =
        tid + (closeLongLoop ord fuel tid q es).1.length ∧
      (∀ t ∈ (closeLongLoop ord fuel tid q es).1,
        ∃ e cq, 0 < e.qty ∧ 0 < cq ∧ t = mkLongTrade ord t.tradeId e cq) := by
  induction fuel with
  | zero => intro tid q es hf; omega
  | succ fuel ih =>
    intro tid q es hf hpos hq0 hqle
    cases es with
    | nil =>
      have hq : q = 0 := by
        rw [entrySum_nil] at hqle; omega
      subst hq
      simp [closeLongLoop, entrySum_nil]
    | cons e rest =>
      by_cases hq : q ≤ 0
      · have hqz : q = 0 := by omega
        subst hqz
        rw [closeLongLoop_zero]
        refine ⟨?_, hpos, by simp, by simp⟩
        show entrySum (e :: rest) = entrySum (e :: rest) - 0
        omega
      · rw [closeLongLoop_cons ord fuel tid q e rest hq]
        have hepos : 0 < e.qty := hpos e (by simp)
        by_cases hpart : min q e.qty < e.qty
        · have hcq : min q e.qty = q := by
            rcases le_total q e.qty with h | h
            · exact min_eq_left h
            · rw [min_eq_right h] at hpart; omega
          rw [if_pos hpart, hcq]
          have hrec := closeLongLoop_zero ord fuel (tid + 1)
            ({ e with qty := e.qty - q } :: rest)
          rw [sub_self, hrec]
          refine ⟨?_, ?_, by simp, ?_⟩
          · rw [entrySum_cons, entrySum_cons]
            ring
          · intro x hx
            rcases List.mem_cons.mp hx with h | h
            · subst h; simp; omega
            · exact hpos x (by simp [h])
          · intro t ht
            rcases List.mem_cons.mp ht with h | h
            · subst h
              exact ⟨e, q, hepos, by omega, rfl⟩
            · simp at h
        · have hcq : min q e.qty = e.qty := by
            rcases le_total q e.qty with h | h
            · rw [min_eq_left h] at hpart; omega
            · exact min_eq_right h
          rw [if_neg hpart, hcq]
          have hf' : rest.length < fuel := by
            simp at hf; omega
          have hpos' : ∀ x ∈ rest, 0 < x.qty := fun x hx => hpos x (by simp [hx])
          have hq0' : 0 ≤ q - e.qty := by
            have : e.qty ≤ q := by
              rcases le_total q e.qty with h | h
              · rw [min_eq_left h] at hcq; omega
              · exact h
            omega
          have hqle' : q - e.qty ≤ entrySum rest := by
            rw [entrySum_cons] at hqle
            omega
          obtain ⟨ih1, ih2, ih3, ih4⟩ := ih (tid + 1) (q - e.qty) rest hf' hpos' hq0' hqle'
          refine ⟨?_, ih2, ?_, ?_⟩
          · rw [ih1, entrySum_cons]
            omega
          · simp only [List.length_cons]
            omega
          · intro t ht
            rcases List.mem_cons.mp ht with h | h
            · subst h
              exact ⟨e, e.qty, hepos, by omega, rfl⟩
            · exact ih4 t h

/-- Trade ids of the long-closing loop are consecutive from the initial
id, and the returned id is advanced by the number of emitted trades.  No
hypotheses are needed. -/
theorem closeLongLoop_ids (ord : Order) (fuel : Nat) :
    ∀ (tid : Nat) (q : Int) (es : List Entry),
      (closeLongLoop ord fuel tid q es).1.map (·.tradeId) =
        List.range' tid (closeLongLoop ord fuel tid q es).1.length ∧
      (closeLongLoop ord fuel tid q es).2.2 =
        tid + (closeLongLoop ord fuel tid q es).1.length := by
  induction fuel with
  | zero => intro tid q es; simp [closeLongLoop]
  | succ fuel ih =>
    intro tid q es
    cases es with
    | nil => simp [closeLongLoop]
    | cons e rest =>
      by_cases hq : q ≤ 0
      · simp [closeLongLoop, hq]
      · rw [closeLongLoop_cons ord fuel tid q e rest hq]
        obtain ⟨ih1, ih2⟩ := ih (tid + 1) (q - min q e.qty)
          (if min q e.qty < e.qty then { e with qty := e.qty - min q e.qty } :: rest else rest)
        refine ⟨?_, ?_⟩
        · simp only [List.map_cons, List.length_cons, ih1, mkLongTrade]
          rw [List.range'_succ]
        · simp only [List.length_cons, ih2]
          omega

/-- Trade ids of the short-closing loop are consecutive, dually. -/
theorem closeShortLoop_ids (ord : Order) (fuel : Nat) :
    ∀ (tid : Nat) (q : Int) (es : List Entry),
      (closeShortLoop ord fuel tid q es).1.map (·.tradeId) =
        List.range' tid (closeShortLoop ord fuel tid q es).1.length ∧
      (closeShortLoop ord fuel tid q es).2.2 =
        tid + (closeShortLoop ord fuel tid q es).1.length := by
  induction fuel with
  | zero => intro tid q es; simp [closeShortLoop]
  | succ fuel ih =>
    intro tid q es
    cases es with
    | nil => simp [closeShortLoop]
    | cons e rest =>
      by_cases hq : q ≤ 0
      · simp [closeShortLoop, hq]
      · rw [closeShortLoop_cons ord fuel tid q e rest hq]
        obtain ⟨ih1, ih2⟩ := ih (tid + 1) (q - min q |e.qty|)
          (if min q |e.qty| < |e.qty|
           then { e with qty := e.qty + min q |e.qty| } :: rest else rest)
        refine ⟨?_, ?_⟩
        · simp only [List.map_cons, List.length_cons, ih1, mkShortTrade]
          rw [List.range'_succ]
        · simp only [List.length_cons, ih2]
          omega

/-! ## Ledger-state lemmas -/

theorem lookupSym_cons (p : String × SymState) (st : LedgerState) (s : String) :
    lookupSym (p :: st) s = if p.1 = s then some p.2 else lookupSym st s := by
  by_cases h : p.1 = s
  · simp [lookupSym, List.find?_cons, h]
  · simp [lookupSym, List.find?_cons, h]

theorem setSym_cons (p : String × SymState) (st : LedgerState) (s : String) (pd : SymState) :
    setSym (p :: st) s pd = (if p.1 = s then (s, pd) else p) :: setSym st s pd := rfl

theorem lookupSym_append_self (st : LedgerState) (s : String) (pd : SymState)
    (h : lookupSym st s = none) : lookupSym (st ++ [(s, pd)]) s = some pd := by
  induction st with
  | nil => simp [lookupSym, List.find?_cons]
  | cons p st ih =>
    rw [List.cons_append, lookupSym_cons]
    rw [lookupSym_cons] at h
    by_cases hp : p.1 = s
    · rw [if_pos hp] at h; exact absurd h (by simp)
    · rw [if_neg hp] at h ⊢
      exact ih h

theorem lookupSym_append_ne (st : LedgerState) (s s' : String) (pd : SymState)
    (h : s' ≠ s) : lookupSym (st ++ [(s, pd)]) s' = lookupSym st s' := by
  induction st with
  | nil =>
    have hb : (s == s') = false := beq_eq_false_iff_ne.mpr fun hc => h hc.symm
    simp [lookupSym, List.find?_cons, hb]
  | cons p st ih =>
    rw [List.cons_append, lookupSym_cons, lookupSym_cons]
    by_cases hp : p.1 = s'
    · rw [if_pos hp, if_pos hp]
    · rw [if_neg hp, if_neg hp]
      exact ih

theorem lookupSym_setSym_self (st : LedgerState) (s : String) (pd : SymState)
    (h : (lookupSym st s).isSome) : lookupSym (setSym st s pd) s = some pd := by
  induction st with
  | nil => simp [lookupSym] at h
  | cons p st ih =>
    rw [lookupSym_cons] at h
    rw [setSym_cons]
    by_cases hp : p.1 = s
    · rw [if_pos hp, lookupSym_cons]
      simp
    · rw [if_neg hp] at h
      rw [if_neg hp, lookupSym_cons, if_neg hp]
      exact ih h

theorem lookupSym_setSym_ne (st : LedgerState) (s s' : String) (pd : SymState)
    (h : s' ≠ s) : lookupSym (setSym st s pd) s' = lookupSym st s' := by
  induction st with
  | nil => rfl
  | cons p st ih =>
    rw [setSym_cons, lookupSym_cons]
    by_cases hp : p.1 = s
    · rw [if_pos hp, lookupSym_cons,
        if_neg (show ((s, pd) : String × SymState).1 ≠ s' from fun hc => h hc.symm),
        if_neg (show p.1 ≠ s' from by rw [hp]; exact fun hc => h hc.symm)]
      exact ih
    · rw [if_neg hp, lookupSym_cons]
      by_cases hp' : p.1 = s'
      · rw [if_pos hp', if_pos hp']
      · rw [if_neg hp', if_neg hp']
        exact ih

theorem lookupSym_mem {st : LedgerState} {s : String} {pd : SymState}
    (h : lookupSym st s = some pd) : (s, pd) ∈ st := by
  unfold lookupSym at h
  cases hf : st.find? (fun p => p.1 == s) with
  | none => rw [hf] at h; simp at h
  | some p =>
    rw [hf] at h
    simp at h
    have hmem := List.mem_of_find?_eq_some hf
    have hkey : p.1 = s := by simpa using List.find?_some hf
    have : p = (s, pd) := by
      cases p
      simp_all
    rwa [this] at hmem

theorem lookupSym_eq_none_iff {st : LedgerState} {s : String} :
    lookupSym st s = none ↔ ∀ p ∈ st, p.1 ≠ s := by
  unfold lookupSym
  simp [List.find?_eq_none]

theorem SymInv_of_lookup {st : LedgerState} {s : String} {pd : SymState}
    (hinv : LedgerInv st) (h : lookupSym st s = some pd) : SymInv pd :=
  hinv.2 (s, pd) (lookupSym_mem h)

theorem SymInv.entriesNeg {pd : SymState} (h : SymInv pd) (hp : pd.position < 0) :
    EntriesNeg pd.entries := by
  rcases h with ⟨hsum, hdir | hdir⟩
  · have := hdir.sum_nonneg
    omega
  · exact hdir

theorem SymInv.entriesPos {pd : SymState} (h : SymInv pd) (hp : 0 < pd.position) :
    EntriesPos pd.entries := by
  rcases h with ⟨hsum, hdir | hdir⟩
  · exact hdir
  · have := hdir.sum_nonpos
    omega

theorem SymInv.entries_nil {pd : SymState} (h : SymInv pd) (hp : pd.position = 0) :
    pd.entries = [] := by
  rcases h with ⟨hsum, hdir | hdir⟩
  · exact hdir.eq_nil_of_sum_zero (by omega)
  · exact hdir.eq_nil_of_sum_zero_neg (by omega)

theorem keys_setSym (st : LedgerState) (s : String) (pd : SymState) :
    (setSym st s pd).map (·.1) = st.map (·.1) := by
  unfold setSym
  rw [List.map_map]
  refine List.map_congr_left ?_
  intro p _
  by_cases hp : p.1 = s
  · simp [hp]
  · simp [hp]

theorem LedgerInv_setSym {st : LedgerState} {s : String} {pd : SymState}
    (hinv : LedgerInv st) (hpd : SymInv pd) : LedgerInv (setSym st s pd) := by
  refine ⟨by rw [keys_setSym]; exact hinv.1, ?_⟩
  intro p hp
  unfold setSym at hp
  rcases List.mem_map.mp hp with ⟨q, hq, hqe⟩
  by_cases hqs : q.1 = s
  · rw [if_pos hqs] at hqe
    rw [← hqe]
    exact hpd
  · rw [if_neg hqs] at hqe
    rw [← hqe]
    exact hinv.2 q hq

theorem LedgerInv_append_fresh {st : LedgerState} {s : String}
    (hinv : LedgerInv st) (h : lookupSym st s = none) :
    LedgerInv (st ++ [(s, ⟨0, []⟩)]) := by
  constructor
  · rw [List.map_append, List.nodup_append]
    refine ⟨hinv.1, by simp, ?_⟩
    intro x hx hx'
    simp only [List.map_cons, List.map_nil, List.mem_singleton] at hx'
    subst hx'
    rcases List.mem_map.mp hx with ⟨p, hp, hpe⟩
    exact (lookupSym_eq_none_iff.mp h p hp) hpe
  · intro p hp
    rcases List.mem_append.mp hp with h1 | h1
    · exact hinv.2 p h1
    · simp only [List.mem_singleton] at h1
      subst h1
      exact ⟨rfl, Or.inl (fun e he => by simp at he)⟩

theorem symPosition_of_lookup {st : LedgerState} {s : String} {pd : SymState}
    (h : lookupSym st s = some pd) : symPosition st s = pd.position := by
  unfold symPosition
  rw [h]

theorem symPosition_setSym_self {st : LedgerState} {s : String} {pd : SymState}
    (h : (lookupSym st s).isSome) : symPosition (setSym st s pd) s = pd.position := by
  unfold symPosition
  rw [lookupSym_setSym_self st s pd h]

theorem symPosition_setSym_ne {st : LedgerState} {s s' : String} {pd : SymState}
    (h : s' ≠ s) : symPosition (setSym st s pd) s' = symPosition st s' := by
  unfold symPosition
  rw [lookupSym_setSym_ne st s s' pd h]

theorem symPosition_append_fresh {st : LedgerState} {s : String}
    (h : lookupSym st s = none) (s' : String) :
    symPosition (st ++ [(s, ⟨0, []⟩)]) s' = symPosition st s' := by
  by_cases hss : s' = s
  · subst hss
    unfold symPosition
    rw [lookupSym_append_self st s' _ h, h]
  · unfold symPosition
    rw [lookupSym_append_ne st s s' _ hss]

theorem symEntrySum_eq_symPosition {st : LedgerState} (hinv : LedgerInv st)
    (s : String) : symEntrySum st s = symPosition st s := by
  unfold symEntrySum symPosition
  cases hl : lookupSym st s with
  | none => rfl
  | some pd => exact (SymInv_of_lookup hinv hl).1

/-! ## `applyOrder` branch equations and the step lemma -/

theorem applyOrder_init (st : LedgerState) (tid : Nat) (ord : Order)
    (h : lookupSym st ord.symbol = none) :
    applyOrder st tid ord = applyOrder (st ++ [(ord.symbol, ⟨0, []⟩)]) tid ord := by
  have h2 : lookupSym (st ++ [(ord.symbol, ⟨0, []⟩)]) ord.symbol = some ⟨0, []⟩ :=
    lookupSym_append_self _ _ _ h
  simp [applyOrder, h, h2]

theorem applyOrder_buy_close (st : LedgerState) (tid : Nat) (ord : Order)
    (pd : SymState) (hlook : lookupSym st ord.symbol = some pd)
    (hq : 0 < ord.quantity) (hpos : pd.position < 0) :
    applyOrder st tid ord =
      (setSym st ord.symbol
        ⟨(if 0 < ord.quantity - min ord.quantity |pd.position|
          then pd.position + min ord.quantity |pd.position| +
                (ord.quantity - min ord.quantity |pd.position|)
          else pd.position + min ord.quantity |pd.position|),
         (if 0 < ord.quantity - min ord.quantity |pd.position|
          then (closeShortEntries ord tid (min ord.quantity |pd.position|) pd.entries).2.1 ++
                [⟨ord.quantity - min ord.quantity |pd.position|, ord.price, ord.timestamp, ord⟩]
          else (closeShortEntries ord tid (min ord.quantity |pd.position|) pd.entries).2.1)⟩,
       (closeShortEntries ord tid (min ord.quantity |pd.position|) pd.entries).1,
       (closeShortEntries ord tid (min ord.quantity |pd.position|) pd.entries).2.2) := by
  simp [applyOrder, hlook, hq, hpos]

theorem applyOrder_buy_add (st : LedgerState) (tid : Nat) (ord : Order)
    (pd : SymState) (hlook : lookupSym st ord.symbol = some pd)
    (hq : 0 < ord.quantity) (hpos : ¬pd.position < 0) :
    applyOrder st tid ord =
      (setSym st ord.symbol
        ⟨pd.position + ord.quantity,
         pd.entries ++ [⟨ord.quantity, ord.price, ord.timestamp, ord⟩]⟩, [], tid) := by
  simp [applyOrder, hlook, hq, hpos]

theorem applyOrder_sell_close (st : LedgerState) (tid : Nat) (ord : Order)
    (pd : SymState) (hlook : lookupSym st ord.symbol = some pd)
    (hq : ¬0 < ord.quantity) (hpos : 0 < pd.position) :
    applyOrder st tid ord =
      (setSym st ord.symbol
        ⟨(if 0 < |ord.quantity| - min |ord.quantity| pd.position
          then pd.position - min |ord.quantity| pd.position -
                (|ord.quantity| - min |ord.quantity| pd.position)
          else pd.position - min |ord.quantity| pd.position),
         (if 0 < |ord.quantity| - min |ord.quantity| pd.position
          then (closeLongEntries ord tid (min |ord.quantity| pd.position) pd.entries).2.1 ++
                [⟨-(|ord.quantity| - min |ord.quantity| pd.position), ord.price, ord.timestamp, ord⟩]
          else (closeLongEntries ord tid (min |ord.quantity| pd.position) pd.entries).2.1)⟩,
       (closeLongEntries ord tid (min |ord.quantity| pd.position) pd.entries).1,
       (closeLongEntries ord tid (min |ord.quantity| pd.position) pd.entries).2.2) := by
  simp [applyOrder, hlook, hq, hpos]

theorem applyOrder_sell_add (st : LedgerState) (tid : Nat) (ord : Order)
    (pd : SymState) (hlook : lookupSym st ord.symbol = some pd)
    (hq : ¬0 < ord.quantity) (hpos : ¬0 < pd.position) :
    applyOrder st tid ord =
      (setSym st ord.symbol
        ⟨pd.position - |ord.quantity|,
         pd.entries ++ [⟨-|ord.quantity|, ord.price, ord.timestamp, ord⟩]⟩, [], tid) := by
  simp [applyOrder, hlook, hq, hpos]

theorem closeShortEntries_spec (ord : Order) (tid : Nat) (q : Int) (es : List Entry)
    (hneg : ∀ e ∈ es, e.qty < 0) (hq0 : 0 ≤ q) (hqle : q ≤ -entrySum es) :
    entrySum (closeShortEntries ord tid q es).2.1 = entrySum es + q ∧
    (∀ e ∈ (closeShortEntries ord tid q es).2.1, e.qty < 0) ∧
    (closeShortEntries ord tid q es).2.2 =
      tid + (closeShortEntries ord tid q es).1.length ∧
    (∀ t ∈ (closeShortEntries ord tid q es).1,
      ∃ e cq, e.qty < 0 ∧ 0 < cq ∧ t = mkShortTrade ord t.tradeId e cq) :=
  closeShortLoop_spec ord (es.length + 1) tid q es (by omega) hneg hq0 hqle

theorem closeLongEntries_spec (ord : Order) (tid : Nat) (q : Int) (es : List Entry)
    (hpos : ∀ e ∈ es, 0 < e.qty) (hq0 : 0 ≤ q) (hqle : q ≤ entrySum es) :
    entrySum (closeLongEntries ord tid q es).2.1 = entrySum es - q ∧
    (∀ e ∈ (closeLongEntries ord tid q es).2.1, 0 < e.qty) ∧
    (closeLongEntries ord tid q es).2.2 =
      tid + (closeLongEntries ord tid q es).1.length ∧
    (∀ t ∈ (closeLongEntries ord tid q es).1,
      ∃ e cq, 0 < e.qty ∧ 0 < cq ∧ t = mkLongTrade ord t.tradeId e cq) :=
  closeLongLoop_spec ord (es.length + 1) tid q es (by omega) hpos hq0 hqle

/-- Step lemma (key present): processing one order preserves the ledger
invariant, changes the symbol's tracked position by exactly the order's
quantity, and emits only trades that close a lot of the recorded
direction with the source trade formulas. -/
theorem applyOrder_present_spec (st : LedgerState) (tid : Nat) (ord : Order)
    (pd : SymState) (hlook : lookupSym st ord.symbol = some pd)
    (hinv : LedgerInv st) (hq : ord.quantity ≠ 0) :
    LedgerInv (applyOrder st tid ord).1 ∧
    (∀ s, symPosition (applyOrder st tid ord).1 s =
        symPosition st s + (if ord.symbol = s then ord.quantity else 0)) ∧
    (∀ t ∈ (applyOrder st tid ord).2.1,
        ∃ e cq, 0 < cq ∧
          ((e.qty < 0 ∧ t = mkShortTrade ord t.tradeId e cq) ∨
           (0 < e.qty ∧ t = mkLongTrade ord t.tradeId e cq))) := by
  have hsome : (lookupSym st ord.symbol).isSome := by rw [hlook]; rfl
  have hsym := SymInv_of_lookup hinv hlook
  have hsum : entrySum pd.entries = pd.position := hsym.1
  have deltaOf : ∀ pd' : SymState, SymInv pd' → pd'.position = pd.position + ord.quantity →
      (∀ s, symPosition (setSym st ord.symbol pd') s =
        symPosition st s + (if ord.symbol = s then ord.quantity else 0)) := by
    intro pd' _ hppos s
    by_cases hss : ord.symbol = s
    · subst hss
      rw [symPosition_setSym_self hsome, if_pos rfl, symPosition_of_lookup hlook, hppos]
    · rw [symPosition_setSym_ne (fun hc => hss hc.symm), if_neg hss, add_zero]
  rcases lt_or_gt_of_ne hq with hqneg | hqpos
  · -- sell order
    have hq' : ¬0 < ord.quantity := by omega
    have habs : |ord.quantity| = -ord.quantity := abs_of_neg hqneg
    by_cases hpos : 0 < pd.position
    · -- close long lots
      rw [applyOrder_sell_close st tid ord pd hlook hq' hpos]
      have hposE : EntriesPos pd.entries := hsym.entriesPos hpos
      have hrtc0 : 0 ≤ min |ord.quantity| pd.position := by
        rw [habs]; omega
      have hrtcle : min |ord.quantity| pd.position ≤ entrySum pd.entries := by
        rw [hsum]; omega
      obtain ⟨hs1, hs2, hs3, hs4⟩ := closeLongEntries_spec ord tid
        (min |ord.quantity| pd.position) pd.entries hposE hrtc0 hrtcle
      by_cases hrem : 0 < |ord.quantity| - min |ord.quantity| pd.position
      · have hrtceq : min |ord.quantity| pd.position = pd.position := by
          rw [habs] at hrem ⊢; omega
        have hdrained : (closeLongEntries ord tid
            (min |ord.quantity| pd.position) pd.entries).2.1 = [] := by
          refine EntriesPos.eq_nil_of_sum_zero hs2 ?_
          rw [hs1, hsum, hrtceq]
          ring
        simp only [if_pos hrem, hdrained, List.nil_append]
        have hnewinv : SymInv ⟨pd.position - min |ord.quantity| pd.position -
            (|ord.quantity| - min |ord.quantity| pd.position),
            [⟨-(|ord.quantity| - min |ord.quantity| pd.position),
              ord.price, ord.timestamp, ord⟩]⟩ := by
          refine ⟨by rw [entrySum_cons, entrySum_nil]; dsimp only; omega, Or.inr ?_⟩
          intro e he
          simp only [List.mem_singleton] at he
          subst he
          dsimp only
          omega
        refine ⟨LedgerInv_setSym hinv hnewinv, deltaOf _ hnewinv (by dsimp only; omega), ?_⟩
        intro t ht
        obtain ⟨e, cq, hecq, hcq0, hte⟩ := hs4 t ht
        exact ⟨e, cq, hcq0, Or.inr ⟨hecq, hte⟩⟩
      · have hrtceq : min |ord.quantity| pd.position = |ord.quantity| := by
          omega
        have hnewinv : SymInv ⟨pd.position - min |ord.quantity| pd.position,
            (closeLongEntries ord tid (min |ord.quantity| pd.position) pd.entries).2.1⟩ := by
          refine ⟨by dsimp; omega, Or.inl hs2⟩
        simp only [if_neg hrem]
        refine ⟨LedgerInv_setSym hinv hnewinv, deltaOf _ hnewinv (by dsimp; omega), ?_⟩
        intro t ht
        obtain ⟨e, cq, hecq, hcq0, hte⟩ := hs4 t ht
        exact ⟨e, cq, hcq0, Or.inr ⟨hecq, hte⟩⟩
    · -- add to short position
      rw [applyOrder_sell_add st tid ord pd hlook hq' hpos]
      have hnewinv : SymInv ⟨pd.position - |ord.quantity|,
          pd.entries ++ [⟨-|ord.quantity|, ord.price, ord.timestamp, ord⟩]⟩ := by
        refine ⟨by rw [entrySum_append, entrySum_cons, entrySum_nil, hsum]; dsimp only; omega, ?_⟩
        rcases hsym.2 with hdir | hdir
        · have hP0 : pd.position = 0 := by
            have := hdir.sum_nonneg
            omega
          have hnil : pd.entries = [] := hsym.entries_nil hP0
          rw [hnil, List.nil_append]
          refine Or.inr ?_
          intro e he
          simp only [List.mem_singleton] at he
          subst he
          dsimp
          omega
        · refine Or.inr ?_
          intro e he
          rcases List.mem_append.mp he with h1 | h1
          · exact hdir e h1
          · simp only [List.mem_singleton] at h1
            subst h1
            dsimp
            omega
      refine ⟨LedgerInv_setSym hinv hnewinv, deltaOf _ hnewinv (by dsimp; omega), ?_⟩
      intro t ht
      simp at ht
  · -- buy order
    have habs : |pd.position| = -pd.position ∨ 0 ≤ pd.position := by
      rcases lt_or_le pd.position 0 with h | h
      · exact Or.inl (abs_of_neg h)
      · exact Or.inr h
    by_cases hpos : pd.position < 0
    · -- close short lots
      rw [applyOrder_buy_close st tid ord pd hlook hqpos hpos]
      have hnegE : EntriesNeg pd.entries := hsym.entriesNeg hpos
      have habs' : |pd.position| = -pd.position := abs_of_neg hpos
      have hrtc0 : 0 ≤ min ord.quantity |pd.position| := by
        rw [habs']; omega
      have hrtcle : min ord.quantity |pd.position| ≤ -entrySum pd.entries := by
        rw [hsum, habs']; omega
      obtain ⟨hs1, hs2, hs3, hs4⟩ := closeShortEntries_spec ord tid
        (min ord.quantity |pd.position|) pd.entries hnegE hrtc0 hrtcle
      by_cases hrem : 0 < ord.quantity - min ord.quantity |pd.position|
      · have hrtceq : min ord.quantity |pd.position| = |pd.position| := by
          rw [habs'] at hrem ⊢; omega
        have hdrained : (closeShortEntries ord tid
            (min ord.quantity |pd.position|) pd.entries).2.1 = [] := by
          refine EntriesNeg.eq_nil_of_sum_zero_neg hs2 ?_
          rw [hs1, hsum, hrtceq, habs']
          ring
        simp only [if_pos hrem, hdrained, List.nil_append]
        have hnewinv : SymInv ⟨pd.position + min ord.quantity |pd.position| +
            (ord.quantity - min ord.quantity |pd.position|),
            [⟨ord.quantity - min ord.quantity |pd.position|,
              ord.price, ord.timestamp, ord⟩]⟩ := by
          refine ⟨?_, Or.inl ?_⟩
          · rw [entrySum_cons, entrySum_nil]
            dsimp only
            omega
          · intro e he
            simp only [List.mem_singleton] at he
            subst he
            dsimp only
            omega
        refine ⟨LedgerInv_setSym hinv hnewinv, deltaOf _ hnewinv (by dsimp only; omega), ?_⟩
        intro t ht
        obtain ⟨e, cq, hecq, hcq0, hte⟩ := hs4 t ht
        exact ⟨e, cq, hcq0, Or.inl ⟨hecq, hte⟩⟩
      · have hnewinv : SymInv ⟨pd.position + min ord.quantity |pd.position|,
            (closeShortEntries ord tid (min ord.quantity |pd.position|) pd.entries).2.1⟩ := by
          refine ⟨by dsimp; omega, Or.inr hs2⟩
        simp only [if_neg hrem]
        refine ⟨LedgerInv_setSym hinv hnewinv, deltaOf _ hnewinv ?_, ?_⟩
        · dsimp
          rw [habs'] at hrem ⊢
          omega
        · intro t ht
          obtain ⟨e, cq, hecq, hcq0, hte⟩ := hs4 t ht
          exact ⟨e, cq, hcq0, Or.inl ⟨hecq, hte⟩⟩
    · -- add to long position
      rw [applyOrder_buy_add st tid ord pd hlook hqpos hpos]
      have hnewinv : SymInv ⟨pd.position + ord.quantity,
          pd.entries ++ [⟨ord.quantity, ord.price, ord.timestamp, ord⟩]⟩ := by
        refine ⟨by rw [entrySum_append, entrySum_cons, entrySum_nil, hsum]; dsimp only; omega, ?_⟩
        rcases hsym.2 with hdir | hdir
        · refine Or.inl ?_
          intro e he
          rcases List.mem_append.mp he with h1 | h1
          · exact hdir e h1
          · simp only [List.mem_singleton] at h1
            subst h1
            exact hqpos
        · have hP0 : pd.position = 0 := by
            have := hdir.sum_nonpos
            omega
          have hnil : pd.entries = [] := hsym.entries_nil hP0
          rw [hnil, List.nil_append]
          refine Or.inl ?_
          intro e he
          simp only [List.mem_singleton] at he
          subst he
          exact hqpos
      refine ⟨LedgerInv_setSym hinv hnewinv, deltaOf _ hnewinv (by dsimp), ?_⟩
      intro t ht
      simp at ht

/-- Step lemma, general form. -/
theorem applyOrder_spec (st : LedgerState) (tid : Nat) (ord : Order)
    (hinv : LedgerInv st) (hq : ord.quantity ≠ 0) :
    LedgerInv (applyOrder st tid ord).1 ∧
    (∀ s, symPosition (applyOrder st tid ord).1 s =
        symPosition st s + (if ord.symbol = s then ord.quantity else 0)) ∧
    (∀ t ∈ (applyOrder st tid ord).2.1,
        ∃ e cq, 0 < cq ∧
          ((e.qty < 0 ∧ t = mkShortTrade ord t.tradeId e cq) ∨
           (0 < e.qty ∧ t = mkLongTrade ord t.tradeId e cq))) := by
  cases hlook : lookupSym st ord.symbol with
  | some pd => exact applyOrder_present_spec st tid ord pd hlook hinv hq
  | none =>
    rw [applyOrder_init st tid ord hlook]
    have hinv' := LedgerInv_append_fresh hinv hlook
    have hlook' : lookupSym (st ++ [(ord.symbol, ⟨0, []⟩)]) ord.symbol = some ⟨0, []⟩ :=
      lookupSym_append_self _ _ _ hlook
    obtain ⟨h1, h2, h3⟩ := applyOrder_present_spec _ tid ord _ hlook' hinv' hq
    refine ⟨h1, ?_, h3⟩
    intro s
    rw [h2 s, symPosition_append_fresh hlook s]

theorem orderQtySum_cons (o : Order) (os : List Order) (s : String) :
    orderQtySum (o :: os) s =
      (if o.symbol = s then o.quantity else 0) + orderQtySum os s := by
  by_cases h : o.symbol = s <;> simp [orderQtySum, List.filter_cons, h]

/-- Folding a whole order block through the ledger preserves the
invariant, adds the per-symbol signed order sums to the positions, and
only emits lot-closing trades of the recorded direction. -/
theorem foldl_buildStep_spec (orders : List Order) :
    ∀ (st : LedgerState) (trades : List Trade) (tid : Nat),
      LedgerInv st → (∀ o ∈ orders, o.quantity ≠ 0) →
      LedgerInv (orders.foldl buildStep (st, trades, tid)).1 ∧
      (∀ s, symPosition (orders.foldl buildStep (st, trades, tid)).1 s =
          symPosition st s + orderQtySum orders s) ∧
      (∀ t ∈ (orders.foldl buildStep (st, trades, tid)).2.1,
        t ∈ trades ∨ ∃ ord e cq, ord ∈ orders ∧ 0 < cq ∧
          ((e.qty < 0 ∧ t = mkShortTrade ord t.tradeId e cq) ∨
           (0 < e.qty ∧ t = mkLongTrade ord t.tradeId e cq))) := by
  induction orders with
  | nil =>
    intro st trades tid hinv _
    refine ⟨hinv, ?_, ?_⟩
    · intro s
      simp [orderQtySum]
    · intro t ht
      exact Or.inl ht
  | cons o os ih =>
    intro st trades tid hinv hqs
    have hq : o.quantity ≠ 0 := hqs o (by simp)
    obtain ⟨h1, h2, h3⟩ := applyOrder_spec st tid o hinv hq
    have hstep : (o :: os).foldl buildStep (st, trades, tid) =
        os.foldl buildStep ((applyOrder st tid o).1,
          trades ++ (applyOrder st tid o).2.1, (applyOrder st tid o).2.2) := rfl
    rw [hstep]
    obtain ⟨g1, g2, g3⟩ := ih _ _ _ h1 (fun x hx => hqs x (by simp [hx]))
    refine ⟨g1, ?_, ?_⟩
    · intro s
      rw [g2 s, h2 s, orderQtySum_cons]
      omega
    · intro t ht
      rcases g3 t ht with hmem | ⟨ord, e, cq, hordmem, hrest⟩
      · rcases List.mem_append.mp hmem with hl | hl
        · exact Or.inl hl
        · obtain ⟨e, cq, hcq0, hca⟩ := h3 t hl
          exact Or.inr ⟨o, e, cq, by simp, hcq0, hca⟩
      · exact Or.inr ⟨ord, e, cq, by simp [hordmem], hrest⟩

/-! ## Claim C1 (ledger invariant) -/

/-- C1: after every prefix of an order sequence with nonzero quantities
(the upstream filter guarantees this), and for every symbol, the signed
sum of the remaining lot quantities equals the tracked net position, which
equals the running signed sum of the processed order quantities of that
symbol. -/
theorem C1_ledger_invariant (orders : List Order)
    (h : ∀ o ∈ orders, o.quantity ≠ 0) (n : Nat) (s : String) :
    symEntrySum (finalLedger (orders.take n)) s =
      symPosition (finalLedger (orders.take n)) s ∧
    symPosition (finalLedger (orders.take n)) s = orderQtySum (orders.take n) s := by
  have htake : ∀ o ∈ orders.take n, o.quantity ≠ 0 :=
    fun o ho => h o (List.mem_of_mem_take ho)
  have hinv0 : LedgerInv ([] : LedgerState) := ⟨List.nodup_nil, by intro p hp; simp at hp⟩
  obtain ⟨h1, h2, _⟩ := foldl_buildStep_spec (orders.take n) [] [] 1 hinv0 htake
  refine ⟨symEntrySum_eq_symPosition h1 s, ?_⟩
  show symPosition ((orders.take n).foldl buildStep ([], [], 1)).1 s = _
  rw [h2 s]
  simp [symPosition, lookupSym]

/-- C1, witness: the invariant instantiated on a concrete two-order
prefix. -/
theorem C1_ledger_invariant_witness :
    symEntrySum (finalLedger ([mkOrder 0 3 100, mkOrder 60000 (-5) 110].take 2)) "ES" =
      symPosition (finalLedger ([mkOrder 0 3 100, mkOrder 60000 (-5) 110].take 2)) "ES" ∧
    symPosition (finalLedger ([mkOrder 0 3 100, mkOrder 60000 (-5) 110].take 2)) "ES" =
      orderQtySum ([mkOrder 0 3 100, mkOrder 60000 (-5) 110].take 2) "ES" :=
  C1_ledger_invariant [mkOrder 0 3 100, mkOrder 60000 (-5) 110] (by decide) 2 "ES"

/-! ## Claim C4 (trade field postconditions) -/

theorem mkShortTrade_fields (ord : Order) (tid : Nat) (e : Entry) (cq : Int) :
    (mkShortTrade ord tid e cq).position = "short" ∧
    (mkShortTrade ord tid e cq).profit =
      ((mkShortTrade ord tid e cq).entryPrice - (mkShortTrade ord tid e cq).exitPrice) *
        ord.multiplier * ((mkShortTrade ord tid e cq).quantity : ℚ) ∧
    (mkShortTrade ord tid e cq).percentGain =
      (if 0 < (mkShortTrade ord tid e cq).entryPrice
       then ((mkShortTrade ord tid e cq).entryPrice -
          (mkShortTrade ord tid e cq).exitPrice) /
          (mkShortTrade ord tid e cq).entryPrice * 100
       else 0) ∧
    (mkShortTrade ord tid e cq).size =
      (mkShortTrade ord tid e cq).entryPrice * ord.multiplier / CAPITAL_BASE * 100 ∧
    (mkShortTrade ord tid e cq).duration =
      (((mkShortTrade ord tid e cq).exitTime -
          (mkShortTrade ord tid e cq).entryTime : Int) : ℚ) / (1000 * 60) ∧
    ((mkShortTrade ord tid e cq).entryPrice = 0 →
      (mkShortTrade ord tid e cq).percentGain = 0) := by
  refine ⟨rfl, rfl, rfl, rfl, rfl, ?_⟩
  intro h0
  dsimp [mkShortTrade] at h0 ⊢
  rw [h0]
  norm_num

theorem mkLongTrade_fields (ord : Order) (tid : Nat) (e : Entry) (cq : Int) :
    (mkLongTrade ord tid e cq).position = "long" ∧
    (mkLongTrade ord tid e cq).profit =
      ((mkLongTrade ord tid e cq).exitPrice - (mkLongTrade ord tid e cq).entryPrice) *
        ord.multiplier * ((mkLongTrade ord tid e cq).quantity : ℚ) ∧
    (mkLongTrade ord tid e cq).percentGain =
      (if 0 < (mkLongTrade ord tid e cq).entryPrice
       then ((mkLongTrade ord tid e cq).exitPrice -
          (mkLongTrade ord tid e cq).entryPrice) /
          (mkLongTrade ord tid e cq).entryPrice * 100
       else 0) ∧
    (mkLongTrade ord tid e cq).size =
      (mkLongTrade ord tid e cq).entryPrice * ord.multiplier / CAPITAL_BASE * 100 ∧
    (mkLongTrade ord tid e cq).duration =
      (((mkLongTrade ord tid e cq).exitTime -
          (mkLongTrade ord tid e cq).entryTime : Int) : ℚ) / (1000 * 60) ∧
    ((mkLongTrade ord tid e cq).entryPrice = 0 →
      (mkLongTrade ord tid e cq).percentGain = 0) := by
  refine ⟨rfl, rfl, rfl, rfl, rfl, ?_⟩
  intro h0
  dsimp [mkLongTrade] at h0 ⊢
  rw [h0]
  norm_num

/-- C4: every realized trade of the builder (on upstream-filtered orders)
carries the closed lot's direction as its side, the direction-aware profit
and percent-gain formulas (percent gain 0 when the entry price is 0), the
size formula `entryPrice * multiplier / 100000 * 100` and the duration in
minutes, where the multiplier is the closing order's; the lot closed by a
`short` trade is recorded with negative quantity, the lot closed by a
`long` trade with positive quantity. -/
theorem C4_trade_postconditions (orders : List Order)
    (h : ∀ o ∈ orders, o.quantity ≠ 0) :
    ∀ t ∈ (buildTradesFromOrders orders).1,
      ∃ m : ℚ,
        ((t.position = "long" ∧
            t.profit = (t.exitPrice - t.entryPrice) * m * (t.quantity : ℚ) ∧
            t.percentGain = (if 0 < t.entryPrice
              then (t.exitPrice - t.entryPrice) / t.entryPrice * 100 else 0)) ∨
         (t.position = "short" ∧
            t.profit = (t.entryPrice - t.exitPrice) * m * (t.quantity : ℚ) ∧
            t.percentGain = (if 0 < t.entryPrice
              then (t.entryPrice - t.exitPrice) / t.entryPrice * 100 else 0))) ∧
        t.size = t.entryPrice * m / CAPITAL_BASE * 100 ∧
        t.duration = ((t.exitTime - t.entryTime : Int) : ℚ) / (1000 * 60) ∧
        (t.entryPrice = 0 → t.percentGain = 0) ∧
        (∃ ord e cq, ord ∈ orders ∧ m = ord.multiplier ∧ 0 < cq ∧
          ((e.qty < 0 ∧ t.position = "short" ∧ t = mkShortTrade ord t.tradeId e cq) ∨
           (0 < e.qty ∧ t.position = "long" ∧ t = mkLongTrade ord t.tradeId e cq))) := by
  intro t ht
  have hinv0 : LedgerInv ([] : LedgerState) := ⟨List.nodup_nil, by intro p hp; simp at hp⟩
  obtain ⟨_, _, h3⟩ := foldl_buildStep_spec orders [] [] 1 hinv0 h
  have ht' : t ∈ (orders.foldl buildStep ([], [], 1)).2.1 := ht
  rcases h3 t ht' with hmem | ⟨ord, e, cq, hordmem, hcq0, hca⟩
  · simp at hmem
  · refine ⟨ord.multiplier, ?_, ?_, ?_, ?_, ord, e, cq, hordmem, rfl, hcq0, ?_⟩
    · rcases hca with ⟨hneg, hte⟩ | ⟨hpos, hte⟩
      · refine Or.inr ?_
        rw [hte]
        obtain ⟨f1, f2, f3, _, _, _⟩ := mkShortTrade_fields ord t.tradeId e cq
        exact ⟨f1, f2, f3⟩
      · refine Or.inl ?_
        rw [hte]
        obtain ⟨f1, f2, f3, _, _, _⟩ := mkLongTrade_fields ord t.tradeId e cq
        exact ⟨f1, f2, f3⟩
    · rcases hca with ⟨_, hte⟩ | ⟨_, hte⟩
      · rw [hte]
        exact (mkShortTrade_fields ord t.tradeId e cq).2.2.2.1
      · rw [hte]
        exact (mkLongTrade_fields ord t.tradeId e cq).2.2.2.1
    · rcases hca with ⟨_, hte⟩ | ⟨_, hte⟩
      · rw [hte]
        exact (mkShortTrade_fields ord t.tradeId e cq).2.2.2.2.1
      · rw [hte]
        exact (mkLongTrade_fields ord t.tradeId e cq).2.2.2.2.1
    · rcases hca with ⟨_, hte⟩ | ⟨_, hte⟩
      · rw [hte]
        exact (mkShortTrade_fields ord t.tradeId e cq).2.2.2.2.2
      · rw [hte]
        exact (mkLongTrade_fields ord t.tradeId e cq).2.2.2.2.2
    · rcases hca with ⟨hneg, hte⟩ | ⟨hpos, hte⟩
      · refine Or.inl ⟨hneg, ?_, ?_⟩
        · rw [hte]
          exact (mkShortTrade_fields ord t.tradeId e cq).1
        · exact hte
      · refine Or.inr ⟨hpos, ?_, ?_⟩
        · rw [hte]
          exact (mkLongTrade_fields ord t.tradeId e cq).1
        · exact hte

/-- C4, witness: the postconditions applied to the (single) trade of a
concrete buy-then-sell run. -/
theorem C4_trade_postconditions_witness :
    flipTrade ∈ (buildTradesFromOrders [mkOrder 0 3 100, mkOrder 60000 (-5) 110]).1 ∧
      ∃ m : ℚ,
        ((flipTrade.position = "long" ∧
            flipTrade.profit =
              (flipTrade.exitPrice - flipTrade.entryPrice) * m * (flipTrade.quantity : ℚ) ∧
            flipTrade.percentGain = (if 0 < flipTrade.entryPrice
              then (flipTrade.exitPrice - flipTrade.entryPrice) /
                flipTrade.entryPrice * 100 else 0)) ∨
         (flipTrade.position = "short" ∧
            flipTrade.profit =
              (flipTrade.entryPrice - flipTrade.exitPrice) * m * (flipTrade.quantity : ℚ) ∧
            flipTrade.percentGain = (if 0 < flipTrade.entryPrice
              then (flipTrade.entryPrice - flipTrade.exitPrice) /
                flipTrade.entryPrice * 100 else 0))) ∧
        flipTrade.size = flipTrade.entryPrice * m / CAPITAL_BASE * 100 ∧
        flipTrade.duration =
          ((flipTrade.exitTime - flipTrade.entryTime : Int) : ℚ) / (1000 * 60) ∧
        (flipTrade.entryPrice = 0 → flipTrade.percentGain = 0) ∧
        (∃ ord e cq, ord ∈ [mkOrder 0 3 100, mkOrder 60000 (-5) 110] ∧
            m = ord.multiplier ∧ 0 < cq ∧
          ((e.qty < 0 ∧ flipTrade.position = "short" ∧
              flipTrade = mkShortTrade ord flipTrade.tradeId e cq) ∨
           (0 < e.qty ∧ flipTrade.position = "long" ∧
              flipTrade = mkLongTrade ord flipTrade.tradeId e cq))) := by
  have htm : flipTrade ∈ (buildTradesFromOrders [mkOrder 0 3 100, mkOrder 60000 (-5) 110]).1 := by
    show flipTrade ∈ [flipTrade]
    simp
  exact ⟨htm, C4_trade_postconditions [mkOrder 0 3 100, mkOrder 60000 (-5) 110]
    (by decide) flipTrade htm⟩

/-! ## Claim C2 (position flip) -/

/-- C2: the concrete flip — a buy of 3 at 100 followed by a sell of 5 at
110 yields exactly one realized trade (long, quantity 3, profit
`(110 − 100) × multiplier × 3`) and one open short position of 2 at entry
price 110; and in general, an order whose size exceeds the magnitude of an
opposite net position flattens the whole queue and pushes a single new lot
of the leftover magnitude, in the order's direction, at the order's price
and timestamp. -/
theorem C2_position_flip :
    (buildTradesFromOrders [mkOrder 0 3 100, mkOrder 60000 (-5) 110]).1 = [flipTrade] ∧
    flipTrade.position = "long" ∧
    flipTrade.quantity = 3 ∧
    flipTrade.profit = (110 - 100) * getMultiplier "ES" * 3 ∧
    (buildTradesFromOrders [mkOrder 0 3 100, mkOrder 60000 (-5) 110]).2 =
      [{ symbol := "ES", otype := "future", position := "short", quantity := 2,
         avgPrice := 110, costBasis := 220, size := 220 / CAPITAL_BASE * 100,
         firstEntry := 60000 }] ∧
    (∀ (st : LedgerState) (tid : Nat) (ord : Order) (pd : SymState),
      lookupSym st ord.symbol = some pd →
      entrySum pd.entries = pd.position →
      (∀ e ∈ pd.entries, e.qty < 0) →
      pd.position < 0 → -pd.position < ord.quantity →
      lookupSym (applyOrder st tid ord).1 ord.symbol =
        some ⟨pd.position + ord.quantity,
          [⟨ord.quantity + pd.position, ord.price, ord.timestamp, ord⟩]⟩) ∧
    (∀ (st : LedgerState) (tid : Nat) (ord : Order) (pd : SymState),
      lookupSym st ord.symbol = some pd →
      entrySum pd.entries = pd.position →
      (∀ e ∈ pd.entries, 0 < e.qty) →
      0 < pd.position → ord.quantity < -pd.position →
      lookupSym (applyOrder st tid ord).1 ord.symbol =
        some ⟨pd.position + ord.quantity,
          [⟨ord.quantity + pd.position, ord.price, ord.timestamp, ord⟩]⟩) := by
  refine ⟨rfl, rfl, rfl, ?_, ?_, ?_, ?_⟩
  · have hm : getMultiplier "ES" = 50 := rfl
    rw [hm]
    norm_num [flipTrade, mkLongTrade, mkOrder]
  · norm_num [buildTradesFromOrders, buildStep, applyOrder, lookupSym, setSym,
      closeLongEntries, closeLongLoop, closeShortEntries, closeShortLoop,
      mkLongTrade, mkShortTrade, openPositionsOf, mkOrder, totalAbsQty, totalAbsValue,
      CAPITAL_BASE, List.filterMap_cons, List.filterMap_nil, Function.comp]
  · -- buy order flipping a short position
    intro st tid ord pd hlook hsum hneg hpos hover
    have hsome : (lookupSym st ord.symbol).isSome := by rw [hlook]; rfl
    have habs : |pd.position| = -pd.position := abs_of_neg hpos
    have hq : 0 < ord.quantity := by omega
    rw [applyOrder_buy_close st tid ord pd hlook hq hpos]
    have hrtc : min ord.quantity |pd.position| = |pd.position| :=
      min_eq_right (by omega)
    have hrem : 0 < ord.quantity - min ord.quantity |pd.position| := by omega
    obtain ⟨hs1, hs2, _, _⟩ := closeShortEntries_spec ord tid
      (min ord.quantity |pd.position|) pd.entries hneg (by omega) (by omega)
    have hdrained : (closeShortEntries ord tid
        (min ord.quantity |pd.position|) pd.entries).2.1 = [] := by
      refine EntriesNeg.eq_nil_of_sum_zero_neg hs2 ?_
      rw [hs1, hsum, hrtc, habs]
      ring
    simp only [if_pos hrem, hdrained, List.nil_append]
    rw [lookupSym_setSym_self st ord.symbol _ hsome]
    have h1 : pd.position + min ord.quantity |pd.position| +
        (ord.quantity - min ord.quantity |pd.position|) = pd.position + ord.quantity := by
      omega
    have h2 : ord.quantity - min ord.quantity |pd.position| =
        ord.quantity + pd.position := by omega
    rw [h1, h2]
  · -- sell order flipping a long position
    intro st tid ord pd hlook hsum hposE hpos hover
    have hsome : (lookupSym st ord.symbol).isSome := by rw [hlook]; rfl
    have habs : |ord.quantity| = -ord.quantity := abs_of_neg (by omega)
    have hq : ¬0 < ord.quantity := by omega
    rw [applyOrder_sell_close st tid ord pd hlook hq hpos]
    have hrtc : min |ord.quantity| pd.position = pd.position :=
      min_eq_right (by omega)
    have hrem : 0 < |ord.quantity| - min |ord.quantity| pd.position := by omega
    obtain ⟨hs1, hs2, _, _⟩ := closeLongEntries_spec ord tid
      (min |ord.quantity| pd.position) pd.entries hposE (by omega) (by omega)
    have hdrained : (closeLongEntries ord tid
        (min |ord.quantity| pd.position) pd.entries).2.1 = [] := by
      refine EntriesPos.eq_nil_of_sum_zero hs2 ?_
      rw [hs1, hsum, hrtc]
      ring
    simp only [if_pos hrem, hdrained, List.nil_append]
    rw [lookupSym_setSym_self st ord.symbol _ hsome]
    have h1 : pd.position - min |ord.quantity| pd.position -
        (|ord.quantity| - min |ord.quantity| pd.position) = pd.position + ord.quantity := by
      omega
    have h2 : -(|ord.quantity| - min |ord.quantity| pd.position) =
        ord.quantity + pd.position := by omega
    rw [h1, h2]

/-- C2, witness: the flip lemma of the general conjunct applied at a
concrete one-symbol short state hit by a larger buy. -/
theorem C2_position_flip_witness :
    lookupSym (applyOrder [("ES", ⟨-2, [⟨-2, 110, 0, mkOrder 0 (-2) 110⟩]⟩)] 7
        (mkOrder 60000 5 120)).1 (mkOrder 60000 5 120).symbol =
      some ⟨-2 + 5, [⟨5 + -2, 120, 60000, mkOrder 60000 5 120⟩]⟩ := by
  have h := C2_position_flip.2.2.2.2.2.1
    [("ES", ⟨-2, [⟨-2, 110, 0, mkOrder 0 (-2) 110⟩]⟩)] 7 (mkOrder 60000 5 120)
    ⟨-2, [⟨-2, 110, 0, mkOrder 0 (-2) 110⟩]⟩
    (by decide) (by decide) (by decide) (by decide) (by decide)
  simpa using h

/-! ## Claim C3 (FIFO matching and sequential ids) -/

/-- C3: with two long lots (quantity 3 opened at time 0, quantity 5 opened
at time 60000) a single closing sell of 4 emits exactly two trades, the
first fully closing the older lot's 3 units with its entry data, the
second closing 1 unit of the newer lot, leaving an open position of 4
units at the newer lot's entry price and time; and in general the closing
loops assign consecutive sequential trade ids starting at the running
counter. -/
theorem C3_fifo_matching :
    (buildTradesFromOrders
        [mkOrder 0 3 100, mkOrder 60000 5 101, mkOrder 120000 (-4) 103]).1 =
      [mkLongTrade (mkOrder 120000 (-4) 103) 1 ⟨3, 100, 0, mkOrder 0 3 100⟩ 3,
       mkLongTrade (mkOrder 120000 (-4) 103) 2 ⟨5, 101, 60000, mkOrder 60000 5 101⟩ 1] ∧
    ((buildTradesFromOrders
        [mkOrder 0 3 100, mkOrder 60000 5 101, mkOrder 120000 (-4) 103]).1.map
      (fun t => (t.tradeId, t.quantity, t.entryTime, t.entryPrice))) =
      [(1, 3, 0, 100), (2, 1, 60000, 101)] ∧
    (buildTradesFromOrders
        [mkOrder 0 3 100, mkOrder 60000 5 101, mkOrder 120000 (-4) 103]).2 =
      [{ symbol := "ES", otype := "future", position := "long", quantity := 4,
         avgPrice := 101, costBasis := 404, size := 404 / CAPITAL_BASE * 100,
         firstEntry := 60000 }] ∧
    (∀ (ord : Order) (tid : Nat) (q : Int) (es : List Entry),
      (closeLongEntries ord tid q es).1.map (·.tradeId) =
        List.range' tid (closeLongEntries ord tid q es).1.length ∧
      (closeLongEntries ord tid q es).2.2 =
        tid + (closeLongEntries ord tid q es).1.length) ∧
    (∀ (ord : Order) (tid : Nat) (q : Int) (es : List Entry),
      (closeShortEntries ord tid q es).1.map (·.tradeId) =
        List.range' tid (closeShortEntries ord tid q es).1.length ∧
      (closeShortEntries ord tid q es).2.2 =
        tid + (closeShortEntries ord tid q es).1.length) := by
  refine ⟨rfl, ?_, ?_, ?_, ?_⟩
  · norm_num [buildTradesFromOrders, buildStep, applyOrder, lookupSym, setSym,
      closeLongEntries, closeLongLoop, closeShortEntries, closeShortLoop,
      mkLongTrade, mkShortTrade, mkOrder]
  · norm_num [buildTradesFromOrders, buildStep, applyOrder, lookupSym, setSym,
      closeLongEntries, closeLongLoop, closeShortEntries, closeShortLoop,
      mkLongTrade, mkShortTrade, openPositionsOf, mkOrder, totalAbsQty, totalAbsValue,
      CAPITAL_BASE, List.filterMap_cons, List.filterMap_nil, Function.comp]
  · intro ord tid q es
    exact closeLongLoop_ids ord (es.length + 1) tid q es
  · intro ord tid q es
    exact closeShortLoop_ids ord (es.length + 1) tid q es

/-! ## Claim C7 (all-same-direction sequences) -/

/-- Folding an all-same-direction, single-symbol order block over a
single-symbol ledger state whose position has the same direction only
appends lots: no trades, no id changes. -/
theorem foldl_sameDir (s : String) (orders : List Order) :
    ∀ (P : Int) (es : List Entry) (trades : List Trade) (tid : Nat),
      (∀ o ∈ orders, o.symbol = s) →
      ((∀ o ∈ orders, 0 < o.quantity) ∧ 0 ≤ P ∨
       (∀ o ∈ orders, o.quantity < 0) ∧ P ≤ 0) →
      orders.foldl buildStep ([(s, ⟨P, es⟩)], trades, tid) =
        ([(s, ⟨P + (orders.map (·.quantity)).sum,
            es ++ orders.map (fun o => ⟨o.quantity, o.price, o.timestamp, o⟩)⟩)],
         trades, tid) := by
  induction orders with
  | nil =>
    intro P es trades tid _ _
    simp
  | cons o os ih =>
    intro P es trades tid hsym hsign
    have hos : o.symbol = s := hsym o (by simp)
    have hlook : lookupSym [(s, (⟨P, es⟩ : SymState))] o.symbol = some ⟨P, es⟩ := by
      rw [hos, lookupSym_cons]
      simp
    have hset : ∀ pd' : SymState,
        setSym [(s, (⟨P, es⟩ : SymState))] o.symbol pd' = [(s, pd')] := by
      intro pd'
      rw [hos]
      simp [setSym]
    have hstep : buildStep ([(s, (⟨P, es⟩ : SymState))], trades, tid) o =
        ([(s, ⟨P + o.quantity, es ++ [⟨o.quantity, o.price, o.timestamp, o⟩]⟩)],
         trades, tid) := by
      show ((applyOrder [(s, ⟨P, es⟩)] tid o).1,
        trades ++ (applyOrder [(s, ⟨P, es⟩)] tid o).2.1,
        (applyOrder [(s, ⟨P, es⟩)] tid o).2.2) = _
      rcases hsign with ⟨hq, hP⟩ | ⟨hq, hP⟩
      · have hqo : 0 < o.quantity := hq o (by simp)
        rw [applyOrder_buy_add _ tid o _ hlook hqo (by dsimp only; omega)]
        rw [hset]
        simp
      · have hqo : o.quantity < 0 := hq o (by simp)
        have habs : |o.quantity| = -o.quantity := abs_of_neg hqo
        rw [applyOrder_sell_add _ tid o _ hlook (by omega) (by dsimp only; omega)]
        rw [hset, habs]
        simp
    rw [List.foldl_cons, hstep]
    have hsign' : (∀ x ∈ os, 0 < x.quantity) ∧ 0 ≤ P + o.quantity ∨
        (∀ x ∈ os, x.quantity < 0) ∧ P + o.quantity ≤ 0 := by
      rcases hsign with ⟨hq, hP⟩ | ⟨hq, hP⟩
      · exact Or.inl ⟨fun x hx => hq x (by simp [hx]),
          by have := hq o (by simp); omega⟩
      · exact Or.inr ⟨fun x hx => hq x (by simp [hx]),
          by have := hq o (by simp); omega⟩
    rw [ih (P + o.quantity) _ trades tid (fun x hx => hsym x (by simp [hx])) hsign']
    simp [add_assoc]

theorem totalAbsQty_map_orders (orders : List Order) :
    totalAbsQty (orders.map (fun o => ⟨o.quantity, o.price, o.timestamp, o⟩)) =
      (orders.map (fun o => |o.quantity|)).sum := by
  simp only [totalAbsQty, List.map_map]
  refine congrArg List.sum (List.map_congr_left ?_)
  intro a _
  rfl

theorem totalAbsValue_map_orders (orders : List Order) :
    totalAbsValue (orders.map (fun o => ⟨o.quantity, o.price, o.timestamp, o⟩)) =
      (orders.map (fun o => (|o.quantity| : ℚ) * o.price)).sum := by
  simp only [totalAbsValue, List.map_map]
  refine congrArg List.sum (List.map_congr_left ?_)
  intro a _
  rfl

/-- Evaluation of the open-position extraction on a one-symbol ledger with
a non-empty queue of positive total absolute quantity. -/
theorem openPositionsOf_single (s : String) (P : Int) (e : Entry) (es : List Entry)
    (h : 0 < totalAbsQty (e :: es)) :
    openPositionsOf [(s, ⟨P, e :: es⟩)] =
      [{ symbol := s, otype := "future"
         position := if 0 < P then "long" else "short"
         quantity := |P|
         avgPrice := totalAbsValue (e :: es) / ((totalAbsQty (e :: es) : Int) : ℚ)
         costBasis := totalAbsValue (e :: es)
         size := totalAbsValue (e :: es) / CAPITAL_BASE * 100
         firstEntry := e.time }] := by
  simp only [openPositionsOf, List.filterMap_cons, List.filterMap_nil]
  rw [if_pos h]

/-- C7: a non-empty single-symbol order sequence whose quantities all have
one sign (sorted by timestamp, per the input contract) produces no trades
and exactly one open position, whose average price is the volume-weighted
mean of the fill prices with absolute-quantity weights, whose cost basis
is the sum of `|quantity| × price` over the remaining lots (= all fills),
and whose timestamp is that of the earliest remaining lot. -/
theorem C7_same_direction (orders : List Order) (s : String)
    (hne : orders ≠ [])
    (hsym : ∀ o ∈ orders, o.symbol = s)
    (hsign : (∀ o ∈ orders, 0 < o.quantity) ∨ (∀ o ∈ orders, o.quantity < 0))
    (hsort : orders.Pairwise (fun a b => a.timestamp ≤ b.timestamp)) :
    (buildTradesFromOrders orders).1 = [] ∧
    ∃ pos : OpenPosition, (buildTradesFromOrders orders).2 = [pos] ∧
      pos.avgPrice =
        (orders.map (fun o => (|o.quantity| : ℚ) * o.price)).sum /
          (((orders.map (fun o => |o.quantity|)).sum : Int) : ℚ) ∧
      pos.costBasis = (orders.map (fun o => (|o.quantity| : ℚ) * o.price)).sum ∧
      pos.firstEntry ∈ orders.map (·.timestamp) ∧
      (∀ o ∈ orders, pos.firstEntry ≤ o.timestamp) := by
  obtain ⟨o, os, rfl⟩ := List.exists_cons_of_ne_nil hne
  have hos : o.symbol = s := hsym o (by simp)
  have hlookup0 : lookupSym [] o.symbol = none := rfl
  have hlook1 : lookupSym [(o.symbol, (⟨0, []⟩ : SymState))] o.symbol =
      some ⟨0, []⟩ := by
    rw [lookupSym_cons]
    simp
  have hset1 : ∀ pd' : SymState,
      setSym [(o.symbol, (⟨0, []⟩ : SymState))] o.symbol pd' = [(o.symbol, pd')] := by
    intro pd'
    simp [setSym]
  have hfirst : applyOrder [] 1 o =
      ([(s, ⟨o.quantity, [⟨o.quantity, o.price, o.timestamp, o⟩]⟩)], [], 1) := by
    rw [applyOrder_init [] 1 o hlookup0]
    show applyOrder [(o.symbol, ⟨0, []⟩)] 1 o = _
    rcases hsign with hq | hq
    · have hqo : 0 < o.quantity := hq o (by simp)
      rw [applyOrder_buy_add _ 1 o _ hlook1 hqo (by dsimp only; omega)]
      rw [hset1, hos]
      simp
    · have hqo : o.quantity < 0 := hq o (by simp)
      have habs : |o.quantity| = -o.quantity := abs_of_neg hqo
      rw [applyOrder_sell_add _ 1 o _ hlook1 (by omega) (by dsimp only; omega)]
      rw [hset1, habs, hos]
      simp
  have hsign' : (∀ x ∈ os, 0 < x.quantity) ∧ 0 ≤ o.quantity ∨
      (∀ x ∈ os, x.quantity < 0) ∧ o.quantity ≤ 0 := by
    rcases hsign with hq | hq
    · exact Or.inl ⟨fun x hx => hq x (by simp [hx]),
        by have := hq o (by simp); omega⟩
    · exact Or.inr ⟨fun x hx => hq x (by simp [hx]),
        by have := hq o (by simp); omega⟩
  have hfold : (o :: os).foldl buildStep (([] : LedgerState), ([] : List Trade), 1) =
      ([(s, ⟨o.quantity + (os.map (·.quantity)).sum,
          (⟨o.quantity, o.price, o.timestamp, o⟩ : Entry) ::
            os.map (fun x => ⟨x.quantity, x.price, x.timestamp, x⟩)⟩)],
       [], 1) := by
    rw [List.foldl_cons]
    have hb : buildStep (([] : LedgerState), ([] : List Trade), 1) o =
        ([(s, ⟨o.quantity, [⟨o.quantity, o.price, o.timestamp, o⟩]⟩)], [], 1) := by
      show ((applyOrder [] 1 o).1, [] ++ (applyOrder [] 1 o).2.1,
        (applyOrder [] 1 o).2.2) = _
      rw [hfirst]
      rfl
    rw [hb, foldl_sameDir s os o.quantity _ [] 1
      (fun x hx => hsym x (by simp [hx])) hsign']
    simp
  have hq0 : o.quantity ≠ 0 := by
    rcases hsign with hq | hq
    · have := hq o (by simp)
      omega
    · have := hq o (by simp)
      omega
  have habsq : 0 < totalAbsQty ((⟨o.quantity, o.price, o.timestamp, o⟩ : Entry) ::
      os.map (fun x => ⟨x.quantity, x.price, x.timestamp, x⟩)) := by
    have h1 : 0 < |o.quantity| := by
      rcases lt_or_gt_of_ne hq0 with h | h
      · rw [abs_of_neg h]; omega
      · rw [abs_of_pos h]; omega
    have h2 : 0 ≤ totalAbsQty (os.map (fun x => ⟨x.quantity, x.price, x.timestamp, x⟩)) := by
      refine List.sum_nonneg ?_
      intro x hx
      rcases List.mem_map.mp hx with ⟨y, _, rfl⟩
      exact abs_nonneg _
    have h3 : totalAbsQty ((⟨o.quantity, o.price, o.timestamp, o⟩ : Entry) ::
        os.map (fun x => ⟨x.quantity, x.price, x.timestamp, x⟩)) =
        |o.quantity| + totalAbsQty (os.map (fun x => ⟨x.quantity, x.price, x.timestamp, x⟩)) := by
      simp [totalAbsQty]
    omega
  constructor
  · show ((o :: os).foldl buildStep ([], [], 1)).2.1 = []
    rw [hfold]
  · refine ⟨{ symbol := s, otype := "future",
              position := if 0 < o.quantity + (os.map (·.quantity)).sum
                then "long" else "short",
              quantity := |o.quantity + (os.map (·.quantity)).sum|,
              avgPrice := totalAbsValue ((⟨o.quantity, o.price, o.timestamp, o⟩ : Entry) ::
                  os.map (fun x => ⟨x.quantity, x.price, x.timestamp, x⟩)) /
                ((totalAbsQty ((⟨o.quantity, o.price, o.timestamp, o⟩ : Entry) ::
                  os.map (fun x => ⟨x.quantity, x.price, x.timestamp, x⟩)) : Int) : ℚ),
              costBasis := totalAbsValue ((⟨o.quantity, o.price, o.timestamp, o⟩ : Entry) ::
                  os.map (fun x => ⟨x.quantity, x.price, x.timestamp, x⟩)),
              size := totalAbsValue ((⟨o.quantity, o.price, o.timestamp, o⟩ : Entry) ::
                  os.map (fun x => ⟨x.quantity, x.price, x.timestamp, x⟩)) /
                CAPITAL_BASE * 100,
              firstEntry := o.timestamp }, ?_, ?_, ?_, ?_, ?_⟩
    · show openPositionsOf ((o :: os).foldl buildStep ([], [], 1)).1 = _
      rw [hfold]
      exact openPositionsOf_single s _ _ _ habsq
    · show totalAbsValue _ / ((totalAbsQty _ : Int) : ℚ) = _
      have hv := totalAbsValue_map_orders (o :: os)
      have hqv := totalAbsQty_map_orders (o :: os)
      simp only [List.map_cons] at hv hqv
      rw [hv, hqv]
      simp only [List.map_cons]
    · show totalAbsValue _ = _
      have hv := totalAbsValue_map_orders (o :: os)
      simp only [List.map_cons] at hv
      rw [hv]
      simp only [List.map_cons]
    · show o.timestamp ∈ _
      simp
    · intro x hx
      show o.timestamp ≤ x.timestamp
      rcases List.mem_cons.mp hx with rfl | hx
      · exact le_refl _
      · exact (List.pairwise_cons.mp hsort).1 x hx

/-- C7, witness: the lemma applied to a concrete two-buy sequence. -/
theorem C7_same_direction_witness :
    (buildTradesFromOrders [mkOrder 0 2 100, mkOrder 60000 6 110]).1 = [] ∧
    ∃ pos : OpenPosition,
      (buildTradesFromOrders [mkOrder 0 2 100, mkOrder 60000 6 110]).2 = [pos] ∧
      pos.avgPrice =
        ([mkOrder 0 2 100, mkOrder 60000 6 110].map
            (fun o => (|o.quantity| : ℚ) * o.price)).sum /
          ((([mkOrder 0 2 100, mkOrder 60000 6 110].map
            (fun o => |o.quantity|)).sum : Int) : ℚ) ∧
      pos.costBasis = ([mkOrder 0 2 100, mkOrder 60000 6 110].map
          (fun o => (|o.quantity| : ℚ) * o.price)).sum ∧
      pos.firstEntry ∈ [mkOrder 0 2 100, mkOrder 60000 6 110].map (·.timestamp) ∧
      (∀ o ∈ [mkOrder 0 2 100, mkOrder 60000 6 110], pos.firstEntry ≤ o.timestamp) :=
  C7_same_direction [mkOrder 0 2 100, mkOrder 60000 6 110] "ES"
    (by decide) (by decide) (Or.inl (by decide)) (by decide)

/-! ## Claim C9 (base-symbol derivation) -/

/-- C9, counterexample: for the symbol `"ES1H"` the code keeps only the
leading run of capital letters (`"ES"`), whereas stripping the trailing
non-letter characters, as the claim describes, leaves `"ES1H"` unchanged
(its last character is a letter), so the claim's description of
`getBaseSymbol` fails on this input. -/
theorem C9_base_symbol_counterexample :
    getBaseSymbol "ES1H" = "ES" ∧ specStripTrailingNonLetters "ES1H" = "ES1H" ∧
      getBaseSymbol "ES1H" ≠ specStripTrailingNonLetters "ES1H" := by
  refine ⟨by decide, by decide, by decide⟩

/-- C9, amended: for every instrument symbol, the base symbol is the
maximal leading run of capital letters `A`–`Z` of the symbol (so every
character of the base symbol is a capital letter and the first stripped
character, if any, is not); when the symbol does not begin with a capital
letter the symbol is returned unchanged. -/
theorem C9_base_symbol_amended (s : String) :
    (getBaseSymbol s = s ∧
      ∀ c ∈ s.toList.head?, isCap c = false) ∨
    (∃ rest, s.toList = (getBaseSymbol s).toList ++ rest ∧
      (getBaseSymbol s).toList ≠ [] ∧
      (∀ c ∈ (getBaseSymbol s).toList, isCap c = true) ∧
      (∀ c ∈ rest.head?, isCap c = false)) := by
  by_cases hs : s = ""
  · subst hs
    exact Or.inl ⟨rfl, by simp⟩
  · by_cases hm : s.toList.takeWhile isCap = []
    · refine Or.inl ⟨?_, ?_⟩
      · rw [getBaseSymbol, if_neg hs]
        simp only [hm, List.isEmpty_nil, if_pos]
      · intro c hc
        cases hl : s.toList with
        | nil => rw [hl] at hc; simp at hc
        | cons a l =>
          rw [hl] at hc
          simp only [List.head?_cons, Option.mem_def, Option.some.injEq] at hc
          rw [hl, List.takeWhile_cons] at hm
          rw [← hc]
          cases hfb : isCap a with
          | false => rfl
          | true => rw [if_pos hfb] at hm; simp at hm
    · have hbase : (getBaseSymbol s).toList = s.toList.takeWhile isCap := by
        have hie : (s.toList.takeWhile isCap).isEmpty = false := by
          simpa [List.isEmpty_iff] using hm
        simp only [getBaseSymbol, if_neg hs, hie]
        simp
      refine Or.inr ⟨s.toList.dropWhile isCap, ?_, ?_, ?_, ?_⟩
      · rw [hbase, List.takeWhile_append_dropWhile]
      · rw [hbase]; exact hm
      · intro c hc
        rw [hbase] at hc
        exact List.mem_takeWhile_imp hc
      · exact head?_dropWhile_not isCap s.toList

/-! ## Claim C10 (strict win/loss classification) -/

/-- C10: `calculateMetrics` counts a trade as winning only when its profit
is strictly positive and as losing only when strictly negative; a
break-even trade is counted in `totalTrades` but in neither class, so
`winningTrades + losingTrades ≤ totalTrades`, strictly whenever some trade
has profit exactly `0`. -/
theorem C10_strict_classification (trades : List Trade) :
    (calculateMetrics trades).winningTrades =
        (trades.filter (fun t => 0 < t.profit)).length ∧
    (calculateMetrics trades).losingTrades =
        (trades.filter (fun t => t.profit < 0)).length ∧
    (calculateMetrics trades).totalTrades = trades.length ∧
    (calculateMetrics trades).winningTrades + (calculateMetrics trades).losingTrades ≤
        (calculateMetrics trades).totalTrades ∧
    ((∃ t ∈ trades, t.profit = 0) →
      (calculateMetrics trades).winningTrades + (calculateMetrics trades).losingTrades <
        (calculateMetrics trades).totalTrades) := by
  have hpart := filter_sign_partition trades
  refine ⟨metrics_winning trades, metrics_losing trades, metrics_total trades, ?_, ?_⟩
  · rw [metrics_winning, metrics_losing, metrics_total]
    omega
  · rintro ⟨t, ht, hprofit⟩
    rw [metrics_winning, metrics_losing, metrics_total]
    have hmem : t ∈ trades.filter (fun t => t.profit = 0) := by
      rw [List.mem_filter]
      exact ⟨ht, by simpa using hprofit⟩
    have hpos : 0 < (trades.filter (fun t => t.profit = 0)).length :=
      List.length_pos.mpr (fun hnil => by simp [hnil] at hmem)
    omega

/-- C10, witness: on the one-element list containing a break-even trade
the classification is strict: `0 + 0 < 1`. -/
theorem C10_strict_classification_witness :
    (calculateMetrics [probeTrade 0]).winningTrades +
        (calculateMetrics [probeTrade 0]).losingTrades <
      (calculateMetrics [probeTrade 0]).totalTrades :=
  (C10_strict_classification [probeTrade 0]).2.2.2.2
    ⟨probeTrade 0, List.mem_singleton.mpr rfl, rfl⟩

/-! ## Claim C5 (profit factor) -/

/-- C5, counterexample: a single break-even trade (profit exactly `0`) has
no losing trades, so `calculateMetrics` returns profit factor `+∞` even
though there is no winning trade either — infinity is not reserved for the
"has wins, no losses" case. -/
theorem C5_profit_factor_counterexample :
    (calculateMetrics [probeTrade 0]).profitFactor = PFVal.posInf ∧
      (calculateMetrics [probeTrade 0]).winningTrades = 0 := by
  constructor
  · rw [metrics_profitFactor]
    norm_num [profitSum, probeTrade]
  · rw [metrics_winning]
    norm_num [probeTrade]

/-- C5, amended: the profit factor of `calculateMetrics` is `0` for the
empty trade list; for a non-empty list it is `+∞` exactly when the losing
profits sum to `0` (whether or not any winning trade exists), and
otherwise it is the sum of winning profits divided by the absolute sum of
losing profits — e.g. profits `[100, -50, 200, -25]` give `4`. -/
theorem C5_profit_factor_amended :
    (calculateMetrics []).profitFactor = PFVal.finite 0 ∧
    (∀ trades : List Trade,
      (calculateMetrics trades).profitFactor = PFVal.posInf ↔
        trades ≠ [] ∧ profitSum (trades.filter (fun t => t.profit < 0)) = 0) ∧
    (∀ trades : List Trade,
      profitSum (trades.filter (fun t => t.profit < 0)) ≠ 0 →
        (calculateMetrics trades).profitFactor =
          PFVal.finite (profitSum (trades.filter (fun t => 0 < t.profit)) /
            |profitSum (trades.filter (fun t => t.profit < 0))|)) ∧
    (calculateMetrics
        [probeTrade 100, probeTrade (-50), probeTrade 200, probeTrade (-25)]).profitFactor =
      PFVal.finite 4 := by
  refine ⟨by simp [calculateMetrics], ?_, ?_, ?_⟩
  · intro trades
    cases trades with
    | nil => simp [calculateMetrics]
    | cons t ts =>
      rw [metrics_profitFactor]
      by_cases h : profitSum ((t :: ts).filter (fun t => t.profit < 0)) = 0
      · simp [h]
      · rw [if_pos (by simpa using h)]
        simp [h]
  · intro trades h
    cases trades with
    | nil => simp [profitSum] at h
    | cons t ts =>
      rw [metrics_profitFactor, if_pos (by simpa using h)]
  · rw [metrics_profitFactor]
    norm_num [profitSum, probeTrade, List.filter_cons]

/-- C5, witness for the amended claim: the `+∞` characterization applied
to the concrete break-even list, and the finite-ratio branch applied to
the concrete example list. -/
theorem C5_profit_factor_amended_witness :
    (calculateMetrics [probeTrade 0]).profitFactor = PFVal.posInf :=
  (C5_profit_factor_amended.2.1 [probeTrade 0]).mpr
    ⟨by simp, by simp [profitSum, probeTrade, List.filter_cons]⟩

/-! ## String-scanning lemmas: `hasPrefixC`/`containsSeq` versus the
`List` prefix/infix order, and keyword-exclusion helpers -/

theorem hasPrefixC_iff {pat l : JStr} : hasPrefixC pat l = true ↔ pat <+: l := by
  induction pat generalizing l with
  | nil => simp [hasPrefixC]
  | cons p ps ih =>
    cases l with
    | nil => simp [hasPrefixC]
    | cons c cs =>
      simp [hasPrefixC, List.cons_prefix_cons, ih, Bool.and_eq_true, beq_iff_eq]

theorem containsSeq_iff {l pat : JStr} : containsSeq l pat = true ↔ pat <:+: l := by
  induction l with
  | nil => simp [containsSeq, List.infix_nil, List.isEmpty_iff]
  | cons c rest ih =>
    rw [List.infix_cons_iff]
    simp [containsSeq, Bool.or_eq_true, hasPrefixC_iff, ih]

theorem containsSeq_eq_false {l pat : JStr} : containsSeq l pat = false ↔ ¬ pat <:+: l := by
  rw [← containsSeq_iff]
  cases containsSeq l pat <;> simp

theorem infix_append_cases {P a b : JStr} (h : P <:+: a ++ b) :
    P <:+: a ∨ P <:+: b ∨ ∃ p q, p ≠ [] ∧ q ≠ [] ∧ P = p ++ q ∧ p <:+ a ∧ q <+: b := by
  obtain ⟨u, v, huv⟩ := h
  rw [List.append_assoc] at huv
  rcases List.append_eq_append_iff.mp huv with ⟨w, hw1, hw2⟩ | ⟨w, hw1, hw2⟩
  · rcases List.append_eq_append_iff.mp hw2 with ⟨x, hx1, hx2⟩ | ⟨x, hx1, hx2⟩
    · refine Or.inl ⟨u, x, ?_⟩
      rw [hw1, hx1, List.append_assoc]
    · by_cases hw : w = []
      · subst hw
        refine Or.inr (Or.inl ⟨[], v, ?_⟩)
        simp at hx1
        rw [hx2, hx1]
        simp
      · by_cases hx : x = []
        · subst hx
          rw [List.append_nil] at hx1
          refine Or.inl ?_
          rw [hx1, hw1]
          exact (List.suffix_append u w).isInfix
        · exact Or.inr (Or.inr ⟨w, x, hw, hx, hx1, ⟨u, hw1.symm⟩, ⟨v, hx2.symm⟩⟩)
  · refine Or.inr (Or.inl ⟨w, v, ?_⟩)
    rw [hw2, List.append_assoc]

theorem not_infix_class (cl : Char → Bool) {P l : JStr} (c : Char) (hc : c ∈ P)
    (hcn : cl c = false) (hl : ∀ x ∈ l, cl x = true) : ¬ P <:+: l := by
  intro h
  have := hl c (h.subset hc)
  rw [hcn] at this
  exact Bool.false_ne_true this

theorem not_infix_append_of {a g P : JStr} (h1 : ¬ P <:+: a) (h2 : ¬ P <:+: g)
    (h3 : straddleFree a P = true) : ¬ P <:+: a ++ g := by
  intro h
  rcases infix_append_cases h with h' | h' | ⟨p, q, hp, hq, hPpq, hpa, hqg⟩
  · exact h1 h'
  · exact h2 h'
  · have hmem : p ∈ a.tails := (List.mem_tails p a).mpr hpa
    have hall := List.all_eq_true.mp h3 p hmem
    have hpref : hasPrefixC p P = true := hasPrefixC_iff.mpr ⟨q, hPpq.symm⟩
    have hpe : p.isEmpty = false := by
      cases p
      · exact absurd rfl hp
      · rfl
    have hlen : P.length = p.length + q.length := by rw [hPpq, List.length_append]
    have hqlen : 0 < q.length := List.length_pos.mpr hq
    have hdec : decide (P.length ≤ p.length) = false := by
      rw [decide_eq_false_iff_not]
      omega
    rw [hpe, hpref, hdec] at hall
    simp at hall

theorem not_infix_append_ofR {a b P : JStr} (h1 : ¬ P <:+: a) (h2 : ¬ P <:+: b)
    (h3 : straddleFreeR b P = true) : ¬ P <:+: a ++ b := by
  intro h
  rcases infix_append_cases h with h' | h' | ⟨p, q, hp, hq, hPpq, hpa, hqb⟩
  · exact h1 h'
  · exact h2 h'
  · rw [straddleFreeR] at h3
    have hmem : q.reverse ∈ b.reverse.tails :=
      (List.mem_tails _ _).mpr (List.reverse_suffix.mpr hqb)
    have hall := List.all_eq_true.mp h3 q.reverse hmem
    have hpref : hasPrefixC q.reverse P.reverse = true :=
      hasPrefixC_iff.mpr (List.reverse_prefix.mpr ⟨p, hPpq.symm⟩)
    have hpe : q.reverse.isEmpty = false := by
      cases hqr : q.reverse with
      | nil => exact absurd (List.reverse_eq_nil_iff.mp hqr) hq
      | cons x xs => rfl
    have hlen : P.length = p.length + q.length := by rw [hPpq, List.length_append]
    have hplen : 0 < p.length := List.length_pos.mpr hp
    have hdec : decide (P.reverse.length ≤ q.reverse.length) = false := by
      rw [decide_eq_false_iff_not]
      simp only [List.length_reverse]
      omega
    rw [hpe, hpref, hdec] at hall
    simp at hall

theorem not_dashes_infix {l : JStr} (h : List.count '-' l ≤ 2) : ¬ (S "---") <:+: l := by
  intro hin
  have h3 := hin.sublist.count_le '-'
  have hc : List.count '-' (S "---") = 3 := by decide
  omega

/-! ## Character-class lemmas for the rendered tokens -/

theorem isWsC_spec {c : Char} : isWsC c = true ↔
    c = ' ' ∨ c = '\t' ∨ c = '\n' ∨ c = '\r' ∨ c = '\x0b' ∨ c = '\x0c' := by
  simp [isWsC, Bool.or_eq_true, beq_iff_eq, or_assoc]

theorem isWsC_eq_false {c : Char} (h1 : ¬ c = ' ') (h2 : ¬ c = '\t') (h3 : ¬ c = '\n')
    (h4 : ¬ c = '\r') (h5 : ¬ c = '\x0b') (h6 : ¬ c = '\x0c') : isWsC c = false := by
  simp [isWsC, beq_eq_false_iff_ne, h1, h2, h3, h4, h5, h6]

theorem isDigitC_not_ws {c : Char} (h : isDigitC c = true) : isWsC c = false := by
  apply isWsC_eq_false <;> rintro rfl <;> exact absurd h (by decide)

theorem numChar_not_ws {c : Char} (h : numChar c = true) : isWsC c = false := by
  apply isWsC_eq_false <;> rintro rfl <;> exact absurd h (by decide)

theorem symChar_not_ws {c : Char} (h : symChar c = true) : isWsC c = false := by
  apply isWsC_eq_false <;> rintro rfl <;> exact absurd h (by decide)

theorem digit_numChar {c : Char} (h : isDigitC c = true) : numChar c = true := by
  simp [numChar, h]

theorem digit_symChar {c : Char} (h : isDigitC c = true) : symChar c = true := by
  simp [symChar, h]

theorem numChar_not_cap {c : Char} (h : numChar c = true) : isCap c = false := by
  refine Bool.eq_false_iff.mpr fun hcap => ?_
  simp only [isCap, decide_eq_true_eq] at hcap
  simp only [numChar, isDigitC, Bool.or_eq_true, beq_iff_eq, decide_eq_true_eq,
    or_assoc] at h
  rcases h with h | rfl | rfl | rfl | rfl | rfl | rfl | rfl | rfl
  · exact absurd (le_trans hcap.1 h.2) (by decide)
  all_goals exact absurd hcap (by decide)

/-! ## Digit-string lemmas -/

theorem natToCharsAux_digits (fuel n : Nat) : ∀ c ∈ natToCharsAux fuel n, isDigitC c = true := by
  induction fuel generalizing n with
  | zero => simp [natToCharsAux]
  | succ fuel ih =>
    intro c hc
    rw [natToCharsAux] at hc
    by_cases h : n < 10
    · rw [if_pos h] at hc
      simp only [List.mem_singleton] at hc
      subst hc
      have hall : ∀ m, m < 10 → isDigitC (Nat.digitChar m) = true := by decide
      exact hall n h
    · rw [if_neg h] at hc
      rcases List.mem_append.mp hc with h' | h'
      · exact ih _ c h'
      · simp only [List.mem_singleton] at h'
        subst h'
        have hall : ∀ m, m < 10 → isDigitC (Nat.digitChar m) = true := by decide
        exact hall (n % 10) (Nat.mod_lt _ (by omega))

theorem natToChars_digits (n : Nat) : ∀ c ∈ natToChars n, isDigitC c = true :=
  natToCharsAux_digits _ n

theorem natToChars_ne_nil (n : Nat) : natToChars n ≠ [] := by
  rw [natToChars, natToCharsAux]
  by_cases h : n < 10
  · rw [if_pos h]
    simp
  · rw [if_neg h]
    simp

theorem count_dash_zero_of_digits {l : JStr} (h : ∀ c ∈ l, isDigitC c = true) :
    List.count '-' l = 0 :=
  List.count_eq_zero.mpr fun hm => absurd (h _ hm) (by decide)

theorem padLeftZeros_chars {l : JStr} (n : Nat) (h : ∀ c ∈ l, isDigitC c = true) :
    ∀ c ∈ padLeftZeros l n, isDigitC c = true := by
  intro c hc
  rcases List.mem_append.mp hc with h' | h'
  · rw [List.eq_of_mem_replicate h']
    decide
  · exact h c h'

theorem padLeftZeros_ne_nil {l : JStr} (n : Nat) (h : l ≠ []) : padLeftZeros l n ≠ [] := by
  intro hco
  exact h (List.append_eq_nil.mp hco).2

theorem pad2_digits (n : Nat) : ∀ c ∈ pad2 n, isDigitC c = true :=
  padLeftZeros_chars _ (natToChars_digits n)

theorem pad4_digits (i : Int) : ∀ c ∈ pad4 i, isDigitC c = true :=
  padLeftZeros_chars _ (natToChars_digits _)

theorem pad2_ne_nil (n : Nat) : pad2 n ≠ [] := padLeftZeros_ne_nil _ (natToChars_ne_nil _)

theorem pad4_ne_nil (i : Int) : pad4 i ≠ [] := padLeftZeros_ne_nil _ (natToChars_ne_nil _)

/-! ## `toFixed`/`intToChars`/ISO-timestamp token lemmas -/

theorem natFixed_chars (m d : Nat) : ∀ c ∈ natFixed m d, isDigitC c = true ∨ c = '.' := by
  intro c hc
  rw [natFixed] at hc
  by_cases h : d = 0
  · rw [if_pos h] at hc
    exact Or.inl (natToChars_digits m c hc)
  · rw [if_neg h] at hc
    simp only [List.mem_append, List.mem_cons] at hc
    rcases hc with h' | h' | h'
    · exact Or.inl (padLeftZeros_chars _ (natToChars_digits m) c (List.take_subset _ _ h'))
    · exact Or.inr h'
    · exact Or.inl (padLeftZeros_chars _ (natToChars_digits m) c (List.drop_subset _ _ h'))

theorem natFixed_ne_nil (m d : Nat) : natFixed m d ≠ [] := by
  rw [natFixed]
  by_cases h : d = 0
  · rw [if_pos h]
    exact natToChars_ne_nil m
  · rw [if_neg h]
    intro hco
    have h2 := (List.append_eq_nil.mp hco).2
    exact absurd h2 (by simp)

theorem toFixed_chars (q : ℚ) (d : Nat) : ∀ c ∈ toFixed q d, numChar c = true := by
  intro c hc
  rw [toFixed] at hc
  by_cases h : q < 0
  · rw [if_pos h] at hc
    rcases List.mem_cons.mp hc with rfl | h'
    · decide
    · rcases natFixed_chars _ _ c h' with h'' | rfl
      · exact digit_numChar h''
      · decide
  · rw [if_neg h] at hc
    rcases natFixed_chars _ _ c hc with h'' | rfl
    · exact digit_numChar h''
    · decide

theorem toFixed_ne_nil (q : ℚ) (d : Nat) : toFixed q d ≠ [] := by
  rw [toFixed]
  by_cases h : q < 0
  · rw [if_pos h]
    simp
  · rw [if_neg h]
    exact natFixed_ne_nil _ _

theorem natFixed_count_dash (m d : Nat) : List.count '-' (natFixed m d) = 0 :=
  List.count_eq_zero.mpr fun hm => by
    rcases natFixed_chars m d '-' hm with h | h
    · exact absurd h (by decide)
    · exact absurd h (by decide)

theorem toFixed_count_dash (q : ℚ) (d : Nat) : List.count '-' (toFixed q d) ≤ 1 := by
  rw [toFixed]
  by_cases h : q < 0
  · rw [if_pos h, List.count_cons_self, natFixed_count_dash]
  · rw [if_neg h, natFixed_count_dash]
    omega

theorem natToChars_count_dash (n : Nat) : List.count '-' (natToChars n) = 0 :=
  count_dash_zero_of_digits (natToChars_digits n)

theorem intToChars_chars (i : Int) : ∀ c ∈ intToChars i, numChar c = true := by
  intro c hc
  rw [intToChars] at hc
  by_cases h : i < 0
  · rw [if_pos h] at hc
    rcases List.mem_cons.mp hc with rfl | h'
    · decide
    · exact digit_numChar (natToChars_digits _ c h')
  · rw [if_neg h] at hc
    exact digit_numChar (natToChars_digits _ c hc)

theorem intToChars_ne_nil (i : Int) : intToChars i ≠ [] := by
  rw [intToChars]
  by_cases h : i < 0
  · rw [if_pos h]
    simp
  · rw [if_neg h]
    exact natToChars_ne_nil _

theorem intToChars_count_dash (i : Int) : List.count '-' (intToChars i) ≤ 1 := by
  rw [intToChars]
  by_cases h : i < 0
  · rw [if_pos h, List.count_cons_self, natToChars_count_dash]
  · rw [if_neg h, natToChars_count_dash]
    omega

theorem isoDate_chars (ms : Int) : ∀ c ∈ isoDate ms, numChar c = true := by
  intro c hc
  simp only [isoDate, List.mem_append, List.mem_cons] at hc
  rcases hc with h | rfl | h | rfl | h
  · exact digit_numChar (pad4_digits _ c h)
  · decide
  · exact digit_numChar (pad2_digits _ c h)
  · decide
  · exact digit_numChar (pad2_digits _ c h)

theorem isoDate_ne_nil (ms : Int) : isoDate ms ≠ [] := by
  simp only [isoDate]
  intro hco
  exact pad4_ne_nil _ (List.append_eq_nil.mp hco).1

theorem isoDate_count_dash (ms : Int) : List.count '-' (isoDate ms) ≤ 2 := by
  simp only [isoDate, List.count_append, List.count_cons_self]
  rw [count_dash_zero_of_digits (pad4_digits _), count_dash_zero_of_digits (pad2_digits _),
    count_dash_zero_of_digits (pad2_digits _)]

theorem isoTime_chars (ms : Int) : ∀ c ∈ isoTime ms, numChar c = true := by
  intro c hc
  simp only [isoTime, List.mem_append, List.mem_cons] at hc
  rcases hc with h | rfl | h | rfl | h
  · exact digit_numChar (pad2_digits _ c h)
  · decide
  · exact digit_numChar (pad2_digits _ c h)
  · decide
  · exact digit_numChar (pad2_digits _ c h)

theorem isoTime_ne_nil (ms : Int) : isoTime ms ≠ [] := by
  simp only [isoTime]
  intro hco
  exact pad2_ne_nil _ (List.append_eq_nil.mp hco).1

theorem isoTime_chars' (ms : Int) : ∀ c ∈ isoTime ms, isDigitC c = true ∨ c = ':' := by
  intro c hc
  simp only [isoTime, List.mem_append, List.mem_cons] at hc
  rcases hc with h | rfl | h | rfl | h
  · exact Or.inl (pad2_digits _ c h)
  · exact Or.inr rfl
  · exact Or.inl (pad2_digits _ c h)
  · exact Or.inr rfl
  · exact Or.inl (pad2_digits _ c h)

theorem isoTime_count_dash (ms : Int) : List.count '-' (isoTime ms) = 0 :=
  List.count_eq_zero.mpr fun hm => by
    rcases isoTime_chars' ms '-' hm with h | h
    · exact absurd h (by decide)
    · exact absurd h (by decide)

/-! ## Tokenization lemmas: `splitWsTrim` on a row of spaced tokens -/

theorem wordsAux_push {t : JStr} (ht : ∀ c ∈ t, isWsC c = false) (rest acc : JStr) :
    wordsAux (t ++ rest) acc = wordsAux rest (t.reverse ++ acc) := by
  induction t generalizing acc with
  | nil => simp
  | cons c t' ih =>
    have hc : isWsC c = false := ht c (List.mem_cons_self c t')
    rw [List.cons_append, wordsAux, hc]
    simp only [Bool.false_eq_true, if_false]
    rw [ih (fun x hx => ht x (List.mem_cons_of_mem _ hx))]
    simp [List.append_assoc]

theorem wordsAux_skip (k : Nat) (rest : JStr) :
    wordsAux (List.replicate k ' ' ++ rest) [] = wordsAux rest [] := by
  induction k with
  | zero => simp
  | succ k ih =>
    rw [List.replicate_succ, List.cons_append, wordsAux]
    simp [isWsC, ih]

theorem wordsAux_emit (k : Nat) (rest acc : JStr) (hacc : acc ≠ []) :
    wordsAux (List.replicate (k + 1) ' ' ++ rest) acc = acc.reverse :: wordsAux rest [] := by
  rw [List.replicate_succ, List.cons_append, wordsAux]
  have hae : acc.isEmpty = false := by
    cases acc
    · exact absurd rfl hacc
    · rfl
  simp [isWsC, hae, wordsAux_skip]

theorem splitWsTrim_spaced (pairs : List (JStr × Nat))
    (h : ∀ pr ∈ pairs, pr.1 ≠ [] ∧ ∀ c ∈ pr.1, isWsC c = false) :
    splitWsTrim (spacedTokens pairs) = pairs.map (·.1) := by
  induction pairs with
  | nil => rfl
  | cons pr rest ih =>
    obtain ⟨t, k⟩ := pr
    have ht := h (t, k) (List.mem_cons_self _ _)
    cases rest with
    | nil =>
      rw [splitWsTrim, show spacedTokens [(t, k)] = t from rfl]
      have h1 : wordsAux (t ++ []) [] = wordsAux [] (t.reverse ++ []) := wordsAux_push ht.2 [] []
      rw [List.append_nil, List.append_nil] at h1
      rw [h1, wordsAux]
      have hre : t.reverse.isEmpty = false := by
        cases hrt : t.reverse with
        | nil => exact absurd (List.reverse_eq_nil_iff.mp hrt) ht.1
        | cons x xs => rfl
      rw [hre]
      simp

    | cons pr2 rest2 =>
      rw [splitWsTrim,
        show spacedTokens ((t, k) :: pr2 :: rest2) =
          t ++ (List.replicate (k + 1) ' ' ++ spacedTokens (pr2 :: rest2)) from rfl]
      rw [wordsAux_push ht.2, List.append_nil]
      rw [wordsAux_emit _ _ _ (by simp [ht.1])]
      rw [List.reverse_reverse]
      rw [show wordsAux (spacedTokens (pr2 :: rest2)) [] =
        splitWsTrim (spacedTokens (pr2 :: rest2)) from rfl]
      rw [ih (fun pr hpr => h pr (List.mem_cons_of_mem _ hpr))]
      simp

/-! ## Keyword exclusion on a row of spaced tokens -/

theorem prefix_append_cases {l a b : JStr} (h : l <+: a ++ b) :
    l <+: a ∨ ∃ e, l = a ++ e ∧ e <+: b := by
  obtain ⟨t, ht⟩ := h
  rcases List.append_eq_append_iff.mp ht with ⟨w, hw1, hw2⟩ | ⟨w, hw1, hw2⟩
  · exact Or.inl ⟨w, hw1.symm⟩
  · exact Or.inr ⟨w, hw1, ⟨t, hw2.symm⟩⟩

theorem spacefree_infix_spaced {P : JStr} (hne : P ≠ []) (hsp : ∀ c ∈ P, ¬(c = ' '))
    (pairs : List (JStr × Nat)) : P <:+: spacedTokens pairs → ∃ pr ∈ pairs, P <:+: pr.1 := by
  induction pairs with
  | nil =>
    intro h
    rw [show spacedTokens [] = [] from rfl, List.infix_nil] at h
    exact absurd h hne
  | cons pr rest ih =>
    intro h
    obtain ⟨t, k⟩ := pr
    cases rest with
    | nil => exact ⟨(t, k), List.mem_cons_self _ _, h⟩
    | cons pr2 rest2 =>
      rw [show spacedTokens ((t, k) :: pr2 :: rest2) =
        t ++ (List.replicate (k + 1) ' ' ++ spacedTokens (pr2 :: rest2)) from rfl] at h
      rcases infix_append_cases h with h' | h' | ⟨p, q, hp, hq, hPpq, hpa, hqg⟩
      · exact ⟨(t, k), List.mem_cons_self _ _, h'⟩
      · rcases infix_append_cases h' with h'' | h'' | ⟨p, q, hp, hq, hPpq, hpa, hqg⟩
        · exfalso
          cases hPc : P with
          | nil => exact hne hPc
          | cons c P' =>
            have hcP : c ∈ P := by
              rw [hPc]
              exact List.mem_cons_self _ _
            exact hsp c hcP (List.eq_of_mem_replicate (h''.subset hcP))
        · rcases ih h'' with ⟨pr', hmem, hinf⟩
          exact ⟨pr', List.mem_cons_of_mem _ hmem, hinf⟩
        · exfalso
          cases hpc : p with
          | nil => exact hp hpc
          | cons c p' =>
            have hcp : c ∈ p := by
              rw [hpc]
              exact List.mem_cons_self _ _
            have hcrep : c ∈ List.replicate (k + 1) ' ' := hpa.sublist.subset hcp
            have hcP : c ∈ P := by
              rw [hPpq]
              exact List.mem_append_left _ hcp
            exact hsp c hcP (List.eq_of_mem_replicate hcrep)
      · exfalso
        cases hqc : q with
        | nil => exact hq hqc
        | cons c q' =>
          subst hqc
          have hq2 := hqg
          rw [show List.replicate (k + 1) ' ' ++ spacedTokens (pr2 :: rest2) =
            ' ' :: (List.replicate k ' ' ++ spacedTokens (pr2 :: rest2)) from by
              rw [List.replicate_succ]
              rfl] at hq2
          have hceq : c = ' ' := (List.cons_prefix_cons.mp hq2).1
          have hcP : c ∈ P := by
            rw [hPpq]
            exact List.mem_append_right _ (List.mem_cons_self _ _)
          exact hsp c hcP hceq

theorem word_prefix_spaced {w : JStr} (hne : w ≠ []) (hsp : ∀ c ∈ w, ¬(c = ' '))
    (pairs : List (JStr × Nat)) : w <+: spacedTokens pairs → ∃ pr ∈ pairs, w <+: pr.1 := by
  induction pairs with
  | nil =>
    intro h
    rw [show spacedTokens [] = [] from rfl] at h
    exact absurd (List.prefix_nil.mp h) hne
  | cons pr rest ih =>
    intro h
    obtain ⟨t, k⟩ := pr
    cases rest with
    | nil => exact ⟨(t, k), List.mem_cons_self _ _, h⟩
    | cons pr2 rest2 =>
      rw [show spacedTokens ((t, k) :: pr2 :: rest2) =
        t ++ (List.replicate (k + 1) ' ' ++ spacedTokens (pr2 :: rest2)) from rfl] at h
      rcases prefix_append_cases h with h' | ⟨e, he1, he2⟩
      · exact ⟨(t, k), List.mem_cons_self _ _, h'⟩
      · cases hec : e with
        | nil =>
          subst hec
          rw [List.append_nil] at he1
          exact ⟨(t, k), List.mem_cons_self _ _, he1 ▸ List.prefix_refl t⟩
        | cons c e' =>
          exfalso
          subst hec
          have he3 := he2
          rw [show List.replicate (k + 1) ' ' ++ spacedTokens (pr2 :: rest2) =
            ' ' :: (List.replicate k ' ' ++ spacedTokens (pr2 :: rest2)) from by
              rw [List.replicate_succ]
              rfl] at he3
          have hceq : c = ' ' := (List.cons_prefix_cons.mp he3).1
          have hcw : c ∈ w := by
            rw [he1]
            exact List.mem_append_right _ (List.mem_cons_self _ _)
          exact hsp c hcw hceq

theorem word_after_space {w : JStr} (hne : w ≠ []) (hsp : ∀ c ∈ w, ¬(c = ' '))
    (pairs : List (JStr × Nat)) (htok : ∀ pr ∈ pairs, ∀ c ∈ pr.1, ¬(c = ' ')) :
    (' ' :: w) <:+: spacedTokens pairs → ∃ pr ∈ pairs, w <+: pr.1 := by
  induction pairs with
  | nil =>
    intro h
    rw [show spacedTokens [] = [] from rfl, List.infix_nil] at h
    exact absurd h (by simp)
  | cons pr rest ih =>
    intro h
    obtain ⟨t, k⟩ := pr
    cases rest with
    | nil =>
      exfalso
      have hsub : (' ' : Char) ∈ t := h.subset (List.mem_cons_self _ _)
      exact htok (t, k) (List.mem_cons_self _ _) ' ' hsub rfl
    | cons pr2 rest2 =>
      rw [show spacedTokens ((t, k) :: pr2 :: rest2) =
        t ++ (List.replicate (k + 1) ' ' ++ spacedTokens (pr2 :: rest2)) from rfl] at h
      rcases infix_append_cases h with h' | h' | ⟨p, q, hp, hq, hPpq, hpa, hqg⟩
      · exfalso
        have hsub : (' ' : Char) ∈ t := h'.subset (List.mem_cons_self _ _)
        exact htok (t, k) (List.mem_cons_self _ _) ' ' hsub rfl
      · rcases infix_append_cases h' with h'' | h'' | ⟨p, q, hp, hq, hPpq, hpa, hqg⟩
        · exfalso
          cases hwc : w with
          | nil => exact hne hwc
          | cons c w' =>
            have hcw : c ∈ (' ' :: w) := by
              rw [hwc]
              exact List.mem_cons_of_mem _ (List.mem_cons_self _ _)
            have hcmem : c ∈ w := by
              rw [hwc]
              exact List.mem_cons_self _ _
            exact hsp c hcmem (List.eq_of_mem_replicate (h''.subset hcw))
        · rcases ih (fun pr hpr => htok pr (List.mem_cons_of_mem _ hpr)) h'' with ⟨pr', hmem, hpre⟩
          exact ⟨pr', List.mem_cons_of_mem _ hmem, hpre⟩
        · -- the straddle whose left part sits inside the spaces
          cases hpc : p with
          | nil => exact absurd hpc hp
          | cons c p' =>
            subst hpc
            have hceq : c = ' ' := List.eq_of_mem_replicate
              (hpa.sublist.subset (List.mem_cons_self _ _))
            have hwpq : w = p' ++ q := by
              have := hPpq
              rw [List.cons_append] at this
              exact (List.cons.injEq _ _ _ _ ▸ this) |>.2
            cases hp'c : p' with
            | nil =>
              subst hp'c
              rw [List.nil_append] at hwpq
              subst hwpq
              rcases word_prefix_spaced hne hsp (pr2 :: rest2) hqg with ⟨pr', hmem, hpre⟩
              exact ⟨pr', List.mem_cons_of_mem _ hmem, hpre⟩
            | cons c' p'' =>
              exfalso
              have hc'rep : c' ∈ List.replicate (k + 1) ' ' := by
                refine hpa.sublist.subset ?_
                rw [hp'c]
                exact List.mem_cons_of_mem _ (List.mem_cons_self _ _)
              have hc'w : c' ∈ w := by
                rw [hwpq, hp'c]
                exact List.mem_append_left _ (List.mem_cons_self _ _)
              exact hsp c' hc'w (List.eq_of_mem_replicate hc'rep)
      · -- the straddle whose left part ends inside the first token
        exfalso
        cases hpc : p with
        | nil => exact hp hpc
        | cons c p' =>
          subst hpc
          have hceq : (' ' : Char) = c := by
            have := hPpq
            rw [List.cons_append] at this
            exact (List.cons.injEq _ _ _ _ ▸ this).1
          have hcin : c ∈ t := hpa.sublist.subset (List.mem_cons_self _ _)
          exact htok (t, k) (List.mem_cons_self _ _) c hcin hceq.symm

/-! ## `trimC` lemmas -/

theorem dropWhile_ws_replicate (j : Nat) (l : JStr) :
    (List.replicate j ' ' ++ l).dropWhile isWsC = l.dropWhile isWsC := by
  induction j with
  | zero => simp
  | succ j ih =>
    rw [List.replicate_succ, List.cons_append, List.dropWhile_cons]
    simp [show isWsC ' ' = true from by decide, ih]

theorem dropWhile_ws_eq_self {l : JStr} (h : ∀ c ∈ l.head?, isWsC c = false) :
    l.dropWhile isWsC = l := by
  cases l with
  | nil => rfl
  | cons c rest =>
    have hc : isWsC c = false := h c rfl
    rw [List.dropWhile_cons, hc]
    simp

theorem trimC_pad (j : Nat) {core : JStr}
    (hh : ∀ c ∈ core.head?, isWsC c = false)
    (hl : ∀ c ∈ core.getLast?, isWsC c = false) :
    trimC (List.replicate j ' ' ++ core) = core := by
  rw [trimC, dropWhile_ws_replicate, dropWhile_ws_eq_self hh,
    dropWhile_ws_eq_self (by rw [List.head?_reverse]; exact hl), List.reverse_reverse]

/-! ## `jsSplitSeq` lemmas -/

theorem hasPrefixC_append_self (l r : JStr) : hasPrefixC l (l ++ r) = true := by
  induction l with
  | nil => rfl
  | cons c rest ih => simp [hasPrefixC, ih]

theorem jsSplitSeqAux_no_occ {p : Char} {ps l : JStr} (acc : JStr)
    (h : containsSeq l (p :: ps) = false) :
    jsSplitSeqAux p ps l acc = [acc.reverse ++ l] := by
  induction l generalizing acc with
  | nil =>
    rw [jsSplitSeqAux]
    simp
  | cons c rest ih =>
    rw [containsSeq] at h
    rcases Bool.or_eq_false_iff.mp h with ⟨h1, h2⟩
    rw [jsSplitSeqAux, h1]
    simp only [Bool.false_eq_true, if_false]
    rw [ih _ h2]
    simp [List.append_assoc]

theorem jsSplitSeq_no_occ {l sep : JStr} (hsep : sep ≠ []) (h : containsSeq l sep = false) :
    jsSplitSeq l sep = [l] := by
  cases sep with
  | nil => exact absurd rfl hsep
  | cons p ps =>
    rw [jsSplitSeq, jsSplitSeqAux_no_occ _ h]
    rfl

theorem jsSplitSeq_sep_prefix (sep rest : JStr) (hsep : sep ≠ []) :
    jsSplitSeq (sep ++ rest) sep = [] :: jsSplitSeq rest sep := by
  cases sep with
  | nil => exact absurd rfl hsep
  | cons p ps =>
    show jsSplitSeqAux p ps ((p :: ps) ++ rest) [] = [] :: jsSplitSeqAux p ps rest []
    rw [List.cons_append, jsSplitSeqAux]
    have hpre : hasPrefixC (p :: ps) (p :: (ps ++ rest)) = true := by
      have := hasPrefixC_append_self (p :: ps) rest
      rwa [List.cons_append] at this
    rw [hpre]
    simp only [if_true, List.reverse_nil]
    rw [List.drop_left]

theorem jsSplitSeqAux_single_first (c0 : Char) {l : JStr} (X acc : JStr)
    (h : ∀ c ∈ l, ¬(c = c0)) :
    jsSplitSeqAux c0 [] (l ++ c0 :: X) acc = (acc.reverse ++ l) :: jsSplitSeqAux c0 [] X [] := by
  induction l generalizing acc with
  | nil =>
    rw [List.nil_append, jsSplitSeqAux]
    simp [hasPrefixC]
  | cons c l' ih =>
    have hc : ¬ (c = c0) := h c (List.mem_cons_self _ _)
    rw [List.cons_append, jsSplitSeqAux]
    have hpre : hasPrefixC (c0 :: []) (c :: (l' ++ c0 :: X)) = false := by
      simp [hasPrefixC]
      exact fun heq => hc heq.symm
    rw [hpre]
    simp only [Bool.false_eq_true, if_false]
    rw [ih _ (fun x hx => h x (List.mem_cons_of_mem _ hx))]
    simp [List.append_assoc]

theorem jsSplitSeq_joinNl (ls : List JStr) (hne : ls ≠ [])
    (h : ∀ l ∈ ls, ∀ c ∈ l, ¬(c = '\n')) :
    jsSplitSeq (joinNl ls) (S "\n") = ls := by
  induction ls with
  | nil => exact absurd rfl hne
  | cons l rest ih =>
    cases rest with
    | nil =>
      have hocc : containsSeq l (S "\n") = false :=
        containsSeq_eq_false.mpr fun hin =>
          h l (List.mem_cons_self _ _) '\n' (hin.subset (List.mem_cons_self _ _)) rfl
      rw [show joinNl [l] = l from rfl, jsSplitSeq_no_occ (by simp [S]) hocc]
    | cons l2 rest2 =>
      rw [show joinNl (l :: l2 :: rest2) = l ++ '\n' :: joinNl (l2 :: rest2) from rfl]
      rw [show jsSplitSeq (l ++ '\n' :: joinNl (l2 :: rest2)) (S "\n") =
        jsSplitSeqAux '\n' [] (l ++ '\n' :: joinNl (l2 :: rest2)) [] from rfl]
      rw [jsSplitSeqAux_single_first '\n' _ []
        (fun c hc => h l (List.mem_cons_self _ _) c hc)]
      simp only [List.reverse_nil, List.nil_append]
      rw [show jsSplitSeqAux '\n' [] (joinNl (l2 :: rest2)) [] =
        jsSplitSeq (joinNl (l2 :: rest2)) (S "\n") from rfl]
      rw [ih (by simp) (fun l' hl' => h l' (List.mem_cons_of_mem _ hl'))]

/-! ## Infix facts about `joinNl` -/

theorem infix_joinNl_of_mem {P l : JStr} {ls : List JStr} (hmem : l ∈ ls) (h : P <:+: l) :
    P <:+: joinNl ls := by
  induction ls with
  | nil => exact absurd hmem (List.not_mem_nil l)
  | cons l0 rest ih =>
    cases rest with
    | nil =>
      rw [List.mem_singleton] at hmem
      subst hmem
      exact h
    | cons l2 rest2 =>
      rw [show joinNl (l0 :: l2 :: rest2) = l0 ++ '\n' :: joinNl (l2 :: rest2) from rfl]
      rcases List.mem_cons.mp hmem with rfl | hmem'
      · exact h.trans (List.prefix_append _ _).isInfix
      · exact (ih hmem').trans ⟨l0 ++ ['\n'], [], by simp⟩

theorem infix_joinNl_cases {P : JStr} (hne : P ≠ []) (hnl : ∀ c ∈ P, ¬(c = '\n'))
    (ls : List JStr) : P <:+: joinNl ls → ∃ l ∈ ls, P <:+: l := by
  induction ls with
  | nil =>
    intro h
    rw [show joinNl [] = [] from rfl, List.infix_nil] at h
    exact absurd h hne
  | cons l0 rest ih =>
    intro h
    cases rest with
    | nil => exact ⟨l0, List.mem_cons_self _ _, h⟩
    | cons l2 rest2 =>
      rw [show joinNl (l0 :: l2 :: rest2) = l0 ++ '\n' :: joinNl (l2 :: rest2) from rfl] at h
      rcases infix_append_cases h with h' | h' | ⟨p, q, hp, hq, hPpq, hpa, hqg⟩
      · exact ⟨l0, List.mem_cons_self _ _, h'⟩
      · rcases List.infix_cons_iff.mp h' with h'' | h''
        · exfalso
          cases hPc : P with
          | nil => exact hne hPc
          | cons c P' =>
            subst hPc
            exact hnl c (List.mem_cons_self _ _) (List.cons_prefix_cons.mp h'').1
        · rcases ih h'' with ⟨l', hmem, hinf⟩
          exact ⟨l', List.mem_cons_of_mem _ hmem, hinf⟩
      · exfalso
        cases hqc : q with
        | nil => exact hq hqc
        | cons c q' =>
          subst hqc
          have hceq : c = '\n' := (List.cons_prefix_cons.mp hqg).1
          have hcP : c ∈ P := by
            rw [hPpq]
            exact List.mem_append_right _ (List.mem_cons_self _ _)
          exact hnl c hcP hceq

/-! ## `jsParseInt` recovers a rendered count -/

theorem digitsVal_aux (fuel : Nat) : ∀ n, n < fuel → ∀ acc : Int,
    List.foldl (fun a c => a * 10 + ((c.toNat : Int) - 48)) acc (natToCharsAux fuel n) =
      acc * (10 : Int) ^ (natToCharsAux fuel n).length + n := by
  induction fuel with
  | zero => exact fun n hn => absurd hn (Nat.not_lt_zero n)
  | succ fuel ih =>
    intro n hn acc
    rw [natToCharsAux]
    by_cases h : n < 10
    · rw [if_pos h]
      simp only [List.foldl_cons, List.foldl_nil, List.length_cons, List.length_nil]
      have hd : ((Nat.digitChar n).toNat : Int) - 48 = n := by
        have hall : ∀ m, m < 10 → ((Nat.digitChar m).toNat : Int) - 48 = m := by decide
        exact hall n h
      rw [hd, pow_one]
    · rw [if_neg h]
      rw [List.foldl_append]
      have hlt : n / 10 < fuel := by
        have h1 : n / 10 < n := Nat.div_lt_self (by omega) (by omega)
        omega
      rw [ih _ hlt]
      simp only [List.foldl_cons, List.foldl_nil, List.length_append, List.length_cons,
        List.length_nil]
      have hd : ((Nat.digitChar (n % 10)).toNat : Int) - 48 = ((n % 10 : Nat) : Int) := by
        have hall : ∀ m, m < 10 → ((Nat.digitChar m).toNat : Int) - 48 = m := by decide
        exact hall _ (Nat.mod_lt _ (by omega))
      rw [hd]
      have hnsplit : (n : Int) = 10 * ((n / 10 : Nat) : Int) + ((n % 10 : Nat) : Int) := by
        have := Nat.div_add_mod n 10
        push_cast
        omega
      rw [hnsplit, pow_succ]
      ring

theorem digitsVal_natToChars (n : Nat) : digitsVal (natToChars n) = n := by
  rw [digitsVal, natToChars, digitsVal_aux (n + 1) n (by omega) 0]
  simp

theorem jsParseInt_natToChars (n : Nat) : jsParseInt (natToChars n) = n := by
  rw [jsParseInt]
  have hdrop : (natToChars n).dropWhile isWsC = natToChars n :=
    dropWhile_ws_eq_self fun c hc =>
      isDigitC_not_ws (natToChars_digits n c (List.mem_of_mem_head? hc))
  rw [hdrop]
  cases hnc : natToChars n with
  | nil => exact absurd hnc (natToChars_ne_nil n)
  | cons c rest =>
    have hcd : isDigitC c = true := natToChars_digits n c (by rw [hnc]; exact List.mem_cons_self _ _)
    have hc1 : ¬ (c = '-') := fun he => absurd (he ▸ hcd) (by decide)
    have hc2 : ¬ (c = '+') := fun he => absurd (he ▸ hcd) (by decide)
    show (if c = '-' then -digitsVal (rest.takeWhile isDigitC)
      else if c = '+' then digitsVal (rest.takeWhile isDigitC)
      else digitsVal ((c :: rest).takeWhile isDigitC)) = (n : Int)
    rw [if_neg hc1, if_neg hc2]
    have hall : ∀ x ∈ (c :: rest), isDigitC x = true := by
      rw [← hnc]
      exact natToChars_digits n
    rw [List.takeWhile_eq_self_iff.mpr hall, ← hnc, digitsVal_natToChars]

/-! ## `findIndex` and line access on a concatenated line list -/

theorem jsFindIndex_concat {pre : List JStr} {target : JStr} (rest : List JStr) {pat : JStr}
    (hpre : ∀ l ∈ pre, containsSeq l pat = false) (ht : containsSeq target pat = true) :
    jsFindIndex (pre ++ target :: rest) pat = (pre.length : Int) := by
  rw [jsFindIndex, List.findIdx?_append,
    List.findIdx?_eq_none_iff.mpr hpre, List.findIdx?_cons, ht]
  simp

theorem getLine_ofNat (lines : List JStr) (n : Nat) : getLine lines (n : Int) = lines[n]? := by
  simp [getLine]

theorem labeledValue_eq {lines : List JStr} {i : Int} {label v fb : JStr}
    (hline : getLine lines i = some (label ++ v))
    (hlab : label ≠ [])
    (hnosep : containsSeq v label = false)
    (hne : trimC v ≠ []) :
    labeledValue lines i label fb = trimC v := by
  rw [labeledValue, hline]
  show (match (jsSplitSeq (label ++ v) label)[1]? with
    | none => fb
    | some v' => if List.isEmpty (trimC v') = true then fb else trimC v') = trimC v
  rw [ jsSplitSeq_sep_prefix _ _ hlab, jsSplitSeq_no_occ hlab hnosep]
  have hie : (trimC v).isEmpty = false := by
    cases htv : trimC v with
    | nil => exact absurd htv hne
    | cons a b => rfl
  simp [hie]

/-! ## Rows as spaced token lists -/

theorem rep_space_cons (j : Nat) (X : JStr) :
    List.replicate j ' ' ++ ' ' :: X = List.replicate (j + 1) ' ' ++ X := by
  rw [List.replicate_succ', List.append_assoc]
  rfl

theorem joinSp_pad_cons (x : JStr) (w : Nat) (y : JStr) (rest : List JStr) :
    joinSp (jsPadEnd x w :: y :: rest) =
      x ++ (List.replicate (w - x.length + 1) ' ' ++ joinSp (y :: rest)) := by
  rw [show joinSp (jsPadEnd x w :: y :: rest) = jsPadEnd x w ++ ' ' :: joinSp (y :: rest) from rfl,
    jsPadEnd, List.append_assoc, rep_space_cons]

theorem joinSp_pad_single (x : JStr) : joinSp [jsPadEnd x 0] = x := by
  rw [show joinSp [jsPadEnd x 0] = jsPadEnd x 0 from rfl, jsPadEnd]
  simp

theorem tradeRow_eq_spaced (t : Trade) : tradeRow t = spacedTokens (tradeTokens t) := by
  rw [tradeRow]
  simp only [tradeCells, List.map_cons, List.map_nil]
  rw [joinSp_pad_cons, joinSp_pad_cons, joinSp_pad_cons, joinSp_pad_cons, joinSp_pad_cons,
    joinSp_pad_cons, joinSp_pad_cons, joinSp_pad_cons, joinSp_pad_cons, joinSp_pad_cons,
    joinSp_pad_cons, joinSp_pad_single]
  rw [show spacedTokens (tradeTokens t) =
    natToChars t.tradeId ++ (List.replicate (4 - (natToChars t.tradeId).length + 1) ' ' ++
    (S t.symbol ++ (List.replicate (12 - (S t.symbol).length + 1) ' ' ++
    (S t.otype ++ (List.replicate (8 - (S t.otype).length + 1) ' ' ++
    (S t.position ++ (List.replicate (6 - (S t.position).length + 1) ' ' ++
    (isoDate t.entryTime ++ (List.replicate 1 ' ' ++
    (isoTime t.entryTime ++ (List.replicate (19 - (isoDateTime t.entryTime).length + 1) ' ' ++
    (isoDate t.exitTime ++ (List.replicate 1 ' ' ++
    (isoTime t.exitTime ++ (List.replicate (19 - (isoDateTime t.exitTime).length + 1) ' ' ++
    (intToChars t.quantity ++ (List.replicate (6 - (intToChars t.quantity).length + 1) ' ' ++
    (('$' :: toFixed t.entryPrice 2) ++
      (List.replicate (10 - ('$' :: toFixed t.entryPrice 2).length + 1) ' ' ++
    (('$' :: toFixed t.exitPrice 2) ++
      (List.replicate (10 - ('$' :: toFixed t.exitPrice 2).length + 1) ' ' ++
    (('$' :: toFixed t.profit 2) ++
      (List.replicate (12 - ('$' :: toFixed t.profit 2).length + 1) ' ' ++
    ((toFixed t.percentGain 1 ++ ['%']) ++
      (List.replicate (10 - (toFixed t.percentGain 1 ++ ['%']).length + 1) ' ' ++
    (toFixed t.size 1 ++ ['%'])))))))))))))))))))))))))) from rfl]
  simp only [isoDateTime]
  simp [List.append_assoc]

theorem openRow_eq_spaced (p : OpenPosition) :
    openPositionRow p = spacedTokens (openTokens p) := by
  rw [openPositionRow, openTokens, gapsOf]
  simp only [openCells, List.map_cons, List.map_nil]
  rw [joinSp_pad_cons, joinSp_pad_cons, joinSp_pad_cons, joinSp_pad_cons, joinSp_pad_cons,
    joinSp_pad_cons, joinSp_pad_single]
  rfl

theorem productRow_eq_spaced (sym : String) (ts : List Trade) :
    productRow sym ts = spacedTokens (productTokens sym ts) := by
  rw [productRow, productTokens, gapsOf]
  simp only [productCells, List.map_cons, List.map_nil]
  rw [joinSp_pad_cons, joinSp_pad_cons, joinSp_pad_cons, joinSp_pad_cons, joinSp_pad_cons,
    joinSp_pad_single]
  rfl

theorem longTypeRow_eq_spaced (trades : List Trade) (m : Metrics) :
    longTypeRow trades m = spacedTokens (longTypeTokens trades m) := by
  rw [longTypeRow, longTypeTokens, gapsOf]
  simp only [longTypeCells, List.map_cons, List.map_nil]
  rw [joinSp_pad_cons, joinSp_pad_cons, joinSp_pad_cons, joinSp_pad_cons, joinSp_pad_single]
  rfl

theorem shortTypeRow_eq_spaced (trades : List Trade) (m : Metrics) :
    shortTypeRow trades m = spacedTokens (shortTypeTokens trades m) := by
  rw [shortTypeRow, shortTypeTokens, gapsOf]
  simp only [shortTypeCells, List.map_cons, List.map_nil]
  rw [joinSp_pad_cons, joinSp_pad_cons, joinSp_pad_cons, joinSp_pad_cons, joinSp_pad_single]
  rfl

/-! ## Row token classification -/

theorem mem_spacedTokens {c : Char} {pairs : List (JStr × Nat)}
    (h : c ∈ spacedTokens pairs) : c = ' ' ∨ ∃ pr ∈ pairs, c ∈ pr.1 := by
  induction pairs with
  | nil => exact absurd h (List.not_mem_nil c)
  | cons pr rest ih =>
    obtain ⟨t, k⟩ := pr
    cases rest with
    | nil => exact Or.inr ⟨(t, k), List.mem_cons_self _ _, h⟩
    | cons pr2 rest2 =>
      rw [show spacedTokens ((t, k) :: pr2 :: rest2) =
        t ++ (List.replicate (k + 1) ' ' ++ spacedTokens (pr2 :: rest2)) from rfl] at h
      rcases List.mem_append.mp h with h' | h'
      · exact Or.inr ⟨(t, k), List.mem_cons_self _ _, h'⟩
      · rcases List.mem_append.mp h' with h'' | h''
        · exact Or.inl (List.eq_of_mem_replicate h'')
        · rcases ih h'' with h3 | ⟨pr', hmem, hcp⟩
          · exact Or.inl h3
          · exact Or.inr ⟨pr', List.mem_cons_of_mem _ hmem, hcp⟩

theorem spacedTokens_ne_nil {pairs : List (JStr × Nat)} {pr0 : JStr × Nat} {rest}
    (hpairs : pairs = pr0 :: rest) (h : pr0.1 ≠ []) : spacedTokens pairs ≠ [] := by
  subst hpairs
  obtain ⟨t, k⟩ := pr0
  cases rest with
  | nil => exact h
  | cons pr2 rest2 =>
    rw [show spacedTokens ((t, k) :: pr2 :: rest2) =
      t ++ (List.replicate (k + 1) ' ' ++ spacedTokens (pr2 :: rest2)) from rfl]
    intro hco
    exact h (List.append_eq_nil.mp hco).1

theorem goodSym_parts {s : String} (h : GoodSym s = true) :
    s.toList ≠ [] ∧ (∀ c ∈ s.toList, symChar c = true) ∧
      containsSeq s.toList (S "PERFORMANCE") = false ∧
      containsSeq s.toList (S "POSITIONS") = false ∧
      containsSeq s.toList (S "TRADES") = false := by
  simp only [GoodSym, Bool.and_eq_true, Bool.not_eq_true', List.isEmpty_iff,
    List.all_eq_true] at h
  refine ⟨?_, h.1.1.1.2, h.1.1.2, h.1.2, h.2⟩
  intro hnil
  have h0 := h.1.1.1.1
  rw [hnil] at h0
  exact absurd h0 (by decide)

theorem rowTok_ne_ws {sym : String} {tok : JStr} (h : RowTok sym tok) :
    tok ≠ [] ∧ ∀ c ∈ tok, isWsC c = false := by
  rcases h with ⟨hne, hnum, _⟩ | ⟨heq, hg⟩ | heq | heq | heq | heq | heq
  · exact ⟨hne, fun c hc => numChar_not_ws (hnum c hc)⟩
  · subst heq
    obtain ⟨h1, h2, -, -, -⟩ := goodSym_parts hg
    exact ⟨h1, fun c hc => symChar_not_ws (h2 c hc)⟩
  all_goals subst heq
  all_goals exact ⟨by decide, by decide⟩

theorem rowTok_no_space {sym : String} {tok : JStr} (h : RowTok sym tok) :
    ∀ c ∈ tok, ¬(c = ' ') := fun c hc he => by
  have := (rowTok_ne_ws h).2 c hc
  rw [he] at this
  exact absurd this (by decide)

theorem not_infix_of_decide {a P : JStr} (h : containsSeq a P = false) : ¬ P <:+: a :=
  containsSeq_eq_false.mp h

theorem rowTok_no_dashes {sym : String} {tok : JStr} (h : RowTok sym tok) :
    ¬ (S "---") <:+: tok := by
  rcases h with ⟨hne, hnum, hcount⟩ | ⟨heq, hg⟩ | heq | heq | heq | heq | heq
  · exact not_dashes_infix hcount
  · subst heq
    obtain ⟨-, h2, -, -, -⟩ := goodSym_parts hg
    exact not_infix_class symChar '-' (by decide) (by decide) h2
  all_goals subst heq
  all_goals exact not_infix_of_decide (by decide)

theorem rowTok_no_PERF {sym : String} {tok : JStr} (h : RowTok sym tok) :
    ¬ (S "PERFORMANCE") <:+: tok := by
  rcases h with ⟨hne, hnum, hcount⟩ | ⟨heq, hg⟩ | heq | heq | heq | heq | heq
  · exact not_infix_class numChar 'P' (by decide) (by decide) hnum
  · subst heq
    obtain ⟨-, -, h3, -, -⟩ := goodSym_parts hg
    exact not_infix_of_decide h3
  all_goals subst heq
  all_goals exact not_infix_of_decide (by decide)

theorem rowTok_no_POS {sym : String} {tok : JStr} (h : RowTok sym tok) :
    ¬ (S "POSITIONS") <:+: tok := by
  rcases h with ⟨hne, hnum, hcount⟩ | ⟨heq, hg⟩ | heq | heq | heq | heq | heq
  · exact not_infix_class numChar 'P' (by decide) (by decide) hnum
  · subst heq
    obtain ⟨-, -, -, h4, -⟩ := goodSym_parts hg
    exact not_infix_of_decide h4
  all_goals subst heq
  all_goals exact not_infix_of_decide (by decide)

theorem rowTok_no_TRADES {sym : String} {tok : JStr} (h : RowTok sym tok) :
    ¬ (S "TRADES") <:+: tok := by
  rcases h with ⟨hne, hnum, hcount⟩ | ⟨heq, hg⟩ | heq | heq | heq | heq | heq
  · exact not_infix_class numChar 'T' (by decide) (by decide) hnum
  · subst heq
    obtain ⟨-, -, -, -, h5⟩ := goodSym_parts hg
    exact not_infix_of_decide h5
  all_goals subst heq
  all_goals exact not_infix_of_decide (by decide)

theorem rowTok_no_Source {sym : String} {tok : JStr} (h : RowTok sym tok) :
    ¬ (S "Source:") <:+: tok := by
  rcases h with ⟨hne, hnum, hcount⟩ | ⟨heq, hg⟩ | heq | heq | heq | heq | heq
  · exact not_infix_class numChar 'S' (by decide) (by decide) hnum
  · subst heq
    obtain ⟨-, h2, -, -, -⟩ := goodSym_parts hg
    exact not_infix_class symChar 'o' (by decide) (by decide) h2
  all_goals subst heq
  all_goals exact not_infix_of_decide (by decide)

theorem rowTok_no_Capital {sym : String} {tok : JStr} (h : RowTok sym tok) :
    ¬ (S "Capital") <:+: tok := by
  rcases h with ⟨hne, hnum, hcount⟩ | ⟨heq, hg⟩ | heq | heq | heq | heq | heq
  · exact not_infix_class numChar 'C' (by decide) (by decide) hnum
  · subst heq
    obtain ⟨-, h2, -, -, -⟩ := goodSym_parts hg
    exact not_infix_class symChar 'a' (by decide) (by decide) h2
  all_goals subst heq
  all_goals exact not_infix_of_decide (by decide)

theorem not_contains_of_prefix_excl {l P Q : JStr} (hPQ : P <+: Q)
    (h : containsSeq l P = false) : containsSeq l Q = false :=
  containsSeq_eq_false.mpr fun hinf =>
    containsSeq_eq_false.mp h (hPQ.isInfix.trans hinf)

theorem row_no_keywords {pairs : List (JStr × Nat)} {sym : String}
    (h : ∀ pr ∈ pairs, RowTok sym pr.1) :
    containsSeq (spacedTokens pairs) (S "---") = false ∧
    containsSeq (spacedTokens pairs) (S "PERFORMANCE") = false ∧
    containsSeq (spacedTokens pairs) (S "OPEN POSITIONS") = false ∧
    containsSeq (spacedTokens pairs) (S "REALIZED TRADES") = false ∧
    containsSeq (spacedTokens pairs) (S "Source:") = false ∧
    containsSeq (spacedTokens pairs) (S "Capital base:") = false := by
  refine ⟨?_, ?_, ?_, ?_, ?_, ?_⟩
  · refine containsSeq_eq_false.mpr fun hinf => ?_
    rcases spacefree_infix_spaced (by decide) (by decide) pairs hinf with ⟨pr, hpr, hinf'⟩
    exact rowTok_no_dashes (h pr hpr) hinf'
  · refine containsSeq_eq_false.mpr fun hinf => ?_
    rcases spacefree_infix_spaced (by decide) (by decide) pairs hinf with ⟨pr, hpr, hinf'⟩
    exact rowTok_no_PERF (h pr hpr) hinf'
  · refine containsSeq_eq_false.mpr fun hinf => ?_
    have h2 : (' ' :: S "POSITIONS") <:+: spacedTokens pairs :=
      (show (' ' :: S "POSITIONS") <:+ S "OPEN POSITIONS" from ⟨S "OPEN", rfl⟩).isInfix.trans hinf
    rcases word_after_space (by decide) (by decide) pairs
      (fun pr hpr => rowTok_no_space (h pr hpr)) h2 with ⟨pr, hpr, hpre⟩
    exact rowTok_no_POS (h pr hpr) hpre.isInfix
  · refine containsSeq_eq_false.mpr fun hinf => ?_
    have h2 : (' ' :: S "TRADES") <:+: spacedTokens pairs :=
      (show (' ' :: S "TRADES") <:+ S "REALIZED TRADES" from ⟨S "REALIZED", rfl⟩).isInfix.trans hinf
    rcases word_after_space (by decide) (by decide) pairs
      (fun pr hpr => rowTok_no_space (h pr hpr)) h2 with ⟨pr, hpr, hpre⟩
    exact rowTok_no_TRADES (h pr hpr) hpre.isInfix
  · refine containsSeq_eq_false.mpr fun hinf => ?_
    rcases spacefree_infix_spaced (by decide) (by decide) pairs hinf with ⟨pr, hpr, hinf'⟩
    exact rowTok_no_Source (h pr hpr) hinf'
  · refine containsSeq_eq_false.mpr fun hinf => ?_
    have h2 : (S "Capital") <:+: spacedTokens pairs :=
      (show (S "Capital") <+: S "Capital base:" from ⟨S " base:", rfl⟩).isInfix.trans hinf
    rcases spacefree_infix_spaced (by decide) (by decide) pairs h2 with ⟨pr, hpr, hinf'⟩
    exact rowTok_no_Capital (h pr hpr) hinf'

theorem row_nl_free {pairs : List (JStr × Nat)} {sym : String}
    (h : ∀ pr ∈ pairs, RowTok sym pr.1) :
    ∀ c ∈ spacedTokens pairs, ¬(c = '\n') := by
  intro c hc he
  rcases mem_spacedTokens hc with h' | ⟨pr, hpr, hcp⟩
  · rw [he] at h'
    exact absurd h' (by decide)
  · have := (rowTok_ne_ws (h pr hpr)).2 c hcp
    rw [he] at this
    exact absurd this (by decide)

/-! ## Per-row token classification -/

theorem goodTrade_parts {t : Trade} (h : GoodTrade t = true) :
    GoodSym t.symbol = true ∧ GoodSym t.baseSymbol = true ∧ t.otype = "future" ∧
      (t.position = "long" ∨ t.position = "short") := by
  simp only [GoodTrade, Bool.and_eq_true, Bool.or_eq_true, beq_iff_eq] at h
  exact ⟨h.1.1.1, h.1.1.2, h.1.2, h.2⟩

theorem goodOpen_parts {p : OpenPosition} (h : GoodOpen p = true) :
    GoodSym p.symbol = true ∧ p.otype = "future" ∧
      (p.position = "long" ∨ p.position = "short") := by
  simp only [GoodOpen, Bool.and_eq_true, Bool.or_eq_true, beq_iff_eq] at h
  exact ⟨h.1.1, h.1.2, h.2⟩

theorem rowTok_natToChars (sym : String) (n : Nat) : RowTok sym (natToChars n) :=
  Or.inl ⟨natToChars_ne_nil n,
    fun c hc => digit_numChar (natToChars_digits n c hc),
    by rw [natToChars_count_dash]; omega⟩

theorem rowTok_intToChars (sym : String) (i : Int) : RowTok sym (intToChars i) :=
  Or.inl ⟨intToChars_ne_nil i, intToChars_chars i,
    le_trans (intToChars_count_dash i) (by omega)⟩

theorem rowTok_isoDate (sym : String) (ms : Int) : RowTok sym (isoDate ms) :=
  Or.inl ⟨isoDate_ne_nil ms, isoDate_chars ms, isoDate_count_dash ms⟩

theorem rowTok_isoTime (sym : String) (ms : Int) : RowTok sym (isoTime ms) :=
  Or.inl ⟨isoTime_ne_nil ms, isoTime_chars ms, by rw [isoTime_count_dash]; omega⟩

theorem rowTok_dollar (sym : String) (q : ℚ) (d : Nat) : RowTok sym ('$' :: toFixed q d) := by
  refine Or.inl ⟨by simp, ?_, ?_⟩
  · intro c hc
    rcases List.mem_cons.mp hc with rfl | h'
    · decide
    · exact toFixed_chars q d c h'
  · rw [List.count_cons]
    have h1 := toFixed_count_dash q d
    have h2 : (if (('$' : Char) == '-') = true then 1 else 0) = 0 := by decide
    rw [h2]
    omega

theorem rowTok_pct (sym : String) (q : ℚ) (d : Nat) : RowTok sym (toFixed q d ++ ['%']) := by
  refine Or.inl ⟨?_, ?_, ?_⟩
  · intro hco
    exact toFixed_ne_nil q d (List.append_eq_nil.mp hco).1
  · intro c hc
    rcases List.mem_append.mp hc with h' | h'
    · exact toFixed_chars q d c h'
    · rw [List.mem_singleton] at h'
      subst h'
      decide
  · rw [List.count_append]
    have := toFixed_count_dash q d
    have h2 : List.count '-' ['%'] = 0 := by decide
    omega

theorem tradeTokens_rowTok {t : Trade} (ht : GoodTrade t = true) :
    ∀ pr ∈ tradeTokens t, RowTok t.symbol pr.1 := by
  obtain ⟨hs, hb, hot, hpos⟩ := goodTrade_parts ht
  intro pr hpr
  simp only [tradeTokens, List.mem_cons, List.not_mem_nil, or_false] at hpr
  rcases hpr with rfl | rfl | rfl | rfl | rfl | rfl | rfl | rfl | rfl | rfl | rfl | rfl | rfl | rfl
  · exact rowTok_natToChars _ _
  · exact Or.inr (Or.inl ⟨rfl, hs⟩)
  · refine Or.inr (Or.inr (Or.inl ?_))
    rw [hot]
  · rcases hpos with hp | hp
    · refine Or.inr (Or.inr (Or.inr (Or.inl ?_)))
      rw [hp]
    · refine Or.inr (Or.inr (Or.inr (Or.inr (Or.inl ?_))))
      rw [hp]
  · exact rowTok_isoDate _ _
  · exact rowTok_isoTime _ _
  · exact rowTok_isoDate _ _
  · exact rowTok_isoTime _ _
  · exact rowTok_intToChars _ _
  · exact rowTok_dollar _ _ _
  · exact rowTok_dollar _ _ _
  · exact rowTok_dollar _ _ _
  · exact rowTok_pct _ _ _
  · exact rowTok_pct _ _ _

theorem openTokens_rowTok {p : OpenPosition} (hp : GoodOpen p = true) :
    ∀ pr ∈ openTokens p, RowTok p.symbol pr.1 := by
  obtain ⟨hs, hot, hpos⟩ := goodOpen_parts hp
  intro pr hpr
  simp only [openTokens, gapsOf, openCells, List.map_cons, List.map_nil, List.mem_cons,
    List.not_mem_nil, or_false] at hpr
  rcases hpr with rfl | rfl | rfl | rfl | rfl | rfl | rfl
  · exact Or.inr (Or.inl ⟨rfl, hs⟩)
  · refine Or.inr (Or.inr (Or.inl ?_))
    rw [hot]
  · rcases hpos with hp' | hp'
    · refine Or.inr (Or.inr (Or.inr (Or.inl ?_)))
      rw [hp']
    · refine Or.inr (Or.inr (Or.inr (Or.inr (Or.inl ?_))))
      rw [hp']
  · exact rowTok_intToChars _ _
  · exact rowTok_dollar _ _ _
  · exact rowTok_dollar _ _ _
  · exact rowTok_pct _ _ _

theorem productTokens_rowTok {sym : String} (hs : GoodSym sym = true) (ts : List Trade) :
    ∀ pr ∈ productTokens sym ts, RowTok sym pr.1 := by
  intro pr hpr
  simp only [productTokens, gapsOf, productCells, List.map_cons, List.map_nil, List.mem_cons,
    List.not_mem_nil, or_false] at hpr
  rcases hpr with rfl | rfl | rfl | rfl | rfl | rfl
  · exact Or.inr (Or.inl ⟨rfl, hs⟩)
  · exact Or.inr (Or.inr (Or.inl rfl))
  · exact rowTok_natToChars _ _
  · exact rowTok_pct _ _ _
  · exact rowTok_dollar _ _ _
  · exact rowTok_pct _ _ _

theorem longTypeTokens_rowTok (trades : List Trade) (m : Metrics) :
    ∀ pr ∈ longTypeTokens trades m, RowTok "X" pr.1 := by
  intro pr hpr
  simp only [longTypeTokens, gapsOf, longTypeCells, List.map_cons, List.map_nil, List.mem_cons,
    List.not_mem_nil, or_false] at hpr
  rcases hpr with rfl | rfl | rfl | rfl | rfl
  · exact Or.inr (Or.inr (Or.inr (Or.inr (Or.inr (Or.inl rfl)))))
  · exact rowTok_natToChars _ _
  · exact rowTok_pct _ _ _
  · exact rowTok_dollar _ _ _
  · exact rowTok_pct _ _ _

theorem shortTypeTokens_rowTok (trades : List Trade) (m : Metrics) :
    ∀ pr ∈ shortTypeTokens trades m, RowTok "X" pr.1 := by
  intro pr hpr
  simp only [shortTypeTokens, gapsOf, shortTypeCells, List.map_cons, List.map_nil, List.mem_cons,
    List.not_mem_nil, or_false] at hpr
  rcases hpr with rfl | rfl | rfl | rfl | rfl
  · exact Or.inr (Or.inr (Or.inr (Or.inr (Or.inr (Or.inr rfl)))))
  · exact rowTok_natToChars _ _
  · exact rowTok_pct _ _ _
  · exact rowTok_dollar _ _ _
  · exact rowTok_pct _ _ _

/-! ## Per-row property bundles -/

theorem tradeRow_props {t : Trade} (ht : GoodTrade t = true) :
    splitWsTrim (tradeRow t) = (tradeTokens t).map (·.1) ∧
    tradeRow t ≠ [] ∧
    (∀ c ∈ tradeRow t, ¬(c = '\n')) ∧
    containsSeq (tradeRow t) (S "---") = false ∧
    containsSeq (tradeRow t) (S "PERFORMANCE") = false ∧
    containsSeq (tradeRow t) (S "OPEN POSITIONS") = false ∧
    containsSeq (tradeRow t) (S "REALIZED TRADES") = false ∧
    containsSeq (tradeRow t) (S "Source:") = false ∧
    containsSeq (tradeRow t) (S "Capital base:") = false := by
  have hrt := tradeTokens_rowTok ht
  rw [tradeRow_eq_spaced]
  have hks := row_no_keywords hrt
  exact ⟨splitWsTrim_spaced _ (fun pr hpr => rowTok_ne_ws (hrt pr hpr)),
    spacedTokens_ne_nil rfl (natToChars_ne_nil _), row_nl_free hrt,
    hks.1, hks.2.1, hks.2.2.1, hks.2.2.2.1, hks.2.2.2.2.1, hks.2.2.2.2.2⟩

theorem openRow_props {p : OpenPosition} (hp : GoodOpen p = true) :
    openPositionRow p ≠ [] ∧
    (∀ c ∈ openPositionRow p, ¬(c = '\n')) ∧
    containsSeq (openPositionRow p) (S "---") = false ∧
    containsSeq (openPositionRow p) (S "PERFORMANCE") = false ∧
    containsSeq (openPositionRow p) (S "OPEN POSITIONS") = false ∧
    containsSeq (openPositionRow p) (S "REALIZED TRADES") = false ∧
    containsSeq (openPositionRow p) (S "Source:") = false ∧
    containsSeq (openPositionRow p) (S "Capital base:") = false := by
  have hrt := openTokens_rowTok hp
  rw [openRow_eq_spaced]
  have hks := row_no_keywords hrt
  refine ⟨?_, row_nl_free hrt, hks.1, hks.2.1, hks.2.2.1, hks.2.2.2.1, hks.2.2.2.2.1,
    hks.2.2.2.2.2⟩
  exact spacedTokens_ne_nil rfl (goodSym_parts (goodOpen_parts hp).1).1

theorem productRow_props {sym : String} (hs : GoodSym sym = true) (ts : List Trade) :
    splitWsTrim (productRow sym ts) = (productTokens sym ts).map (·.1) ∧
    productRow sym ts ≠ [] ∧
    (∀ c ∈ productRow sym ts, ¬(c = '\n')) ∧
    containsSeq (productRow sym ts) (S "---") = false ∧
    containsSeq (productRow sym ts) (S "PERFORMANCE") = false ∧
    containsSeq (productRow sym ts) (S "OPEN POSITIONS") = false ∧
    containsSeq (productRow sym ts) (S "REALIZED TRADES") = false ∧
    containsSeq (productRow sym ts) (S "Source:") = false ∧
    containsSeq (productRow sym ts) (S "Capital base:") = false := by
  have hrt := productTokens_rowTok hs ts
  rw [productRow_eq_spaced]
  have hks := row_no_keywords hrt
  exact ⟨splitWsTrim_spaced _ (fun pr hpr => rowTok_ne_ws (hrt pr hpr)),
    spacedTokens_ne_nil rfl (goodSym_parts hs).1, row_nl_free hrt,
    hks.1, hks.2.1, hks.2.2.1, hks.2.2.2.1, hks.2.2.2.2.1, hks.2.2.2.2.2⟩

theorem longTypeRow_props (trades : List Trade) (m : Metrics) :
    splitWsTrim (longTypeRow trades m) = (longTypeTokens trades m).map (·.1) ∧
    longTypeRow trades m ≠ [] ∧
    (∀ c ∈ longTypeRow trades m, ¬(c = '\n')) ∧
    containsSeq (longTypeRow trades m) (S "---") = false ∧
    containsSeq (longTypeRow trades m) (S "PERFORMANCE") = false ∧
    containsSeq (longTypeRow trades m) (S "OPEN POSITIONS") = false ∧
    containsSeq (longTypeRow trades m) (S "REALIZED TRADES") = false ∧
    containsSeq (longTypeRow trades m) (S "Source:") = false ∧
    containsSeq (longTypeRow trades m) (S "Capital base:") = false := by
  have hrt := longTypeTokens_rowTok trades m
  rw [longTypeRow_eq_spaced]
  have hks := row_no_keywords hrt
  exact ⟨splitWsTrim_spaced _ (fun pr hpr => rowTok_ne_ws (hrt pr hpr)),
    spacedTokens_ne_nil rfl (by decide), row_nl_free hrt,
    hks.1, hks.2.1, hks.2.2.1, hks.2.2.2.1, hks.2.2.2.2.1, hks.2.2.2.2.2⟩

theorem shortTypeRow_props (trades : List Trade) (m : Metrics) :
    splitWsTrim (shortTypeRow trades m) = (shortTypeTokens trades m).map (·.1) ∧
    shortTypeRow trades m ≠ [] ∧
    (∀ c ∈ shortTypeRow trades m, ¬(c = '\n')) ∧
    containsSeq (shortTypeRow trades m) (S "---") = false ∧
    containsSeq (shortTypeRow trades m) (S "PERFORMANCE") = false ∧
    containsSeq (shortTypeRow trades m) (S "OPEN POSITIONS") = false ∧
    containsSeq (shortTypeRow trades m) (S "REALIZED TRADES") = false ∧
    containsSeq (shortTypeRow trades m) (S "Source:") = false ∧
    containsSeq (shortTypeRow trades m) (S "Capital base:") = false := by
  have hrt := shortTypeTokens_rowTok trades m
  rw [shortTypeRow_eq_spaced]
  have hks := row_no_keywords hrt
  exact ⟨splitWsTrim_spaced _ (fun pr hpr => rowTok_ne_ws (hrt pr hpr)),
    spacedTokens_ne_nil rfl (by decide), row_nl_free hrt,
    hks.1, hks.2.1, hks.2.2.1, hks.2.2.2.1, hks.2.2.2.2.1, hks.2.2.2.2.2⟩

/-! ## Scan-loop lemmas -/

theorem tradeRowsLoop_map (trades : List Trade) (rest : List JStr)
    (h : ∀ t ∈ trades, GoodTrade t = true) :
    tradeRowsLoop (trades.map tradeRow ++ [] :: rest) = trades.map parsedTradeOf := by
  induction trades with
  | nil =>
    rw [List.map_nil, List.nil_append, List.map_nil, tradeRowsLoop]
    simp
  | cons t ts ih =>
    obtain ⟨hsplit, hne, _, h1, h2, h3, _, _, _⟩ := tradeRow_props (h t (List.mem_cons_self _ _))
    rw [List.map_cons, List.cons_append, tradeRowsLoop]
    have hie : (tradeRow t).isEmpty = false := by
      cases htr : tradeRow t with
      | nil => exact absurd htr hne
      | cons a b => rfl
    rw [hie, h1, h2, h3]
    simp only [Bool.or_self, Bool.false_or, Bool.or_false, Bool.false_eq_true, if_false]
    rw [hsplit]
    rw [ih (fun t' ht' => h t' (List.mem_cons_of_mem _ ht'))]
    have hlen : ((tradeTokens t).map (·.1)).length = 14 := rfl
    rw [if_pos (by rw [hlen]; omega)]
    rfl

theorem productRowsLoop_map (keys : List String) (trades : List Trade) (rest : List JStr)
    (h : ∀ sym ∈ keys, GoodSym sym = true) :
    productRowsLoop
        ((keys.map (fun sym => productRow sym (trades.filter (fun t => t.baseSymbol == sym)))) ++
          [] :: rest) =
      keys.map (fun sym => parsedProductOf sym (trades.filter (fun t => t.baseSymbol == sym))) := by
  induction keys with
  | nil =>
    rw [List.map_nil, List.nil_append, List.map_nil, productRowsLoop]
    simp
  | cons sym keys' ih =>
    obtain ⟨hsplit, hne, _, h1, h2, _, _, _, _⟩ :=
      productRow_props (h sym (List.mem_cons_self _ _)) (trades.filter (fun t => t.baseSymbol == sym))
    have h2' : containsSeq (productRow sym (trades.filter (fun t => t.baseSymbol == sym)))
        (S "PERFORMANCE BY POSITION") = false :=
      not_contains_of_prefix_excl ⟨S " BY POSITION", rfl⟩ h2
    rw [List.map_cons, List.cons_append, productRowsLoop]
    have hie : (productRow sym (trades.filter (fun t => t.baseSymbol == sym))).isEmpty = false := by
      cases htr : productRow sym (trades.filter (fun t => t.baseSymbol == sym)) with
      | nil => exact absurd htr hne
      | cons a b => rfl
    rw [hie, h1, h2']
    simp only [Bool.or_self, Bool.false_or, Bool.or_false, Bool.false_eq_true, if_false]
    rw [hsplit]
    rw [ih (fun s' hs' => h s' (List.mem_cons_of_mem _ hs'))]
    have hlen : ((productTokens sym (trades.filter (fun t => t.baseSymbol == sym))).map
      (·.1)).length = 6 := rfl
    rw [if_pos (by rw [hlen])]
    rfl

theorem positionRowsLoop_two (trades : List Trade) (m : Metrics) (rest : List JStr) :
    positionRowsLoop (longTypeRow trades m :: shortTypeRow trades m :: [] :: rest) =
      [parsedLongOf trades m, parsedShortOf trades m] := by
  obtain ⟨hsplitL, hneL, _, h1L, _, _, _, h3L, _⟩ := longTypeRow_props trades m
  obtain ⟨hsplitS, hneS, _, h1S, _, _, _, h3S, _⟩ := shortTypeRow_props trades m
  rw [positionRowsLoop]
  have hieL : (longTypeRow trades m).isEmpty = false := by
    cases htr : longTypeRow trades m with
    | nil => exact absurd htr hneL
    | cons a b => rfl
  rw [hieL, h1L, h3L]
  simp only [Bool.or_self, Bool.false_or, Bool.or_false, Bool.false_eq_true, if_false]
  rw [hsplitL]
  rw [positionRowsLoop]
  have hieS : (shortTypeRow trades m).isEmpty = false := by
    cases htr : shortTypeRow trades m with
    | nil => exact absurd htr hneS
    | cons a b => rfl
  rw [hieS, h1S, h3S]
  simp only [Bool.or_self, Bool.false_or, Bool.or_false, Bool.false_eq_true, if_false]
  rw [hsplitS]
  rw [show positionRowsLoop ([] :: rest) = [] from by rw [positionRowsLoop]; simp]
  have hlenL : ((longTypeTokens trades m).map (·.1)).length = 5 := rfl
  have hlenS : ((shortTypeTokens trades m).map (·.1)).length = 5 := rfl
  rw [if_pos (by rw [hlenL]), if_pos (by rw [hlenS])]
  rfl

/-! ## Labelled-line helpers -/

theorem contains_of_prefix {l P : JStr} (h : P <+: l) : containsSeq l P = true :=
  containsSeq_iff.mpr h.isInfix

theorem line_label_value_cl {label v P : JStr} (cl : Char → Bool)
    (hv : ∀ x ∈ v, cl x = true)
    (hany : P.any (fun c => !(cl c)) = true)
    (hPa : containsSeq label P = false) (hstr : straddleFree label P = true) :
    containsSeq (label ++ v) P = false := by
  obtain ⟨c0, hc0, hc0f⟩ := List.any_eq_true.mp hany
  exact containsSeq_eq_false.mpr (not_infix_append_of (containsSeq_eq_false.mp hPa)
    (not_infix_class cl c0 hc0 (by simpa using hc0f) hv) hstr)

theorem head?_append_left {α} {a b : List α} (h : a ≠ []) : (a ++ b).head? = a.head? := by
  cases a with
  | nil => exact absurd rfl h
  | cons x xs => rfl

theorem getLast?_append_right {α} {a b : List α} (h : b ≠ []) :
    (a ++ b).getLast? = b.getLast? := by
  rw [List.getLast?_append]
  cases hbl : b.getLast? with
  | none =>
    exfalso
    apply h
    cases b with
    | nil => rfl
    | cons x xs =>
      rw [← List.head?_reverse] at hbl
      cases hrb : (x :: xs).reverse with
      | nil => exact absurd (List.reverse_eq_nil_iff.mp hrb) (by simp)
      | cons y ys =>
        rw [hrb] at hbl
        exact absurd hbl (by simp)
  | some x => rfl

theorem labeledValue_class {lines : List JStr} {i : Int} {label pad v fb : JStr}
    (cl : Char → Bool)
    (hline : getLine lines i = some (label ++ (pad ++ v)))
    (hlab : label ≠ [])
    (hpadrep : pad = List.replicate pad.length ' ')
    (hclsp : cl ' ' = true)
    (hv : ∀ c ∈ v, cl c = true)
    (hvhead : ∀ c ∈ v.head?, isWsC c = false)
    (hvlast : ∀ c ∈ v.getLast?, isWsC c = false)
    (hvne : v ≠ [])
    (c0 : Char) (hc0 : c0 ∈ label) (hc0f : cl c0 = false) :
    labeledValue lines i label fb = v := by
  have hnosep : containsSeq (pad ++ v) label = false := by
    refine containsSeq_eq_false.mpr (not_infix_class cl c0 hc0 hc0f ?_)
    intro x hx
    rcases List.mem_append.mp hx with h' | h'
    · rw [hpadrep] at h'
      rw [List.eq_of_mem_replicate h']
      exact hclsp
    · exact hv x h'
  have htrim : trimC (pad ++ v) = v := by
    conv_lhs => rw [hpadrep]
    exact trimC_pad _ hvhead hvlast
  rw [labeledValue_eq hline hlab hnosep (by rw [htrim]; exact hvne), htrim]

theorem dedupFirst_subset : ∀ l : List String, dedupFirst l ⊆ l := by
  intro l
  induction l using dedupFirst.induct with
  | case1 => simp [dedupFirst]
  | case2 k rest ih =>
    rw [dedupFirst]
    intro x hx
    rcases List.mem_cons.mp hx with rfl | hx'
    · exact List.mem_cons_self _ _
    · exact List.mem_cons_of_mem _ (List.mem_of_mem_filter (ih hx'))

/-! ## Newline-freeness of the generated lines -/

theorem nl_free_of_numChar {v : JStr} (hv : ∀ c ∈ v, numChar c = true) :
    ∀ c ∈ v, ¬(c = '\n') := fun c hc he => by
  have := numChar_not_ws (hv c hc)
  rw [he] at this
  exact absurd this (by decide)

theorem nl_free_append {a b : JStr} (ha : ∀ c ∈ a, ¬(c = '\n')) (hb : ∀ c ∈ b, ¬(c = '\n')) :
    ∀ c ∈ a ++ b, ¬(c = '\n') := fun c hc => by
  rcases List.mem_append.mp hc with h' | h'
  · exact ha c h'
  · exact hb c h'

/-! ## Per-section keyword exclusion -/

theorem pct_chars (q : ℚ) (d : Nat) : ∀ c ∈ toFixed q d ++ ['%'], numChar c = true := by
  intro c hc
  rcases List.mem_append.mp hc with h' | h'
  · exact toFixed_chars q d c h'
  · rw [List.mem_singleton] at h'
    subst h'
    decide

theorem dollar_chars (q : ℚ) (d : Nat) : ∀ c ∈ '$' :: toFixed q d, numChar c = true := by
  intro c hc
  rcases List.mem_cons.mp hc with rfl | h'
  · decide
  · exact toFixed_chars q d c h'

theorem natParen_chars (n : Nat) : ∀ c ∈ natToChars n ++ [')'], numChar c = true := by
  intro c hc
  rcases List.mem_append.mp hc with h' | h'
  · exact digit_numChar (natToChars_digits n c h')
  · rw [List.mem_singleton] at h'
    subst h'
    decide

theorem nat_chars (n : Nat) : ∀ c ∈ natToChars n, numChar c = true :=
  fun c hc => digit_numChar (natToChars_digits n c hc)

theorem notCap_toFixed (q : ℚ) (d : Nat) : ∀ c ∈ toFixed q d, (!(isCap c)) = true :=
  fun c hc => by simp [numChar_not_cap (toFixed_chars q d c hc)]

theorem notCap_avgSize (q : ℚ) : ∀ c ∈ toFixed q 2 ++ S "% of capital",
    (!(isCap c)) = true := by
  intro c hc
  rcases List.mem_append.mp hc with h' | h'
  · exact notCap_toFixed q 2 c h'
  · exact (by decide : ∀ c ∈ S "% of capital", (!(isCap c)) = true) c h'

theorem goodGen_parts {g : JStr} (hg : GoodGen g = true) :
    (∀ P ∈ sectionKeywords, containsSeq g P = false) ∧ ∀ c ∈ g, ¬(c = '\n') := by
  simp only [GoodGen, Bool.and_eq_true, List.all_eq_true, Bool.not_eq_true'] at hg
  refine ⟨hg.1, fun c hc he => ?_⟩
  have := hg.2 c hc
  rw [he] at this
  exact absurd this (by simp)

theorem goodName_parts {f : String} (hf : GoodName f = true) :
    containsSeq f.toList (S "Capital base:") = false ∧
      containsSeq f.toList (S "REALIZED TRADES") = false ∧
      containsSeq f.toList (S "OPEN POSITIONS") = false ∧
      containsSeq f.toList (S "Source:") = false ∧
      ∀ c ∈ f.toList, ¬(c = '\n') := by
  simp only [GoodName, Bool.and_eq_true, List.all_eq_true, Bool.not_eq_true'] at hf
  refine ⟨hf.1.1.1.1, hf.1.1.1.2, hf.1.1.2, hf.1.2, fun c hc he => ?_⟩
  have := hf.2 c hc
  rw [he] at this
  exact absurd this (by simp)

theorem headerLines_safe {g : JStr} (hg : GoodGen g = true) :
    ∀ l ∈ headerLines g, ∀ P ∈ [S "OVERALL PERFORMANCE", S "POSITION BREAKDOWN",
      S "REALIZED TRADES", S "OPEN POSITIONS", S "PERFORMANCE BY PRODUCT",
      S "PERFORMANCE BY POSITION TYPE",
      S "Source:", S "Capital base:"], containsSeq l P = false := by
  have hgp := (goodGen_parts hg).1
  have hgen : ∀ P : JStr, containsSeq g P = false → containsSeq (S "Generated on: ") P = false →
      straddleFree (S "Generated on: ") P = true →
      containsSeq (S "Generated on: " ++ g) P = false := fun P h1 h3 h2 =>
    containsSeq_eq_false.mpr (not_infix_append_of (containsSeq_eq_false.mp h3)
      (containsSeq_eq_false.mp h1) h2)
  intro l hl P hP
  simp only [headerLines, List.mem_cons, List.not_mem_nil, or_false] at hl
  rcases hl with rfl | rfl | rfl | rfl | rfl
  · fin_cases hP <;> decide
  · fin_cases hP <;> decide
  · fin_cases hP
    · exact hgen _ (hgp _ (by decide)) (by decide) (by decide)
    · exact hgen _ (hgp _ (by decide)) (by decide) (by decide)
    · exact hgen _ (hgp _ (by decide)) (by decide) (by decide)
    · exact hgen _ (hgp _ (by decide)) (by decide) (by decide)
    · exact hgen _ (not_contains_of_prefix_excl
        (show S "PERFORMANCE" <+: S "PERFORMANCE BY PRODUCT" from ⟨S " BY PRODUCT", rfl⟩)
        (hgp _ (by decide))) (by decide) (by decide)
    · exact hgen _ (not_contains_of_prefix_excl
        (show S "PERFORMANCE" <+: S "PERFORMANCE BY POSITION TYPE" from
          ⟨S " BY POSITION TYPE", rfl⟩)
        (hgp _ (by decide))) (by decide) (by decide)
    · exact hgen _ (hgp _ (by decide)) (by decide) (by decide)
    · exact hgen _ (hgp _ (by decide)) (by decide) (by decide)
  · fin_cases hP <;> decide
  · fin_cases hP <;> decide

theorem overallLines_safe (m : Metrics) :
    ∀ l ∈ overallLines m, ∀ P ∈ [S "POSITION BREAKDOWN", S "REALIZED TRADES",
      S "OPEN POSITIONS", S "PERFORMANCE BY PRODUCT", S "PERFORMANCE BY POSITION TYPE",
      S "Source:", S "Capital base:"], containsSeq l P = false := by
  intro l hl P hP
  simp only [overallLines, List.mem_cons, List.not_mem_nil, or_false] at hl
  rcases hl with rfl | rfl | rfl | rfl | rfl | rfl | rfl | rfl | rfl | rfl | rfl | rfl
  · fin_cases hP <;> decide
  · fin_cases hP <;> decide
  · fin_cases hP <;>
      exact line_label_value_cl numChar (nat_chars _) (by decide) (by decide) (by decide)
  · fin_cases hP <;>
      exact line_label_value_cl numChar (nat_chars _) (by decide) (by decide) (by decide)
  · fin_cases hP <;>
      exact line_label_value_cl numChar (nat_chars _) (by decide) (by decide) (by decide)
  · rw [List.append_assoc]
    fin_cases hP <;>
      exact line_label_value_cl numChar (pct_chars _ _) (by decide) (by decide) (by decide)
  · rw [List.append_assoc]
    fin_cases hP <;>
      exact line_label_value_cl numChar (pct_chars _ _) (by decide) (by decide) (by decide)
  · rw [List.append_assoc]
    fin_cases hP <;>
      exact line_label_value_cl numChar (pct_chars _ _) (by decide) (by decide) (by decide)
  · fin_cases hP <;>
      exact line_label_value_cl numChar (toFixed_chars _ _) (by decide) (by decide) (by decide)
  · cases hpf : m.profitFactor with
    | finite q =>
      show containsSeq (S "Profit Factor:   " ++ pfToFixed (PFVal.finite q) 2) P = false
      fin_cases hP <;>
        exact line_label_value_cl numChar (toFixed_chars _ _) (by decide) (by decide) (by decide)
    | posInf =>
      show containsSeq (S "Profit Factor:   " ++ pfToFixed PFVal.posInf 2) P = false
      fin_cases hP <;> decide
  · rw [List.append_assoc]
    fin_cases hP <;>
      exact line_label_value_cl (fun c => !(isCap c)) (notCap_avgSize _) (by decide)
        (by decide) (by decide)
  · fin_cases hP <;> decide

theorem breakdownLines_safe (m : Metrics) :
    ∀ l ∈ breakdownLines m, ∀ P ∈ [S "REALIZED TRADES", S "OPEN POSITIONS",
      S "PERFORMANCE BY PRODUCT", S "PERFORMANCE BY POSITION TYPE",
      S "Source:", S "Capital base:"], containsSeq l P = false := by
  intro l hl P hP
  simp only [breakdownLines, List.mem_cons, List.not_mem_nil, or_false] at hl
  rcases hl with rfl | rfl | rfl | rfl | rfl | rfl | rfl
  · fin_cases hP <;> decide
  · fin_cases hP <;>
      exact line_label_value_cl numChar (nat_chars _) (by decide) (by decide) (by decide)
  · fin_cases hP <;>
      exact line_label_value_cl numChar (nat_chars _) (by decide) (by decide) (by decide)
  · fin_cases hP <;>
      exact line_label_value_cl numChar (toFixed_chars _ _) (by decide) (by decide) (by decide)
  · fin_cases hP <;>
      exact line_label_value_cl numChar (toFixed_chars _ _) (by decide) (by decide) (by decide)
  · fin_cases hP <;> decide
  · fin_cases hP <;> decide

theorem mem_if_singleton {α} {x a : α} {c : Prop} [Decidable c]
    (h : x ∈ (if c then [a] else [])) : x = a := by
  by_cases hc : c
  · rw [if_pos hc] at h
    exact List.mem_singleton.mp h
  · rw [if_neg hc] at h
    exact absurd h (List.not_mem_nil x)

theorem mem_sortedOpens {p : OpenPosition} {ops : List OpenPosition} :
    p ∈ sortedOpens ops ↔ p ∈ ops := by
  rw [sortedOpens]
  exact List.mem_mergeSort

theorem productKeys_goodSym {trades : List Trade} (h : ∀ t ∈ trades, GoodTrade t = true)
    {sym : String}
    (hmem : sym ∈ (dedupFirst (trades.map (·.baseSymbol))).mergeSort
      (fun a b => decide (a ≤ b))) : GoodSym sym = true := by
  have h1 : sym ∈ dedupFirst (trades.map (·.baseSymbol)) := List.mem_mergeSort.mp hmem
  have h2 := dedupFirst_subset _ h1
  obtain ⟨t, htm, rfl⟩ := List.mem_map.mp h2
  exact (goodTrade_parts (h t htm)).2.1

theorem tradesSection_safe {trades : List Trade} (h : ∀ t ∈ trades, GoodTrade t = true) :
    ∀ l ∈ tradesSection trades, ∀ P ∈ [S "PERFORMANCE BY PRODUCT",
      S "PERFORMANCE BY POSITION TYPE", S "OPEN POSITIONS", S "Source:", S "Capital base:"],
      containsSeq l P = false := by
  intro l hl P hP
  rw [tradesSection] at hl
  by_cases htr : 0 < trades.length
  · rw [if_pos htr] at hl
    simp only [List.cons_append, List.nil_append, List.mem_cons, List.mem_append,
      List.mem_map, List.mem_singleton, List.not_mem_nil, or_false] at hl
    rcases hl with rfl | rfl | rfl | rfl | ⟨t, htmem, rfl⟩ | rfl
    · rw [List.append_assoc]
      fin_cases hP <;>
        exact line_label_value_cl numChar (natParen_chars _) (by decide) (by decide) (by decide)
    · fin_cases hP <;> decide
    · fin_cases hP <;> decide
    · fin_cases hP <;> decide
    · obtain ⟨-, -, -, -, hPERF, hOP, -, hSrc, hCap⟩ := tradeRow_props (h t htmem)
      fin_cases hP
      · exact not_contains_of_prefix_excl
          (show S "PERFORMANCE" <+: S "PERFORMANCE BY PRODUCT" from ⟨S " BY PRODUCT", rfl⟩) hPERF
      · exact not_contains_of_prefix_excl
          (show S "PERFORMANCE" <+: S "PERFORMANCE BY POSITION TYPE" from
            ⟨S " BY POSITION TYPE", rfl⟩) hPERF
      · exact hOP
      · exact hSrc
      · exact hCap
    · fin_cases hP <;> decide
  · rw [if_neg htr] at hl
    exact absurd hl (List.not_mem_nil l)

theorem openSection_safe {ops : List OpenPosition} (h : ∀ p ∈ ops, GoodOpen p = true) :
    ∀ l ∈ openSection ops, ∀ P ∈ [S "PERFORMANCE BY PRODUCT",
      S "PERFORMANCE BY POSITION TYPE", S "REALIZED TRADES", S "Source:", S "Capital base:"],
      containsSeq l P = false := by
  intro l hl P hP
  rw [openSection] at hl
  by_cases hop : 0 < ops.length
  · rw [if_pos hop] at hl
    simp only [List.cons_append, List.nil_append, List.mem_cons, List.mem_append,
      List.mem_map, List.mem_singleton, List.not_mem_nil, or_false] at hl
    rcases hl with rfl | rfl | rfl | rfl | ⟨p, hpmem, rfl⟩ | rfl
    · rw [List.append_assoc]
      fin_cases hP <;>
        exact line_label_value_cl numChar (natParen_chars _) (by decide) (by decide) (by decide)
    · fin_cases hP <;> decide
    · fin_cases hP <;> decide
    · fin_cases hP <;> decide
    · obtain ⟨-, -, -, hPERF, -, hRT, hSrc, hCap⟩ := openRow_props (h p (mem_sortedOpens.mp hpmem))
      fin_cases hP
      · exact not_contains_of_prefix_excl
          (show S "PERFORMANCE" <+: S "PERFORMANCE BY PRODUCT" from ⟨S " BY PRODUCT", rfl⟩) hPERF
      · exact not_contains_of_prefix_excl
          (show S "PERFORMANCE" <+: S "PERFORMANCE BY POSITION TYPE" from
            ⟨S " BY POSITION TYPE", rfl⟩) hPERF
      · exact hRT
      · exact hSrc
      · exact hCap
    · fin_cases hP <;> decide
  · rw [if_neg hop] at hl
    exact absurd hl (List.not_mem_nil l)

theorem productSection_safe {trades : List Trade} (h : ∀ t ∈ trades, GoodTrade t = true) :
    ∀ l ∈ productSection trades, ∀ P ∈ [S "PERFORMANCE BY POSITION TYPE",
      S "OPEN POSITIONS", S "Source:", S "Capital base:"], containsSeq l P = false := by
  intro l hl P hP
  rw [productSection] at hl
  by_cases htr : 0 < trades.length
  · rw [if_pos htr] at hl
    simp only [productRowsOf, List.cons_append, List.nil_append, List.mem_cons, List.mem_append,
      List.mem_map, List.mem_singleton, List.not_mem_nil, or_false] at hl
    rcases hl with rfl | rfl | rfl | rfl | ⟨sym, hsmem, rfl⟩ | rfl
    · fin_cases hP <;> decide
    · fin_cases hP <;> decide
    · fin_cases hP <;> decide
    · fin_cases hP <;> decide
    · obtain ⟨-, -, -, -, hPERF, hOP, -, hSrc, hCap⟩ :=
        productRow_props (productKeys_goodSym h hsmem) (trades.filter (fun t => t.baseSymbol == sym))
      fin_cases hP
      · exact not_contains_of_prefix_excl
          (show S "PERFORMANCE" <+: S "PERFORMANCE BY POSITION TYPE" from
            ⟨S " BY POSITION TYPE", rfl⟩) hPERF
      · exact hOP
      · exact hSrc
      · exact hCap
    · fin_cases hP <;> decide
  · rw [if_neg htr] at hl
    exact absurd hl (List.not_mem_nil l)

theorem typeSection_safe (trades : List Trade) (m : Metrics) :
    ∀ l ∈ typeSection trades m, ∀ P ∈ [S "REALIZED TRADES", S "OPEN POSITIONS",
      S "Source:", S "Capital base:"], containsSeq l P = false := by
  intro l hl P hP
  rw [typeSection] at hl
  rcases List.mem_append.mp hl with h1 | h1
  · rcases List.mem_append.mp h1 with h2 | h2
    · rcases List.mem_append.mp h2 with h3 | h3
      · simp only [List.mem_cons, List.not_mem_nil, or_false] at h3
        rcases h3 with rfl | rfl | rfl | rfl
        · fin_cases hP <;> decide
        · fin_cases hP <;> decide
        · fin_cases hP <;> decide
        · fin_cases hP <;> decide
      · rw [mem_if_singleton h3]
        obtain ⟨-, -, -, -, -, hOP, hRT, hSrc, hCap⟩ := longTypeRow_props trades m
        fin_cases hP
        · exact hRT
        · exact hOP
        · exact hSrc
        · exact hCap
    · rw [mem_if_singleton h2]
      obtain ⟨-, -, -, -, -, hOP, hRT, hSrc, hCap⟩ := shortTypeRow_props trades m
      fin_cases hP
      · exact hRT
      · exact hOP
      · exact hSrc
      · exact hCap
  · rw [List.mem_singleton.mp h1]
    fin_cases hP <;> decide

theorem sourceLine_no_capital {f : String} (hf : GoodName f = true) :
    containsSeq (S "Source: " ++ S f) (S "Capital base:") = false :=
  containsSeq_eq_false.mpr (not_infix_append_of (not_infix_of_decide (by decide))
    (containsSeq_eq_false.mp (goodName_parts hf).1) (by decide))

theorem footerLines_safe {f : String} (hf : GoodName f = true) :
    ∀ l ∈ footerLines f, ∀ P ∈ [S "REALIZED TRADES", S "OPEN POSITIONS"],
      containsSeq l P = false := by
  intro l hl P hP
  simp only [footerLines, List.mem_cons, List.not_mem_nil, or_false] at hl
  rcases hl with rfl | rfl
  · fin_cases hP
    · exact containsSeq_eq_false.mpr (not_infix_append_of (not_infix_of_decide (by decide))
        (containsSeq_eq_false.mp (goodName_parts hf).2.1) (by decide))
    · exact containsSeq_eq_false.mpr (not_infix_append_of (not_infix_of_decide (by decide))
        (containsSeq_eq_false.mp (goodName_parts hf).2.2.1) (by decide))
  · fin_cases hP <;> decide

/-! ## Newline-freeness of each section -/

theorem headerLines_nl {g : JStr} (hg : GoodGen g = true) :
    ∀ l ∈ headerLines g, ∀ c ∈ l, ¬(c = '\n') := by
  intro l hl
  simp only [headerLines, List.mem_cons, List.not_mem_nil, or_false] at hl
  rcases hl with rfl | rfl | rfl | rfl | rfl
  · decide
  · decide
  · exact nl_free_append (by decide) (goodGen_parts hg).2
  · decide
  · decide

theorem overallLines_nl (m : Metrics) :
    ∀ l ∈ overallLines m, ∀ c ∈ l, ¬(c = '\n') := by
  intro l hl
  simp only [overallLines, List.mem_cons, List.not_mem_nil, or_false] at hl
  rcases hl with rfl | rfl | rfl | rfl | rfl | rfl | rfl | rfl | rfl | rfl | rfl | rfl
  · decide
  · decide
  · exact nl_free_append (by decide) (nl_free_of_numChar (nat_chars _))
  · exact nl_free_append (by decide) (nl_free_of_numChar (nat_chars _))
  · exact nl_free_append (by decide) (nl_free_of_numChar (nat_chars _))
  · rw [List.append_assoc]
    exact nl_free_append (by decide) (nl_free_of_numChar (pct_chars _ _))
  · rw [List.append_assoc]
    exact nl_free_append (by decide) (nl_free_of_numChar (pct_chars _ _))
  · rw [List.append_assoc]
    exact nl_free_append (by decide) (nl_free_of_numChar (pct_chars _ _))
  · exact nl_free_append (by decide) (nl_free_of_numChar (toFixed_chars _ _))
  · cases hpf : m.profitFactor with
    | finite q =>
      show ∀ c ∈ S "Profit Factor:   " ++ pfToFixed (PFVal.finite q) 2, ¬(c = '\n')
      exact nl_free_append (by decide) (nl_free_of_numChar (toFixed_chars _ _))
    | posInf =>
      show ∀ c ∈ S "Profit Factor:   " ++ pfToFixed PFVal.posInf 2, ¬(c = '\n')
      decide
  · rw [List.append_assoc]
    exact nl_free_append (by decide)
      (nl_free_append (nl_free_of_numChar (toFixed_chars _ _)) (by decide))
  · decide

theorem breakdownLines_nl (m : Metrics) :
    ∀ l ∈ breakdownLines m, ∀ c ∈ l, ¬(c = '\n') := by
  intro l hl
  simp only [breakdownLines, List.mem_cons, List.not_mem_nil, or_false] at hl
  rcases hl with rfl | rfl | rfl | rfl | rfl | rfl | rfl
  · decide
  · exact nl_free_append (by decide) (nl_free_of_numChar (nat_chars _))
  · exact nl_free_append (by decide) (nl_free_of_numChar (nat_chars _))
  · exact nl_free_append (by decide) (nl_free_of_numChar (toFixed_chars _ _))
  · exact nl_free_append (by decide) (nl_free_of_numChar (toFixed_chars _ _))
  · decide
  · decide

theorem tradesSection_nl {trades : List Trade} (h : ∀ t ∈ trades, GoodTrade t = true) :
    ∀ l ∈ tradesSection trades, ∀ c ∈ l, ¬(c = '\n') := by
  intro l hl
  rw [tradesSection] at hl
  by_cases htr : 0 < trades.length
  · rw [if_pos htr] at hl
    simp only [List.cons_append, List.nil_append, List.mem_cons, List.mem_append,
      List.mem_map, List.mem_singleton, List.not_mem_nil, or_false] at hl
    rcases hl with rfl | rfl | rfl | rfl | ⟨t, htmem, rfl⟩ | rfl
    · rw [List.append_assoc]
      exact nl_free_append (by decide) (nl_free_of_numChar (natParen_chars _))
    · decide
    · decide
    · decide
    · exact (tradeRow_props (h t htmem)).2.2.1
    · decide
  · rw [if_neg htr] at hl
    exact absurd hl (List.not_mem_nil l)

theorem openSection_nl {ops : List OpenPosition} (h : ∀ p ∈ ops, GoodOpen p = true) :
    ∀ l ∈ openSection ops, ∀ c ∈ l, ¬(c = '\n') := by
  intro l hl
  rw [openSection] at hl
  by_cases hop : 0 < ops.length
  · rw [if_pos hop] at hl
    simp only [List.cons_append, List.nil_append, List.mem_cons, List.mem_append,
      List.mem_map, List.mem_singleton, List.not_mem_nil, or_false] at hl
    rcases hl with rfl | rfl | rfl | rfl | ⟨p, hpmem, rfl⟩ | rfl
    · rw [List.append_assoc]
      exact nl_free_append (by decide) (nl_free_of_numChar (natParen_chars _))
    · decide
    · decide
    · decide
    · exact (openRow_props (h p (mem_sortedOpens.mp hpmem))).2.1
    · decide
  · rw [if_neg hop] at hl
    exact absurd hl (List.not_mem_nil l)

theorem productSection_nl {trades : List Trade} (h : ∀ t ∈ trades, GoodTrade t = true) :
    ∀ l ∈ productSection trades, ∀ c ∈ l, ¬(c = '\n') := by
  intro l hl
  rw [productSection] at hl
  by_cases htr : 0 < trades.length
  · rw [if_pos htr] at hl
    simp only [productRowsOf, List.cons_append, List.nil_append, List.mem_cons, List.mem_append,
      List.mem_map, List.mem_singleton, List.not_mem_nil, or_false] at hl
    rcases hl with rfl | rfl | rfl | rfl | ⟨sym, hsmem, rfl⟩ | rfl
    · decide
    · decide
    · decide
    · decide
    · exact (productRow_props (productKeys_goodSym h hsmem)
        (trades.filter (fun t => t.baseSymbol == sym))).2.2.1
    · decide
  · rw [if_neg htr] at hl
    exact absurd hl (List.not_mem_nil l)

theorem typeSection_nl (trades : List Trade) (m : Metrics) :
    ∀ l ∈ typeSection trades m, ∀ c ∈ l, ¬(c = '\n') := by
  intro l hl
  rw [typeSection] at hl
  rcases List.mem_append.mp hl with h1 | h1
  · rcases List.mem_append.mp h1 with h2 | h2
    · rcases List.mem_append.mp h2 with h3 | h3
      · simp only [List.mem_cons, List.not_mem_nil, or_false] at h3
        rcases h3 with rfl | rfl | rfl | rfl
        · decide
        · decide
        · decide
        · decide
      · rw [mem_if_singleton h3]
        exact (longTypeRow_props trades m).2.2.1
    · rw [mem_if_singleton h2]
      exact (shortTypeRow_props trades m).2.2.1
  · rw [List.mem_singleton.mp h1]
    decide

theorem footerLines_nl {f : String} (hf : GoodName f = true) :
    ∀ l ∈ footerLines f, ∀ c ∈ l, ¬(c = '\n') := by
  intro l hl
  simp only [footerLines, List.mem_cons, List.not_mem_nil, or_false] at hl
  rcases hl with rfl | rfl
  · exact nl_free_append (by decide) (goodName_parts hf).2.2.2.2
  · decide

theorem generateReportLines_nl {trades : List Trade} {ops : List OpenPosition} {m : Metrics}
    {f : String} {g : JStr} (htg : ∀ t ∈ trades, GoodTrade t = true)
    (hog : ∀ p ∈ ops, GoodOpen p = true) (hf : GoodName f = true) (hg : GoodGen g = true) :
    ∀ l ∈ generateReportLines trades ops m f g, ∀ c ∈ l, ¬(c = '\n') := by
  intro l hl
  rw [generateReportLines] at hl
  simp only [List.mem_append] at hl
  rcases hl with ((((((h' | h') | h') | h') | h') | h') | h') | h'
  · exact headerLines_nl hg l h'
  · exact overallLines_nl m l h'
  · exact breakdownLines_nl m l h'
  · exact tradesSection_nl htg l h'
  · exact openSection_nl hog l h'
  · exact productSection_nl htg l h'
  · exact typeSection_nl trades m l h'
  · exact footerLines_nl hf l h'


/-! ## Presence and absence of a pattern in the joined report text -/

theorem containsSeq_joinNl_true {P l : JStr} {ls : List JStr} (hmem : l ∈ ls)
    (h : containsSeq l P = true) : containsSeq (joinNl ls) P = true :=
  containsSeq_iff.mpr (infix_joinNl_of_mem hmem (containsSeq_iff.mp h))

theorem containsSeq_joinNl_false {P : JStr} (hne : P ≠ []) (hnl : ∀ c ∈ P, ¬(c = '\n'))
    {ls : List JStr} (h : ∀ l ∈ ls, containsSeq l P = false) :
    containsSeq (joinNl ls) P = false := by
  refine containsSeq_eq_false.mpr fun hinf => ?_
  obtain ⟨l, hmem, hl⟩ := infix_joinNl_cases hne hnl ls hinf
  have := containsSeq_iff.mpr hl
  rw [h l hmem] at this
  exact absurd this (by decide)

/-- The `REALIZED TRADES` header line occurs in the report exactly when the
trade list is nonempty, and likewise `OPEN POSITIONS` exactly when the open
position list is nonempty. -/
theorem report_sections_iff {trades : List Trade} {ops : List OpenPosition} (m : Metrics)
    {f : String} {g : JStr} (htg : ∀ t ∈ trades, GoodTrade t = true)
    (hog : ∀ p ∈ ops, GoodOpen p = true) (hf : GoodName f = true) (hg : GoodGen g = true) :
    (containsSeq (generateReport trades ops m f g) (S "REALIZED TRADES") = true ↔
      trades ≠ []) ∧
    (containsSeq (generateReport trades ops m f g) (S "OPEN POSITIONS") = true ↔
      ops ≠ []) := by
  constructor
  · constructor
    · intro hcont hnil
      subst hnil
      have hfalse : containsSeq (generateReport [] ops m f g) (S "REALIZED TRADES") = false := by
        rw [generateReport]
        apply containsSeq_joinNl_false (by decide) (by decide)
        intro l hl
        rw [generateReportLines] at hl
        simp only [List.mem_append] at hl
        rcases hl with ((((((h' | h') | h') | h') | h') | h') | h') | h'
        · exact headerLines_safe hg l h' _ (by decide)
        · exact overallLines_safe m l h' _ (by decide)
        · exact breakdownLines_safe m l h' _ (by decide)
        · rw [tradesSection, if_neg (by decide)] at h'
          exact absurd h' (List.not_mem_nil l)
        · exact openSection_safe hog l h' _ (by decide)
        · rw [productSection, if_neg (by decide)] at h'
          exact absurd h' (List.not_mem_nil l)
        · exact typeSection_safe [] m l h' _ (by decide)
        · exact footerLines_safe hf l h' _ (by decide)
      rw [hfalse] at hcont
      exact absurd hcont (by decide)
    · intro hne
      have htr : 0 < trades.length := List.length_pos.mpr hne
      rw [generateReport]
      refine @containsSeq_joinNl_true _
        (S "REALIZED TRADES (" ++ natToChars trades.length ++ [')']) _ ?_ ?_
      · rw [generateReportLines]
        refine List.mem_append_left _ (List.mem_append_left _ (List.mem_append_left _
          (List.mem_append_left _ (List.mem_append_right _ ?_))))
        rw [tradesSection, if_pos htr]
        exact List.mem_cons_self _ _
      · have h1 : S "REALIZED TRADES" <+: S "REALIZED TRADES (" := ⟨S " (", by decide⟩
        exact contains_of_prefix ((h1.trans (List.prefix_append _ _)).trans
          (List.prefix_append _ _))
  · constructor
    · intro hcont hnil
      subst hnil
      have hfalse : containsSeq (generateReport trades [] m f g) (S "OPEN POSITIONS") = false := by
        rw [generateReport]
        apply containsSeq_joinNl_false (by decide) (by decide)
        intro l hl
        rw [generateReportLines] at hl
        simp only [List.mem_append] at hl
        rcases hl with ((((((h' | h') | h') | h') | h') | h') | h') | h'
        · exact headerLines_safe hg l h' _ (by decide)
        · exact overallLines_safe m l h' _ (by decide)
        · exact breakdownLines_safe m l h' _ (by decide)
        · exact tradesSection_safe htg l h' _ (by decide)
        · rw [openSection, if_neg (by decide)] at h'
          exact absurd h' (List.not_mem_nil l)
        · exact productSection_safe htg l h' _ (by decide)
        · exact typeSection_safe trades m l h' _ (by decide)
        · exact footerLines_safe hf l h' _ (by decide)
      rw [hfalse] at hcont
      exact absurd hcont (by decide)
    · intro hne
      have hop : 0 < ops.length := List.length_pos.mpr hne
      rw [generateReport]
      refine @containsSeq_joinNl_true _
        (S "OPEN POSITIONS (" ++ natToChars ops.length ++ [')']) _ ?_ ?_
      · rw [generateReportLines]
        refine List.mem_append_left _ (List.mem_append_left _ (List.mem_append_left _
          (List.mem_append_right _ ?_)))
        rw [openSection, if_pos hop]
        exact List.mem_cons_self _ _
      · have h1 : S "OPEN POSITIONS" <+: S "OPEN POSITIONS (" := ⟨S " (", by decide⟩
        exact contains_of_prefix ((h1.trans (List.prefix_append _ _)).trans
          (List.prefix_append _ _))

/-- Open-position rows are rendered sorted ascending by symbol. -/
theorem sortedOpens_pairwise (ops : List OpenPosition) :
    List.Pairwise (fun a b : OpenPosition => a.symbol ≤ b.symbol) (sortedOpens ops) := by
  rw [sortedOpens]
  have htrans : ∀ a b c : OpenPosition, decide (a.symbol ≤ b.symbol) = true →
      decide (b.symbol ≤ c.symbol) = true → decide (a.symbol ≤ c.symbol) = true :=
    fun a b c hab hbc =>
      decide_eq_true (le_trans (of_decide_eq_true hab) (of_decide_eq_true hbc))
  have htotal : ∀ a b : OpenPosition,
      (decide (a.symbol ≤ b.symbol) || decide (b.symbol ≤ a.symbol)) = true := by
    intro a b
    rcases le_total a.symbol b.symbol with h | h
    · simp [h]
    · simp [h]
  exact (@List.sorted_mergeSort OpenPosition
    (fun a b => decide (a.symbol ≤ b.symbol)) htrans htotal ops).imp
    (fun hab => of_decide_eq_true hab)

/-- C8, counterexample: the single-buy order stream is a valid input that
produces no realized trades, and the report rendered for it omits the
`REALIZED TRADES` section entirely (the generator only pushes that block
when `trades.length > 0`), contradicting the claim that the section is
present for every valid input. -/
theorem C8_sections_counterexample :
    (buildTradesFromOrders [mkOrder 0 1 100]).1 = [] ∧
    (buildTradesFromOrders [mkOrder 0 1 100]).2 ≠ [] ∧
    containsSeq
      (generateReport (buildTradesFromOrders [mkOrder 0 1 100]).1
        (buildTradesFromOrders [mkOrder 0 1 100]).2
        (calculateMetrics (buildTradesFromOrders [mkOrder 0 1 100]).1)
        "fills.csv" (S "2026-02-03 10:00")) (S "REALIZED TRADES") = false := by
  have h1 : (buildTradesFromOrders [mkOrder 0 1 100]).1 = [] := by decide
  refine ⟨h1, by decide, ?_⟩
  have hiff := (@report_sections_iff
    (buildTradesFromOrders [mkOrder 0 1 100]).1
    (buildTradesFromOrders [mkOrder 0 1 100]).2
    (calculateMetrics (buildTradesFromOrders [mkOrder 0 1 100]).1)
    "fills.csv" (S "2026-02-03 10:00")
    (by decide) (by decide) (by decide) (by decide)).1
  cases hc : containsSeq
      (generateReport (buildTradesFromOrders [mkOrder 0 1 100]).1
        (buildTradesFromOrders [mkOrder 0 1 100]).2
        (calculateMetrics (buildTradesFromOrders [mkOrder 0 1 100]).1)
        "fills.csv" (S "2026-02-03 10:00")) (S "REALIZED TRADES") with
  | false => rfl
  | true => exact absurd h1 (hiff.mp hc)

/-- C8, amended: for well-formed inputs the `REALIZED TRADES` section is
present in the rendered report if and only if the realized-trade list is
nonempty (not unconditionally, as the claim states); each realized-trade
row splits into exactly 14 whitespace tokens (the two timestamps
contributing two tokens each); and the `OPEN POSITIONS` section is present
if and only if at least one open position exists, its rows sorted
ascending by symbol. -/
theorem C8_sections_amended {trades : List Trade} {ops : List OpenPosition} (m : Metrics)
    {f : String} {g : JStr} (htg : ∀ t ∈ trades, GoodTrade t = true)
    (hog : ∀ p ∈ ops, GoodOpen p = true) (hf : GoodName f = true) (hg : GoodGen g = true) :
    (containsSeq (generateReport trades ops m f g) (S "REALIZED TRADES") = true ↔
      trades ≠ []) ∧
    (containsSeq (generateReport trades ops m f g) (S "OPEN POSITIONS") = true ↔
      ops ≠ []) ∧
    (∀ t ∈ trades, (splitWsTrim (tradeRow t)).length = 14) ∧
    List.Pairwise (fun a b : OpenPosition => a.symbol ≤ b.symbol) (sortedOpens ops) := by
  obtain ⟨hRT, hOP⟩ := report_sections_iff m htg hog hf hg
  refine ⟨hRT, hOP, fun t ht => ?_, sortedOpens_pairwise ops⟩
  rw [(tradeRow_props (htg t ht)).1, List.length_map]
  rfl

/-- C8, amended, witness: the amended statement instantiated at a concrete
one-trade, one-open-position report. -/
theorem C8_sections_amended_witness :
    ((∀ t ∈ [flipTrade], GoodTrade t = true) ∧ (∀ p ∈ [probeOpen], GoodOpen p = true) ∧
      GoodName "fills.csv" = true ∧ GoodGen (S "2026-02-03 10:00") = true) ∧
    ((containsSeq (generateReport [flipTrade] [probeOpen] (calculateMetrics [flipTrade])
        "fills.csv" (S "2026-02-03 10:00")) (S "REALIZED TRADES") = true ↔
      [flipTrade] ≠ []) ∧
    (containsSeq (generateReport [flipTrade] [probeOpen] (calculateMetrics [flipTrade])
        "fills.csv" (S "2026-02-03 10:00")) (S "OPEN POSITIONS") = true ↔
      [probeOpen] ≠ []) ∧
    (∀ t ∈ [flipTrade], (splitWsTrim (tradeRow t)).length = 14) ∧
    List.Pairwise (fun a b : OpenPosition => a.symbol ≤ b.symbol) (sortedOpens [probeOpen])) :=
  ⟨⟨by decide, by decide, by decide, by decide⟩,
    C8_sections_amended (calculateMetrics [flipTrade])
      (by decide) (by decide) (by decide) (by decide)⟩


/-! ## Locating lines and labelled values inside the full report -/

theorem find?_concat {p : JStr → Bool} {pre : List JStr} (rest : List JStr)
    (h : ∀ l ∈ pre, p l = false) : (pre ++ rest).find? p = rest.find? p := by
  rw [List.find?_append, List.find?_eq_none.mpr (fun x hx hc => by rw [h x hx] at hc; cases hc),
    Option.none_or]

theorem head_not_ws_of_numChar {v : JStr} (hv : ∀ c ∈ v, numChar c = true) :
    ∀ c ∈ v.head?, isWsC c = false :=
  fun c hc => numChar_not_ws (hv c (List.mem_of_mem_head? hc))

theorem last_not_ws_of_numChar {v : JStr} (hv : ∀ c ∈ v, numChar c = true) :
    ∀ c ∈ v.getLast?, isWsC c = false := fun c hc => by
  rw [← List.head?_reverse] at hc
  exact numChar_not_ws (hv c (List.mem_reverse.mp (List.mem_of_mem_head? hc)))

/-- The common labelled-line extraction: a line `label ++ pad ++ v` whose
value consists of numeric-token characters parses to exactly `v`. -/
theorem labeledValue_num {lines : List JStr} {i : Int} {label pad v fb : JStr}
    (hline : getLine lines i = some (label ++ (pad ++ v)))
    (hlab : label ≠ [])
    (hpadrep : pad = List.replicate pad.length ' ')
    (hv : ∀ c ∈ v, numChar c = true) (hvne : v ≠ [])
    (c0 : Char) (hc0 : c0 ∈ label) (hc0n : numChar c0 = false) (hc0s : ¬ c0 = ' ') :
    labeledValue lines i label fb = v :=
  labeledValue_class (fun c => numChar c || c == ' ') hline hlab hpadrep (by decide)
    (fun c hc => by show (numChar c || (c == ' ')) = true; rw [hv c hc]; rfl)
    (head_not_ws_of_numChar hv) (last_not_ws_of_numChar hv) hvne c0 hc0
    (by show (numChar c0 || (c0 == ' ')) = false; simp [hc0n, hc0s])

theorem append_regroup2 {α} (a b r : List α) (t : α) :
    a ++ (b ++ t :: r) = (a ++ b) ++ t :: r := by
  simp [List.append_assoc]

theorem append_regroup3 {α} (a b c r : List α) (t : α) :
    a ++ (b ++ (c ++ t :: r)) = (a ++ (b ++ c)) ++ t :: r := by
  simp [List.append_assoc]

theorem append_regroup5 {α} (a b c d e r : List α) (t : α) :
    a ++ (b ++ (c ++ (d ++ (e ++ t :: r)))) = (a ++ (b ++ (c ++ (d ++ e)))) ++ t :: r := by
  simp [List.append_assoc]

theorem append_regroup6 {α} (a b c d e x r : List α) (t : α) :
    a ++ (b ++ (c ++ (d ++ (e ++ (x ++ t :: r))))) =
      (a ++ (b ++ (c ++ (d ++ (e ++ x))))) ++ t :: r := by
  simp [List.append_assoc]

/-- The first 28 report lines in explicit form when there is at least one
realized trade. -/
theorem reportLines_cons28 (trades : List Trade) (ops : List OpenPosition) (m : Metrics)
    (f : String) (g : JStr) (htr : 0 < trades.length) :
    generateReportLines trades ops m f g =
      repChar '=' 80 :: S "FUTURES TRADING PERFORMANCE REPORT" ::
      (S "Generated on: " ++ g) :: repChar '=' 80 :: [] ::
      S "OVERALL PERFORMANCE" :: repChar '-' 60 ::
      (S "Total Trades:    " ++ natToChars m.totalTrades) ::
      (S "Winning Trades:  " ++ natToChars m.winningTrades) ::
      (S "Losing Trades:   " ++ natToChars m.losingTrades) ::
      (S "Win Rate:        " ++ (toFixed m.winPercentage 1 ++ ['%'])) ::
      (S "Average Gain:    " ++ (toFixed m.avgGain 2 ++ ['%'])) ::
      (S "Average Loss:    " ++ (toFixed m.avgLoss 2 ++ ['%'])) ::
      (S "Total P/L:       $" ++ toFixed m.totalProfit 2) ::
      (S "Profit Factor:   " ++ pfToFixed m.profitFactor 2) ::
      (S "Average Size:    " ++ (toFixed m.avgSize 2 ++ S "% of capital")) ::
      [] :: S "POSITION BREAKDOWN" ::
      (S "Long Trades:     " ++ natToChars m.longTrades) ::
      (S "Short Trades:    " ++ natToChars m.shortTrades) ::
      (S "Long P/L:        $" ++ toFixed m.longProfit 2) ::
      (S "Short P/L:       $" ++ toFixed m.shortProfit 2) ::
      repChar '-' 60 :: [] ::
      (S "REALIZED TRADES (" ++ (natToChars trades.length ++ [')'])) ::
      repChar '-' 130 :: tradesColHeader :: repChar '-' 130 ::
      (trades.map tradeRow ++ ([] :: (openSection ops ++ (productSection trades ++
        (typeSection trades m ++ footerLines f))))) := by
  rw [generateReportLines, headerLines, overallLines, breakdownLines, tradesSection, if_pos htr]
  simp only [List.append_assoc, List.cons_append, List.nil_append]

/-- The report lines with the `OVERALL PERFORMANCE` header exposed. -/
theorem reportLines_shapeO (trades : List Trade) (ops : List OpenPosition) (m : Metrics)
    (f : String) (g : JStr) :
    generateReportLines trades ops m f g =
      headerLines g ++ (S "OVERALL PERFORMANCE" :: repChar '-' 60 ::
        (S "Total Trades:    " ++ natToChars m.totalTrades) ::
        (S "Winning Trades:  " ++ natToChars m.winningTrades) ::
        (S "Losing Trades:   " ++ natToChars m.losingTrades) ::
        (S "Win Rate:        " ++ (toFixed m.winPercentage 1 ++ ['%'])) ::
        (S "Average Gain:    " ++ (toFixed m.avgGain 2 ++ ['%'])) ::
        (S "Average Loss:    " ++ (toFixed m.avgLoss 2 ++ ['%'])) ::
        (S "Total P/L:       $" ++ toFixed m.totalProfit 2) ::
        (S "Profit Factor:   " ++ pfToFixed m.profitFactor 2) ::
        (S "Average Size:    " ++ (toFixed m.avgSize 2 ++ S "% of capital")) ::
        [] :: (breakdownLines m ++ (tradesSection trades ++ (openSection ops ++
          (productSection trades ++ (typeSection trades m ++ footerLines f)))))) := by
  rw [generateReportLines, overallLines]
  simp only [List.append_assoc, List.cons_append, List.nil_append]

/-- The report lines with the `POSITION BREAKDOWN` header exposed. -/
theorem reportLines_shapeP (trades : List Trade) (ops : List OpenPosition) (m : Metrics)
    (f : String) (g : JStr) :
    generateReportLines trades ops m f g =
      headerLines g ++ (overallLines m ++ (S "POSITION BREAKDOWN" ::
        (S "Long Trades:     " ++ natToChars m.longTrades) ::
        (S "Short Trades:    " ++ natToChars m.shortTrades) ::
        (S "Long P/L:        $" ++ toFixed m.longProfit 2) ::
        (S "Short P/L:       $" ++ toFixed m.shortProfit 2) ::
        repChar '-' 60 :: [] :: (tradesSection trades ++ (openSection ops ++
          (productSection trades ++ (typeSection trades m ++ footerLines f)))))) := by
  rw [generateReportLines, breakdownLines]
  simp only [List.append_assoc, List.cons_append, List.nil_append]

/-- The report lines with the `REALIZED TRADES` count line exposed. -/
theorem reportLines_shapeT (trades : List Trade) (ops : List OpenPosition) (m : Metrics)
    (f : String) (g : JStr) (htr : 0 < trades.length) :
    generateReportLines trades ops m f g =
      headerLines g ++ (overallLines m ++ (breakdownLines m ++
        ((S "REALIZED TRADES (" ++ (natToChars trades.length ++ [')'])) ::
          repChar '-' 130 :: tradesColHeader :: repChar '-' 130 ::
          (trades.map tradeRow ++ ([] :: (openSection ops ++ (productSection trades ++
            (typeSection trades m ++ footerLines f)))))))) := by
  rw [generateReportLines, tradesSection, if_pos htr]
  simp only [List.append_assoc, List.cons_append, List.nil_append]

/-- The report lines with the `PERFORMANCE BY PRODUCT` header exposed. -/
theorem reportLines_shapePr (trades : List Trade) (ops : List OpenPosition) (m : Metrics)
    (f : String) (g : JStr) (htr : 0 < trades.length) :
    generateReportLines trades ops m f g =
      headerLines g ++ (overallLines m ++ (breakdownLines m ++ (tradesSection trades ++
        (openSection ops ++ (S "PERFORMANCE BY PRODUCT" ::
          repChar '-' 70 :: productColHeader :: repChar '-' 70 ::
          (productRowsOf trades ++ ([] :: (typeSection trades m ++ footerLines f)))))))) := by
  rw [generateReportLines, productSection, if_pos htr]
  simp only [List.append_assoc, List.cons_append, List.nil_append]

/-- The report lines with the `PERFORMANCE BY POSITION TYPE` header exposed,
when both conditional type rows are present. -/
theorem reportLines_shapeTy (trades : List Trade) (ops : List OpenPosition) (m : Metrics)
    (f : String) (g : JStr) (hlt : 0 < m.longTrades) (hst : 0 < m.shortTrades) :
    generateReportLines trades ops m f g =
      headerLines g ++ (overallLines m ++ (breakdownLines m ++ (tradesSection trades ++
        (openSection ops ++ (productSection trades ++ (S "PERFORMANCE BY POSITION TYPE" ::
          repChar '-' 70 :: typeColHeader :: repChar '-' 70 ::
          longTypeRow trades m :: shortTypeRow trades m :: [] :: footerLines f)))))) := by
  rw [generateReportLines, typeSection, if_pos hlt, if_pos hst]
  simp only [List.append_assoc, List.cons_append, List.nil_append]


/-! ## The parser scan positions on a generated report -/

theorem report_find_generatedOn (trades : List Trade) (ops : List OpenPosition) (m : Metrics)
    (f : String) (g : JStr) (htr : 0 < trades.length) :
    (generateReportLines trades ops m f g).find? (fun l => containsSeq l (S "Generated on:")) =
      some (S "Generated on: " ++ g) := by
  rw [reportLines_cons28 trades ops m f g htr]
  have hn0 : ¬ (containsSeq (repChar '=' 80) (S "Generated on:") = true) := by decide
  have hn1 : ¬ (containsSeq (S "FUTURES TRADING PERFORMANCE REPORT")
      (S "Generated on:") = true) := by decide
  rw [@List.find?_cons_of_neg _ (fun l => containsSeq l (S "Generated on:"))
    (repChar '=' 80) _ hn0,
    @List.find?_cons_of_neg _ (fun l => containsSeq l (S "Generated on:"))
    (S "FUTURES TRADING PERFORMANCE REPORT") _ hn1]
  exact List.find?_cons_of_pos _ ( contains_of_prefix
    ((show S "Generated on:" <+: S "Generated on: " from ⟨[' '], by decide⟩).trans
      (List.prefix_append _ _)))

theorem report_findIdx_overall (trades : List Trade) (ops : List OpenPosition) (m : Metrics)
    (f : String) {g : JStr} (hg : GoodGen g = true) :
    jsFindIndex (generateReportLines trades ops m f g) (S "OVERALL PERFORMANCE") = 5 := by
  rw [reportLines_shapeO trades ops m f g]
  have hpre : ∀ l ∈ headerLines g, containsSeq l (S "OVERALL PERFORMANCE") = false :=
    fun l hl => headerLines_safe hg l hl (S "OVERALL PERFORMANCE") (by decide)
  have ht : containsSeq (S "OVERALL PERFORMANCE") (S "OVERALL PERFORMANCE") = true := by decide
  rw [jsFindIndex_concat _ hpre ht]
  rfl

theorem report_findIdx_breakdown (trades : List Trade) (ops : List OpenPosition) (m : Metrics)
    (f : String) {g : JStr} (hg : GoodGen g = true) :
    jsFindIndex (generateReportLines trades ops m f g) (S "POSITION BREAKDOWN") = 17 := by
  rw [reportLines_shapeP trades ops m f g, append_regroup2]
  have hpre : ∀ l ∈ headerLines g ++ overallLines m,
      containsSeq l (S "POSITION BREAKDOWN") = false := by
    intro l hl
    rcases List.mem_append.mp hl with h | h
    · exact headerLines_safe hg l h (S "POSITION BREAKDOWN") (by decide)
    · exact overallLines_safe m l h (S "POSITION BREAKDOWN") (by decide)
  have ht : containsSeq (S "POSITION BREAKDOWN") (S "POSITION BREAKDOWN") = true := by decide
  rw [jsFindIndex_concat _ hpre ht]
  rfl

theorem report_findIdx_trades (trades : List Trade) (ops : List OpenPosition) (m : Metrics)
    (f : String) {g : JStr} (hg : GoodGen g = true) (htr : 0 < trades.length) :
    jsFindIndex (generateReportLines trades ops m f g) (S "REALIZED TRADES") = 24 := by
  rw [reportLines_shapeT trades ops m f g htr, append_regroup3]
  have hpre : ∀ l ∈ headerLines g ++ (overallLines m ++ breakdownLines m),
      containsSeq l (S "REALIZED TRADES") = false := by
    intro l hl
    rcases List.mem_append.mp hl with h | h
    · exact headerLines_safe hg l h (S "REALIZED TRADES") (by decide)
    rcases List.mem_append.mp h with h2 | h2
    · exact overallLines_safe m l h2 (S "REALIZED TRADES") (by decide)
    · exact breakdownLines_safe m l h2 (S "REALIZED TRADES") (by decide)
  have ht : containsSeq (S "REALIZED TRADES (" ++ (natToChars trades.length ++ [')']))
      (S "REALIZED TRADES") = true :=
    contains_of_prefix ((show S "REALIZED TRADES" <+: S "REALIZED TRADES (" from
      ⟨S " (", by decide⟩).trans (List.prefix_append _ _))
  rw [jsFindIndex_concat _ hpre ht]
  rfl

theorem report_findIdx_product {trades : List Trade} {ops : List OpenPosition} (m : Metrics)
    (f : String) {g : JStr} (htg : ∀ t ∈ trades, GoodTrade t = true)
    (hog : ∀ p ∈ ops, GoodOpen p = true) (hg : GoodGen g = true) (htr : 0 < trades.length) :
    jsFindIndex (generateReportLines trades ops m f g) (S "PERFORMANCE BY PRODUCT") =
      ((headerLines g ++ (overallLines m ++ (breakdownLines m ++ (tradesSection trades ++
        openSection ops)))).length : Int) := by
  rw [reportLines_shapePr trades ops m f g htr, append_regroup5]
  have hpre : ∀ l ∈ headerLines g ++ (overallLines m ++ (breakdownLines m ++
      (tradesSection trades ++ openSection ops))),
      containsSeq l (S "PERFORMANCE BY PRODUCT") = false := by
    intro l hl
    rcases List.mem_append.mp hl with h | h
    · exact headerLines_safe hg l h (S "PERFORMANCE BY PRODUCT") (by decide)
    rcases List.mem_append.mp h with h2 | h2
    · exact overallLines_safe m l h2 (S "PERFORMANCE BY PRODUCT") (by decide)
    rcases List.mem_append.mp h2 with h3 | h3
    · exact breakdownLines_safe m l h3 (S "PERFORMANCE BY PRODUCT") (by decide)
    rcases List.mem_append.mp h3 with h4 | h4
    · exact tradesSection_safe htg l h4 (S "PERFORMANCE BY PRODUCT") (by decide)
    · exact openSection_safe hog l h4 (S "PERFORMANCE BY PRODUCT") (by decide)
  have ht : containsSeq (S "PERFORMANCE BY PRODUCT") (S "PERFORMANCE BY PRODUCT") = true := by
    decide
  rw [jsFindIndex_concat _ hpre ht]

theorem report_findIdx_type {trades : List Trade} {ops : List OpenPosition} {m : Metrics}
    (f : String) {g : JStr} (htg : ∀ t ∈ trades, GoodTrade t = true)
    (hog : ∀ p ∈ ops, GoodOpen p = true) (hg : GoodGen g = true)
    (hlt : 0 < m.longTrades) (hst : 0 < m.shortTrades) :
    jsFindIndex (generateReportLines trades ops m f g) (S "PERFORMANCE BY POSITION TYPE") =
      ((headerLines g ++ (overallLines m ++ (breakdownLines m ++ (tradesSection trades ++
        (openSection ops ++ productSection trades))))).length : Int) := by
  rw [reportLines_shapeTy trades ops m f g hlt hst, append_regroup6]
  have hpre : ∀ l ∈ headerLines g ++ (overallLines m ++ (breakdownLines m ++
      (tradesSection trades ++ (openSection ops ++ productSection trades)))),
      containsSeq l (S "PERFORMANCE BY POSITION TYPE") = false := by
    intro l hl
    rcases List.mem_append.mp hl with h | h
    · exact headerLines_safe hg l h (S "PERFORMANCE BY POSITION TYPE") (by decide)
    rcases List.mem_append.mp h with h2 | h2
    · exact overallLines_safe m l h2 (S "PERFORMANCE BY POSITION TYPE") (by decide)
    rcases List.mem_append.mp h2 with h3 | h3
    · exact breakdownLines_safe m l h3 (S "PERFORMANCE BY POSITION TYPE") (by decide)
    rcases List.mem_append.mp h3 with h4 | h4
    · exact tradesSection_safe htg l h4 (S "PERFORMANCE BY POSITION TYPE") (by decide)
    rcases List.mem_append.mp h4 with h5 | h5
    · exact openSection_safe hog l h5 (S "PERFORMANCE BY POSITION TYPE") (by decide)
    · exact productSection_safe htg l h5 (S "PERFORMANCE BY POSITION TYPE") (by decide)
  have ht : containsSeq (S "PERFORMANCE BY POSITION TYPE")
      (S "PERFORMANCE BY POSITION TYPE") = true := by decide
  rw [jsFindIndex_concat _ hpre ht]

theorem report_find_source {trades : List Trade} {ops : List OpenPosition} (m : Metrics)
    (f : String) {g : JStr} (htg : ∀ t ∈ trades, GoodTrade t = true)
    (hog : ∀ p ∈ ops, GoodOpen p = true) (hg : GoodGen g = true) :
    (generateReportLines trades ops m f g).find? (fun l => containsSeq l (S "Source:")) =
      some (S "Source: " ++ S f) := by
  rw [generateReportLines]
  have hpre : ∀ l ∈ headerLines g ++ overallLines m ++ breakdownLines m ++
      tradesSection trades ++ openSection ops ++ productSection trades ++ typeSection trades m,
      containsSeq l (S "Source:") = false := by
    intro l hl
    simp only [List.mem_append] at hl
    rcases hl with (((((h | h) | h) | h) | h) | h) | h
    · exact headerLines_safe hg l h (S "Source:") (by decide)
    · exact overallLines_safe m l h (S "Source:") (by decide)
    · exact breakdownLines_safe m l h (S "Source:") (by decide)
    · exact tradesSection_safe htg l h (S "Source:") (by decide)
    · exact openSection_safe hog l h (S "Source:") (by decide)
    · exact productSection_safe htg l h (S "Source:") (by decide)
    · exact typeSection_safe trades m l h (S "Source:") (by decide)
  rw [find?_concat (footerLines f) hpre, footerLines]
  exact List.find?_cons_of_pos _ ( contains_of_prefix
    ((show S "Source:" <+: S "Source: " from ⟨[' '], by decide⟩).trans (List.prefix_append _ _)))

theorem report_find_capital {trades : List Trade} {ops : List OpenPosition} (m : Metrics)
    {f : String} {g : JStr} (htg : ∀ t ∈ trades, GoodTrade t = true)
    (hog : ∀ p ∈ ops, GoodOpen p = true) (hf : GoodName f = true) (hg : GoodGen g = true) :
    (generateReportLines trades ops m f g).find? (fun l => containsSeq l (S "Capital base:")) =
      some (S "Capital base: $100,000") := by
  rw [generateReportLines]
  have hpre : ∀ l ∈ headerLines g ++ overallLines m ++ breakdownLines m ++
      tradesSection trades ++ openSection ops ++ productSection trades ++ typeSection trades m,
      containsSeq l (S "Capital base:") = false := by
    intro l hl
    simp only [List.mem_append] at hl
    rcases hl with (((((h | h) | h) | h) | h) | h) | h
    · exact headerLines_safe hg l h (S "Capital base:") (by decide)
    · exact overallLines_safe m l h (S "Capital base:") (by decide)
    · exact breakdownLines_safe m l h (S "Capital base:") (by decide)
    · exact tradesSection_safe htg l h (S "Capital base:") (by decide)
    · exact openSection_safe hog l h (S "Capital base:") (by decide)
    · exact productSection_safe htg l h (S "Capital base:") (by decide)
    · exact typeSection_safe trades m l h (S "Capital base:") (by decide)
  rw [find?_concat (footerLines f) hpre, footerLines]
  have hn : ¬ (containsSeq (S "Source: " ++ S f) (S "Capital base:") = true) := by
    simp [sourceLine_no_capital hf]
  rw [@List.find?_cons_of_neg _ (fun l => containsSeq l (S "Capital base:"))
    (S "Source: " ++ S f) _ hn]
  exact List.find?_cons_of_pos _ (by decide)

theorem report_drop_trades (trades : List Trade) (ops : List OpenPosition) (m : Metrics)
    (f : String) (g : JStr) (htr : 0 < trades.length) :
    (generateReportLines trades ops m f g).drop 28 =
      trades.map tradeRow ++ ([] :: (openSection ops ++ (productSection trades ++
        (typeSection trades m ++ footerLines f)))) := by
  rw [reportLines_cons28 trades ops m f g htr]
  rfl

theorem report_drop_product (trades : List Trade) (ops : List OpenPosition) (m : Metrics)
    (f : String) (g : JStr) (htr : 0 < trades.length) :
    (generateReportLines trades ops m f g).drop
      ((headerLines g ++ (overallLines m ++ (breakdownLines m ++ (tradesSection trades ++
        openSection ops)))).length + 4) =
      productRowsOf trades ++ ([] :: (typeSection trades m ++ footerLines f)) := by
  rw [reportLines_shapePr trades ops m f g htr, append_regroup5, List.drop_append]
  rfl

theorem report_drop_type (trades : List Trade) (ops : List OpenPosition) {m : Metrics}
    (f : String) (g : JStr) (hlt : 0 < m.longTrades) (hst : 0 < m.shortTrades) :
    (generateReportLines trades ops m f g).drop
      ((headerLines g ++ (overallLines m ++ (breakdownLines m ++ (tradesSection trades ++
        (openSection ops ++ productSection trades))))).length + 4) =
      longTypeRow trades m :: shortTypeRow trades m :: [] :: footerLines f := by
  rw [reportLines_shapeTy trades ops m f g hlt hst, append_regroup6, List.drop_append]
  rfl


/-- C6: rendering a report that contains realized trades, open positions and
both breakdown tables, then re-parsing the text with `parseReport`,
reproduces every field: the generated-on text, the overall and breakdown
metrics (counts re-read as integers, the other numbers as their rendered
fixed-point strings), every realized-trade row, every by-product row, both
position-type rows, the source file name and the capital base — no row is
dropped. -/
theorem C6_round_trip {trades : List Trade} {ops : List OpenPosition} (m : Metrics)
    {f : String} {g : JStr}
    (htne : trades ≠ []) (hone : ops ≠ [])
    (htg : ∀ t ∈ trades, GoodTrade t = true) (hog : ∀ p ∈ ops, GoodOpen p = true)
    (hf : GoodName f = true) (hg : GoodGen g = true)
    (hlt : 0 < m.longTrades) (hst : 0 < m.shortTrades) :
    parseReport (generateReport trades ops m f g) =
      { generatedOn := g
        overallPerformance :=
          { totalTrades := (m.totalTrades : Int)
            winningTrades := (m.winningTrades : Int)
            losingTrades := (m.losingTrades : Int)
            winRate := toFixed m.winPercentage 1 ++ ['%']
            avgGain := toFixed m.avgGain 2 ++ ['%']
            avgLoss := toFixed m.avgLoss 2 ++ ['%']
            totalPL := '$' :: toFixed m.totalProfit 2
            profitFactor := pfToFixed m.profitFactor 2
            avgSize := toFixed m.avgSize 2 ++ S "% of capital" }
        positionBreakdown :=
          { longTrades := (m.longTrades : Int)
            shortTrades := (m.shortTrades : Int)
            longPL := '$' :: toFixed m.longProfit 2
            shortPL := '$' :: toFixed m.shortProfit 2 }
        trades := trades.map parsedTradeOf
        performanceByProduct :=
          ((dedupFirst (trades.map (·.baseSymbol))).mergeSort (fun a b => decide (a ≤ b))).map
            (fun sym => parsedProductOf sym (trades.filter (fun t => t.baseSymbol == sym)))
        performanceByPosition := [parsedLongOf trades m, parsedShortOf trades m]
        source := S f
        capitalBase := S "$100,000" } := by
  have htr : 0 < trades.length := List.length_pos.mpr htne
  have hc28 := reportLines_cons28 trades ops m f g htr
  have hsplitL : jsSplitSeq (generateReport trades ops m f g) (S "\n") =
      generateReportLines trades ops m f g := by
    rw [generateReport]
    refine jsSplitSeq_joinNl _ ?_ (generateReportLines_nl htg hog hf hg)
    rw [hc28]
    exact List.cons_ne_nil _ _
  have hl7 : getLine (generateReportLines trades ops m f g) (5 + 2) =
      some (S "Total Trades:" ++ (S "    " ++ natToChars m.totalTrades)) := by rw [hc28]; rfl
  have hv7 : labeledValue (generateReportLines trades ops m f g) (5 + 2) (S "Total Trades:")
      (S "0") = natToChars m.totalTrades :=
    labeledValue_num hl7 (by decide) (by decide) (nat_chars _) (natToChars_ne_nil _)
      'T' (by decide) (by decide) (by decide)
  have hl8 : getLine (generateReportLines trades ops m f g) (5 + 3) =
      some (S "Winning Trades:" ++ (S "  " ++ natToChars m.winningTrades)) := by rw [hc28]; rfl
  have hv8 : labeledValue (generateReportLines trades ops m f g) (5 + 3) (S "Winning Trades:")
      (S "0") = natToChars m.winningTrades :=
    labeledValue_num hl8 (by decide) (by decide) (nat_chars _) (natToChars_ne_nil _)
      'W' (by decide) (by decide) (by decide)
  have hl9 : getLine (generateReportLines trades ops m f g) (5 + 4) =
      some (S "Losing Trades:" ++ (S "   " ++ natToChars m.losingTrades)) := by rw [hc28]; rfl
  have hv9 : labeledValue (generateReportLines trades ops m f g) (5 + 4) (S "Losing Trades:")
      (S "0") = natToChars m.losingTrades :=
    labeledValue_num hl9 (by decide) (by decide) (nat_chars _) (natToChars_ne_nil _)
      'L' (by decide) (by decide) (by decide)
  have hl10 : getLine (generateReportLines trades ops m f g) (5 + 5) =
      some (S "Win Rate:" ++ (S "        " ++ (toFixed m.winPercentage 1 ++ ['%']))) := by
    rw [hc28]; rfl
  have hv10 : labeledValue (generateReportLines trades ops m f g) (5 + 5) (S "Win Rate:")
      [] = toFixed m.winPercentage 1 ++ ['%'] :=
    labeledValue_num hl10 (by decide) (by decide) (pct_chars _ _) (by simp)
      'W' (by decide) (by decide) (by decide)
  have hl11 : getLine (generateReportLines trades ops m f g) (5 + 6) =
      some (S "Average Gain:" ++ (S "    " ++ (toFixed m.avgGain 2 ++ ['%']))) := by
    rw [hc28]; rfl
  have hv11 : labeledValue (generateReportLines trades ops m f g) (5 + 6) (S "Average Gain:")
      [] = toFixed m.avgGain 2 ++ ['%'] :=
    labeledValue_num hl11 (by decide) (by decide) (pct_chars _ _) (by simp)
      'A' (by decide) (by decide) (by decide)
  have hl12 : getLine (generateReportLines trades ops m f g) (5 + 7) =
      some (S "Average Loss:" ++ (S "    " ++ (toFixed m.avgLoss 2 ++ ['%']))) := by
    rw [hc28]; rfl
  have hv12 : labeledValue (generateReportLines trades ops m f g) (5 + 7) (S "Average Loss:")
      [] = toFixed m.avgLoss 2 ++ ['%'] :=
    labeledValue_num hl12 (by decide) (by decide) (pct_chars _ _) (by simp)
      'A' (by decide) (by decide) (by decide)
  have hl13 : getLine (generateReportLines trades ops m f g) (5 + 8) =
      some (S "Total P/L:" ++ (S "       " ++ ('$' :: toFixed m.totalProfit 2))) := by
    rw [hc28]; rfl
  have hv13 : labeledValue (generateReportLines trades ops m f g) (5 + 8) (S "Total P/L:")
      [] = '$' :: toFixed m.totalProfit 2 :=
    labeledValue_num hl13 (by decide) (by decide) (dollar_chars _ _) (List.cons_ne_nil _ _)
      'T' (by decide) (by decide) (by decide)
  have hv14 : labeledValue (generateReportLines trades ops m f g) (5 + 9) (S "Profit Factor:")
      [] = pfToFixed m.profitFactor 2 := by
    cases hpf : m.profitFactor with
    | finite q =>
      have hl14 : getLine (generateReportLines trades ops m f g) (5 + 9) =
          some (S "Profit Factor:" ++ (S "   " ++ toFixed q 2)) := by rw [hc28, hpf]; rfl
      exact labeledValue_num hl14 (by decide) (by decide) (toFixed_chars _ _)
        (toFixed_ne_nil _ _) 'P' (by decide) (by decide) (by decide)
    | posInf =>
      have hl14 : getLine (generateReportLines trades ops m f g) (5 + 9) =
          some (S "Profit Factor:" ++ S "   Infinity") := by rw [hc28, hpf]; rfl
      exact (labeledValue_eq hl14 (by decide) (by decide) (by decide)).trans (by decide)
  have hl15 : getLine (generateReportLines trades ops m f g) (5 + 10) =
      some (S "Average Size:" ++ (S "    " ++ (toFixed m.avgSize 2 ++ S "% of capital"))) := by
    rw [hc28]; rfl
  have hv15 : labeledValue (generateReportLines trades ops m f g) (5 + 10) (S "Average Size:")
      [] = toFixed m.avgSize 2 ++ S "% of capital" := by
    refine labeledValue_class (fun c => !(isCap c)) hl15 (by decide) (by decide) (by decide)
      (notCap_avgSize m.avgSize) ?_ ?_
      (fun h => (by decide : S "% of capital" ≠ ([] : JStr)) (List.append_eq_nil.mp h).2)
      'A' (by decide) (by decide)
    · rw [head?_append_left (toFixed_ne_nil _ _)]
      exact head_not_ws_of_numChar (toFixed_chars _ _)
    · rw [getLast?_append_right (by decide : S "% of capital" ≠ ([] : JStr))]
      intro c hc
      have h2 : (S "% of capital").getLast? = some 'l' := by decide
      rw [h2] at hc
      have hcl : 'l' = c := by simpa using hc
      rw [← hcl]
      decide
  have hl18 : getLine (generateReportLines trades ops m f g) (17 + 1) =
      some (S "Long Trades:" ++ (S "     " ++ natToChars m.longTrades)) := by rw [hc28]; rfl
  have hv18 : labeledValue (generateReportLines trades ops m f g) (17 + 1) (S "Long Trades:")
      (S "0") = natToChars m.longTrades :=
    labeledValue_num hl18 (by decide) (by decide) (nat_chars _) (natToChars_ne_nil _)
      'L' (by decide) (by decide) (by decide)
  have hl19 : getLine (generateReportLines trades ops m f g) (17 + 2) =
      some (S "Short Trades:" ++ (S "    " ++ natToChars m.shortTrades)) := by rw [hc28]; rfl
  have hv19 : labeledValue (generateReportLines trades ops m f g) (17 + 2) (S "Short Trades:")
      (S "0") = natToChars m.shortTrades :=
    labeledValue_num hl19 (by decide) (by decide) (nat_chars _) (natToChars_ne_nil _)
      'S' (by decide) (by decide) (by decide)
  have hl20 : getLine (generateReportLines trades ops m f g) (17 + 3) =
      some (S "Long P/L:" ++ (S "        " ++ ('$' :: toFixed m.longProfit 2))) := by
    rw [hc28]; rfl
  have hv20 : labeledValue (generateReportLines trades ops m f g) (17 + 3) (S "Long P/L:")
      [] = '$' :: toFixed m.longProfit 2 :=
    labeledValue_num hl20 (by decide) (by decide) (dollar_chars _ _) (List.cons_ne_nil _ _)
      'L' (by decide) (by decide) (by decide)
  have hl21 : getLine (generateReportLines trades ops m f g) (17 + 4) =
      some (S "Short P/L:" ++ (S "       " ++ ('$' :: toFixed m.shortProfit 2))) := by
    rw [hc28]; rfl
  have hv21 : labeledValue (generateReportLines trades ops m f g) (17 + 4) (S "Short P/L:")
      [] = '$' :: toFixed m.shortProfit 2 :=
    labeledValue_num hl21 (by decide) (by decide) (dollar_chars _ _) (List.cons_ne_nil _ _)
      'S' (by decide) (by decide) (by decide)
  have hGen : (jsSplitSeq (S "Generated on: " ++ g) (S "Generated on: ")).getD 1 [] = g := by
    rw [ jsSplitSeq_sep_prefix _ _ (by decide), jsSplitSeq_no_occ (by decide)
      (not_contains_of_prefix_excl
        (show S "Generated on:" <+: S "Generated on: " from ⟨[' '], by decide⟩)
        ((goodGen_parts hg).1 _ (by decide)))]
    rfl
  have hSrcv : (jsSplitSeq (S "Source: " ++ S f) (S "Source: ")).getD 1 [] = S f := by
    rw [ jsSplitSeq_sep_prefix _ _ (by decide), jsSplitSeq_no_occ (by decide)
      (show containsSeq (S f) (S "Source: ") = false from not_contains_of_prefix_excl
        (show S "Source:" <+: S "Source: " from ⟨[' '], by decide⟩)
        (goodName_parts hf).2.2.2.1)]
    rfl
  have hCapv : (jsSplitSeq (S "Capital base: $100,000") (S "Capital base: ")).getD 1 [] =
      S "$100,000" := by
    rw [show S "Capital base: $100,000" = S "Capital base: " ++ S "$100,000" from by decide]
    rw [ jsSplitSeq_sep_prefix _ _ (by decide), jsSplitSeq_no_occ (by decide) (by decide)]
    rfl
  have hTr : tradeRowsLoop ((generateReportLines trades ops m f g).drop
      (((24 : Int) + 4).toNat)) = trades.map parsedTradeOf := by
    show tradeRowsLoop ((generateReportLines trades ops m f g).drop 28) = _
    rw [report_drop_trades trades ops m f g htr]
    exact tradeRowsLoop_map trades _ htg
  have hProd : productRowsLoop ((generateReportLines trades ops m f g).drop
      ((((headerLines g ++ (overallLines m ++ (breakdownLines m ++ (tradesSection trades ++
        openSection ops)))).length : Int) + 4).toNat)) =
      ((dedupFirst (trades.map (·.baseSymbol))).mergeSort (fun a b => decide (a ≤ b))).map
        (fun sym => parsedProductOf sym (trades.filter (fun t => t.baseSymbol == sym))) := by
    have htn : ((((headerLines g ++ (overallLines m ++ (breakdownLines m ++
        (tradesSection trades ++ openSection ops)))).length : Int) + 4).toNat) =
        (headerLines g ++ (overallLines m ++ (breakdownLines m ++ (tradesSection trades ++
          openSection ops)))).length + 4 := by omega
    rw [htn, report_drop_product trades ops m f g htr, productRowsOf]
    exact productRowsLoop_map _ trades _ (fun sym hs => productKeys_goodSym htg hs)
  have hPos : positionRowsLoop ((generateReportLines trades ops m f g).drop
      ((((headerLines g ++ (overallLines m ++ (breakdownLines m ++ (tradesSection trades ++
        (openSection ops ++ productSection trades))))).length : Int) + 4).toNat)) =
      [parsedLongOf trades m, parsedShortOf trades m] := by
    have htn : ((((headerLines g ++ (overallLines m ++ (breakdownLines m ++
        (tradesSection trades ++ (openSection ops ++ productSection trades))))).length : Int) +
          4).toNat) =
        (headerLines g ++ (overallLines m ++ (breakdownLines m ++ (tradesSection trades ++
          (openSection ops ++ productSection trades))))).length + 4 := by omega
    rw [htn, report_drop_type trades ops f g hlt hst]
    exact positionRowsLoop_two trades m (footerLines f)
  have hfgen := report_find_generatedOn trades ops m f g htr
  have hfO := report_findIdx_overall trades ops m f hg
  have hfP := report_findIdx_breakdown trades ops m f hg
  have hfT := report_findIdx_trades trades ops m f hg htr
  have hfPr := report_findIdx_product m f htg hog hg htr
  have hfTy := report_findIdx_type f htg hog hg hlt hst
  have hfsrc := report_find_source m f htg hog hg
  have hfcap := report_find_capital m htg hog hf hg
  simp only [parseReport]
  rw [hsplitL, hfgen, hfO, hfP, hfT, hfPr, hfTy, hfsrc, hfcap]
  simp only [ParsedReport.mk.injEq, ParsedOverall.mk.injEq, ParsedBreakdown.mk.injEq]
  refine ⟨?_, ⟨?_, ?_, ?_, ?_, ?_, ?_, ?_, ?_, ?_⟩, ⟨?_, ?_, ?_, ?_⟩, ?_, ?_, ?_, ?_, ?_⟩
  · exact hGen
  · rw [hv7]; exact jsParseInt_natToChars _
  · rw [hv8]; exact jsParseInt_natToChars _
  · rw [hv9]; exact jsParseInt_natToChars _
  · exact hv10
  · exact hv11
  · exact hv12
  · exact hv13
  · exact hv14
  · exact hv15
  · rw [hv18]; exact jsParseInt_natToChars _
  · rw [hv19]; exact jsParseInt_natToChars _
  · exact hv20
  · exact hv21
  · exact hTr
  · exact hProd
  · exact hPos
  · exact hSrcv
  · exact hCapv


/-- C6, witness: the round trip instantiated at a concrete report with one
realized trade, one open position and both position-type rows. -/
theorem C6_round_trip_witness :
    ((([flipTrade] : List Trade) ≠ []) ∧ (([probeOpen] : List OpenPosition) ≠ []) ∧
      (∀ t ∈ [flipTrade], GoodTrade t = true) ∧ (∀ p ∈ [probeOpen], GoodOpen p = true) ∧
      GoodName "fills.csv" = true ∧ GoodGen (S "2026-02-03 10:00") = true ∧
      0 < probeMetrics.longTrades ∧ 0 < probeMetrics.shortTrades) ∧
    parseReport (generateReport [flipTrade] [probeOpen] probeMetrics "fills.csv"
        (S "2026-02-03 10:00")) =
      { generatedOn := S "2026-02-03 10:00"
        overallPerformance :=
          { totalTrades := (probeMetrics.totalTrades : Int)
            winningTrades := (probeMetrics.winningTrades : Int)
            losingTrades := (probeMetrics.losingTrades : Int)
            winRate := toFixed probeMetrics.winPercentage 1 ++ ['%']
            avgGain := toFixed probeMetrics.avgGain 2 ++ ['%']
            avgLoss := toFixed probeMetrics.avgLoss 2 ++ ['%']
            totalPL := '$' :: toFixed probeMetrics.totalProfit 2
            profitFactor := pfToFixed probeMetrics.profitFactor 2
            avgSize := toFixed probeMetrics.avgSize 2 ++ S "% of capital" }
        positionBreakdown :=
          { longTrades := (probeMetrics.longTrades : Int)
            shortTrades := (probeMetrics.shortTrades : Int)
            longPL := '$' :: toFixed probeMetrics.longProfit 2
            shortPL := '$' :: toFixed probeMetrics.shortProfit 2 }
        trades := [flipTrade].map parsedTradeOf
        performanceByProduct :=
          ((dedupFirst ([flipTrade].map (·.baseSymbol))).mergeSort
            (fun a b => decide (a ≤ b))).map
            (fun sym => parsedProductOf sym ([flipTrade].filter (fun t => t.baseSymbol == sym)))
        performanceByPosition :=
          [parsedLongOf [flipTrade] probeMetrics, parsedShortOf [flipTrade] probeMetrics]
        source := S "fills.csv"
        capitalBase := S "$100,000" } :=
  ⟨⟨List.cons_ne_nil _ _, List.cons_ne_nil _ _, by decide, by decide, by decide, by decide,
      by decide, by decide⟩,
    C6_round_trip probeMetrics (List.cons_ne_nil _ _) (List.cons_ne_nil _ _)
      (by decide) (by decide) (by decide) (by decide) (by decide) (by decide)⟩

end TradingReport
